import Mathlib

/-! # XCodec: encoder, framing and out-of-band control

A shallow embedding of `xcodec/xcodec_encoder.cc` and `xcodec/xcodec_pipe_pair.cc`, and of
the class `ConditionVariable` of `event/condition.h`.

Conventions.
* A `Buffer` is modelled by the flat sequence of its bytes (`List Nat`); the
  segmentation of the rope is not observable through the operations used here.
* `unsigned` offsets are natural numbers; buffers are far shorter than `2^32` bytes.
* Collaborators whose source is not in the tree (constants header, rolling hash,
  segment cache, back-reference window, `Buffer`, token decoder) are parameters or
  are modelled from the specification, and say so in their documentation.
-/

namespace XCodec

/-! ## Constants -/

/-- Modelled from the spec: `SEGMENT_LENGTH = 64` (xcodec/xcodec.h is absent). -/
abbrev XCODEC_SEGMENT_LENGTH : Nat := 64

/-- Modelled from the spec: `FRAME_LENGTH = 32768` (xcodec/xcodec.h is absent). -/
abbrev XCODEC_FRAME_LENGTH : Nat := 32768

/-- Modelled from the spec: `UUID_SIZE = 16`. -/
abbrev UUID_SIZE : Nat := 16

/-- Modelled from the spec: the reserved bytes and opcodes of xcodec/xcodec.h, whose
numeric values are not recoverable; they are parameters of the development. -/
structure Consts where
  XCODEC_MAGIC : Nat
  XCODEC_ESCAPE_CHAR : Nat
  XCODEC_DECLARE_CHAR : Nat
  XCODEC_BACKREF_CHAR : Nat
  XCODEC_HASHREF_CHAR : Nat
  XCODEC_OP_FRAME : Nat
  XCODEC_OP_OOB : Nat
  XCODEC_OP_HELLO : Nat
  XCODEC_OP_ASK : Nat
  XCODEC_OP_LEARN : Nat
  XCODEC_OP_EOS : Nat
  XCODEC_OP_EOS_ACK : Nat
deriving DecidableEq, Repr

/-- Modelled from the spec: the macro `XCODEC_CHAR_SPECIAL` holds of the four reserved
token bytes. -/
def XCODEC_CHAR_SPECIAL (c : Consts) (ch : Nat) : Bool :=
  ch == c.XCODEC_ESCAPE_CHAR || ch == c.XCODEC_DECLARE_CHAR ||
  ch == c.XCODEC_BACKREF_CHAR || ch == c.XCODEC_HASHREF_CHAR

/-- The predicate object `xcodec_special_p`. -/
def xcodec_special_p (c : Consts) (ch : Nat) : Bool := XCODEC_CHAR_SPECIAL c ch

/-- A sample constant table (distinct values, `MAGIC = 0xF1`) used to evaluate the model. -/
def sampleConsts : Consts :=
  { XCODEC_MAGIC := 0xf1, XCODEC_ESCAPE_CHAR := 0xf0, XCODEC_DECLARE_CHAR := 0xf2,
    XCODEC_BACKREF_CHAR := 0xf3, XCODEC_HASHREF_CHAR := 0xf4,
    XCODEC_OP_FRAME := 0x00, XCODEC_OP_OOB := 0x01, XCODEC_OP_HELLO := 0xff,
    XCODEC_OP_ASK := 0xfe, XCODEC_OP_LEARN := 0xfd, XCODEC_OP_EOS := 0xfc,
    XCODEC_OP_EOS_ACK := 0xfb }

/-! ## Buffer (collaborator) -/

/-- A 64-byte payload (`BufferSegment`). -/
abbrev Segment := List Nat

namespace Buffer

/-- Modelled from the spec: `copyout(dest, offset, N)`, non-destructive. -/
def copyout (buf : List Nat) (offset n : Nat) : List Nat := (buf.drop offset).take n

/-- Modelled from the spec: `skip(N)`. -/
def skip (buf : List Nat) (n : Nat) : List Nat := buf.drop n

/-- Modelled from the spec: `moveout(dest, offset, N)`, destructive: the `offset` leading
bytes are discarded, the next `N` bytes are moved to `dest`; returns `(moved, rest)`. -/
def moveout (buf : List Nat) (offset n : Nat) : List Nat × List Nat :=
  ((buf.drop offset).take n, buf.drop (offset + n))

/-- Modelled from the spec: `escape(escape_byte, predicate)`: every byte satisfying the
predicate is replaced by the escape byte followed by `byte XOR 0xff`. -/
def escape (esc : Nat) (p : Nat → Bool) : List Nat → List Nat
  | [] => []
  | b :: bs => if p b then esc :: (b ^^^ 255) :: escape esc p bs else b :: escape esc p bs

end Buffer

/-- The eight bytes appended for `LittleEndian::encode` of a `uint64_t`. -/
def le64 (h : Nat) : List Nat :=
  [h % 256, h / 256 % 256, h / 256 ^ 2 % 256, h / 256 ^ 3 % 256,
   h / 256 ^ 4 % 256, h / 256 ^ 5 % 256, h / 256 ^ 6 % 256, h / 256 ^ 7 % 256]

/-! ## Rolling hash (collaborator) -/

/-- Modelled from the spec: the state of `XCHash<64>` is the window of the last 64 bytes
rolled in; the hash of a window depends on its bytes only. -/
structure XCHash where
  window : List Nat
deriving DecidableEq, Repr

namespace XCHash

/-- A fresh hash state. -/
def init : XCHash := ⟨[]⟩

/-- Modelled from the spec: `roll(byte)` slides the window forward by one byte. -/
def roll (x : XCHash) (ch : Nat) : XCHash :=
  ⟨(x.window ++ [ch]).drop ((x.window ++ [ch]).length - XCODEC_SEGMENT_LENGTH)⟩

/-- Modelled from the spec: `mix()` is the 64-bit hash `H` of the current window. -/
def mix (H : List Nat → Nat) (x : XCHash) : Nat := H x.window % 2 ^ 64

end XCHash

/-- Modelled from the spec: `XCodecHash<64>::hash(data)`, the same 64-bit hash of the
first 64 bytes of `data`. -/
def XCodecHash_hash (H : List Nat → Nat) (data : List Nat) : Nat :=
  H (data.take XCODEC_SEGMENT_LENGTH) % 2 ^ 64

/-! ## Segment cache (collaborator) -/

/-- Modelled from the spec: the segment cache maps 64-bit hashes to segments. The most
recently entered binding of a key is the one `lookup` finds, so an `enter` on a key that is
already bound would replace its segment. -/
structure XCDatabase where
  entries : List (Nat × Segment)
deriving DecidableEq, Repr

namespace XCDatabase

/-- The empty cache. -/
def empty : XCDatabase := ⟨[]⟩

/-- Modelled from the spec: `lookup(hash)`. -/
def lookup (db : XCDatabase) (hash : Nat) : Option Segment := List.lookup hash db.entries

/-- Modelled from the spec: `enter(hash, segment)`. -/
def enter (db : XCDatabase) (hash : Nat) (seg : Segment) : XCDatabase :=
  ⟨(hash, seg) :: db.entries⟩

end XCDatabase

/-! ## Back-reference window (collaborator) -/

/-- Modelled from the spec: a ring of 256 slots with a write cursor modulo 256. -/
structure XCBackref where
  slots : List (Option (Nat × Segment))
  cursor : Nat
deriving DecidableEq, Repr

namespace XCBackref

/-- The window of a new encoder or decoder. -/
def empty : XCBackref := ⟨List.replicate 256 none, 0⟩

/-- Modelled from the spec: `declare(hash, segment)` overwrites the slot at the cursor and
advances the cursor. -/
def declare (w : XCBackref) (hash : Nat) (seg : Segment) : XCBackref :=
  ⟨w.slots.set w.cursor (some (hash, seg)), (w.cursor + 1) % 256⟩

/-- Scan of the slots from token `i` on for one holding `hash`. -/
def scan (hash : Nat) : List (Option (Nat × Segment)) → Nat → Option Nat
  | [], _ => none
  | some (h, _) :: rest, i => if h = hash then some i else scan hash rest (i + 1)
  | none :: rest, i => scan hash rest (i + 1)

/-- Modelled from the spec: `present(hash)` scans the ring and returns the token of a slot
that still holds `hash`. -/
def present (w : XCBackref) (hash : Nat) : Option Nat := scan hash w.slots 0

/-- Modelled from the spec: the segment a back-reference token resolves to. -/
def dereference (w : XCBackref) (b : Nat) : Option (Nat × Segment) :=
  (w.slots.get? b).join

end XCBackref

/-! ## Encoder -/

/-- The state of an `XCodecEncoder`: the shared segment cache and its window. -/
structure XCodecEncoder where
  database_ : XCDatabase
  backref_ : XCBackref
deriving DecidableEq, Repr

/-- What `encode` appends to `output`, recorded item by item in output order. This record
is ghost state: the model writes it and never reads it. `verbatim` is an unescaped copy of
input bytes, `literal` a run of input bytes that goes through the escape transform. `start`
is the source offset of a referenced window and `soff` the value of the cursor `soff` when
the window was chosen. -/
inductive Token where
  | verbatim (bytes : List Nat)
  | declare (start hash : Nat) (seg : Segment)
  | literal (off : Nat) (bytes : List Nat)
  | backref (start soff hash : Nat) (seg : Segment) (b : Nat)
  | hashref (start soff hash : Nat) (seg : Segment)
deriving DecidableEq, Repr

/-- The bytes appended to `output` for one item. -/
def Token.bytes (c : Consts) : Token → List Nat
  | .verbatim bs => bs
  | .declare _ hash seg => c.XCODEC_DECLARE_CHAR :: (le64 hash ++ seg)
  | .literal _ bs => Buffer.escape c.XCODEC_ESCAPE_CHAR (xcodec_special_p c) bs
  | .backref _ _ _ _ b => [c.XCODEC_BACKREF_CHAR, b]
  | .hashref _ _ hash _ => c.XCODEC_HASHREF_CHAR :: le64 hash

/-- The bytes appended to `output` for a sequence of items. -/
def serialize (c : Consts) : List Token → List Nat
  | [] => []
  | t :: ts => t.bytes c ++ serialize c ts

/-- The window obtained from `w` by applying `declare` once for every declaration and
once for every hash reference of a token sequence, in order; back-references and literals
leave it alone. -/
def replay (w : XCBackref) : List Token → XCBackref
  | [] => w
  | .declare _ hash seg :: ts => replay (w.declare hash seg) ts
  | .hashref _ _ hash seg :: ts => replay (w.declare hash seg) ts
  | .backref _ _ _ _ _ :: ts => replay w ts
  | .literal _ _ :: ts => replay w ts
  | .verbatim _ :: ts => replay w ts

/-- The source offsets of the windows replaced by a reference, in output order. -/
def refStarts : List Token → List Nat
  | [] => []
  | .backref start _ _ _ _ :: ts => start :: refStarts ts
  | .hashref start _ _ _ :: ts => start :: refStarts ts
  | _ :: ts => refStarts ts

/-- The input bytes an item stands for: a literal stands for its bytes, a reference for the
segment it denotes, a declaration for nothing. -/
def Token.source : Token → List Nat
  | .verbatim bs => bs
  | .declare _ _ _ => []
  | .literal _ bs => bs
  | .backref _ _ _ seg _ => seg
  | .hashref _ _ _ seg => seg

/-- The input bytes a token sequence stands for. -/
def sourceOf : List Token → List Nat
  | [] => []
  | t :: ts => t.source ++ sourceOf ts

/-- Locals of the first pass of `encode` (the candidate scan). -/
structure Pass1 where
  xcodec_hash : XCHash
  offset_hash_map : List (Nat × Nat)
  offset_seg_map : List (Nat × Segment)
  outq : List Nat
  o : Nat
  base : Nat
deriving DecidableEq, Repr

/-- The first-pass locals at entry. -/
def Pass1.init : Pass1 :=
  { xcodec_hash := XCHash.init, offset_hash_map := [], offset_seg_map := [],
    outq := [], o := 0, base := 0 }

/-- One iteration of the byte loop of the first pass, for the input byte `p`. The byte
joins `outq` when it is scanned: `copyout` only reads below offset `o`, so this agrees with
appending it together with the rest of its buffer segment. -/
def firstPassStep (H : List Nat → Nat) (db : XCDatabase) (s : Pass1) (p : Nat) : Pass1 :=
  let s := { s with outq := s.outq ++ [p], o := s.o + 1 }
  if s.o < s.base then s
  else
    let s := { s with xcodec_hash := s.xcodec_hash.roll p }
    if s.o - s.base < XCODEC_SEGMENT_LENGTH then s
    else
      let start := s.o - XCODEC_SEGMENT_LENGTH
      let hash := s.xcodec_hash.mix H
      match db.lookup hash with
      | some oseg =>
        let data := Buffer.copyout s.outq start XCODEC_SEGMENT_LENGTH
        if oseg ≠ data then s
        else
          { s with offset_seg_map := s.offset_seg_map ++ [(start, oseg)], base := s.o,
                   offset_hash_map := s.offset_hash_map ++ [(start, hash)] }
      | none => { s with offset_hash_map := s.offset_hash_map ++ [(start, hash)] }

/-- The first pass: every input byte goes through `firstPassStep`. -/
def firstPass (H : List Nat → Nat) (db : XCDatabase) (s : Pass1) : List Nat → Pass1
  | [] => s
  | p :: ps => firstPass H db (firstPassStep H db s p) ps

/-- Locals and state of the second pass of `encode` (emission). -/
structure Pass2 where
  database_ : XCDatabase
  backref_ : XCBackref
  output : List Nat
  offset_hash_map : List (Nat × Nat)
  offset_seg_map : List (Nat × Segment)
  outq : List Nat
  soff : Nat
  trace : List Token
deriving DecidableEq, Repr

/-- Copy out any prefixing data: the literal bytes between `soff` and `start` leave `outq`
and are appended to `output` in escaped form. -/
def copyGap (c : Consts) (s : Pass2) (start : Nat) : Pass2 :=
  if s.soff ≠ start then
    let mv := Buffer.moveout s.outq 0 (start - s.soff)
    { s with outq := mv.2, soff := start,
             output := s.output ++ Buffer.escape c.XCODEC_ESCAPE_CHAR (xcodec_special_p c) mv.1,
             trace := s.trace ++ [Token.literal s.soff mv.1] }
  else s

/-- Skip the segment in `outq` and output a reference to it: a back-reference when the
window holds the hash, a hash reference (registered in the window) otherwise. The argument
`soff0` is ghost: the value of `soff` at the head of the iteration. -/
def outputReference (c : Consts) (s : Pass2) (start hash : Nat) (seg : Segment)
    (soff0 : Nat) : Pass2 :=
  let s := { s with outq := Buffer.skip s.outq XCODEC_SEGMENT_LENGTH,
                    soff := start + XCODEC_SEGMENT_LENGTH }
  match s.backref_.present hash with
  | some b =>
    { s with output := s.output ++ [c.XCODEC_BACKREF_CHAR, b],
             trace := s.trace ++ [Token.backref start soff0 hash seg b] }
  | none =>
    { s with output := s.output ++ (c.XCODEC_HASHREF_CHAR :: le64 hash),
             backref_ := s.backref_.declare hash seg,
             trace := s.trace ++ [Token.hashref start soff0 hash seg] }

/-- The tail of an iteration of the second pass once `slice.seg_` is set. -/
def emitSlice (c : Consts) (s : Pass2) (start hash : Nat) (seg : Segment) : Pass2 :=
  outputReference c (copyGap c s start) start hash seg s.soff

/-- Declare a segment: enter it into the cache, append the declaration to `output` and
register it in the window. -/
def declareSegment (c : Consts) (s : Pass2) (start hash : Nat) (data : Segment) : Pass2 :=
  { s with database_ := s.database_.enter hash data,
           output := s.output ++ (c.XCODEC_DECLARE_CHAR :: (le64 hash ++ data)),
           backref_ := s.backref_.declare hash data,
           trace := s.trace ++ [Token.declare start hash data] }

/-- Skip any successive overlapping hashes: entries of `offset_hash_map` that start before
`fin` are erased from its front. -/
def skipOverlapping (s : Pass2) (fin : Nat) : Pass2 :=
  { s with offset_hash_map := s.offset_hash_map.dropWhile (fun e => e.1 < fin) }

/-- The branch of the second pass taken while `slice.seg_` is still `NULL`: go back to the
cache, declare the window on a miss, and drop the successive overlapping hashes. -/
def lookupOrDeclare (c : Consts) (s : Pass2) (start hash : Nat) : Pass2 :=
  let fin := start + XCODEC_SEGMENT_LENGTH
  let data := Buffer.copyout s.outq (start - s.soff) XCODEC_SEGMENT_LENGTH
  match s.database_.lookup hash with
  | some seg =>
    if seg ≠ data then s
    else emitSlice c (skipOverlapping s fin) start hash seg
  | none => emitSlice c (skipOverlapping (declareSegment c s start hash data) fin) start hash data

/-- One iteration of the `while` loop of the second pass; `offset_hash_map` is not empty. -/
def secondPassStep (c : Consts) (s : Pass2) : Pass2 :=
  match s.offset_hash_map with
  | [] => s
  | (start, hash) :: rest =>
    let fin := start + XCODEC_SEGMENT_LENGTH
    let s := { s with offset_hash_map := rest }
    match s.offset_seg_map with
    | (ofirst, oseg) :: osrest =>
      if start = ofirst then
        emitSlice c { s with offset_seg_map := osrest } start hash oseg
      else if start < ofirst ∧ fin > ofirst then s
      else lookupOrDeclare c s start hash
    | [] => lookupOrDeclare c s start hash

/-- The `while` loop of the second pass, run for at most `fuel` iterations. -/
def secondPassLoop (c : Consts) : Nat → Pass2 → Pass2
  | 0, s => s
  | fuel + 1, s =>
    match s.offset_hash_map with
    | [] => s
    | _ :: _ => secondPassLoop c fuel (secondPassStep c s)

/-- Everything `encode` leaves behind: the encoder, the two buffers, and the locals that
the closing assertions inspect. -/
structure EncodeRun where
  encoder : XCodecEncoder
  output : List Nat
  input : List Nat
  offset_hash_map : List (Nat × Nat)
  offset_seg_map : List (Nat × Segment)
  outq : List Nat
  trace : List Token
deriving DecidableEq, Repr

/-- The state in which the second pass of `encode` starts. -/
def secondPassInit (enc : XCodecEncoder) (output : List Nat) (p1 : Pass1) : Pass2 :=
  { database_ := enc.database_, backref_ := enc.backref_, output := output,
    offset_hash_map := p1.offset_hash_map, offset_seg_map := p1.offset_seg_map,
    outq := p1.outq, soff := 0, trace := [] }

/-- The method `XCodecEncoder::encode(output, input)`. Every iteration of the second pass
removes the head of `offset_hash_map`, so its length bounds the number of iterations. -/
def encodeRun (c : Consts) (H : List Nat → Nat) (enc : XCodecEncoder)
    (output input : List Nat) : EncodeRun :=
  if input.length < XCODEC_SEGMENT_LENGTH then
    { encoder := enc, output := output ++ input, input := [],
      offset_hash_map := [], offset_seg_map := [], outq := [], trace := [Token.verbatim input] }
  else
    let p1 := firstPass H enc.database_ Pass1.init input
    let p2 := secondPassLoop c p1.offset_hash_map.length (secondPassInit enc output p1)
    let sfx := p2.outq
    { encoder := { database_ := p2.database_, backref_ := p2.backref_ },
      output := if sfx ≠ [] then
          p2.output ++ Buffer.escape c.XCODEC_ESCAPE_CHAR (xcodec_special_p c) sfx
        else p2.output,
      input := [],
      offset_hash_map := p2.offset_hash_map, offset_seg_map := p2.offset_seg_map,
      outq := [],
      trace := if sfx ≠ [] then p2.trace ++ [Token.literal p2.soff sfx] else p2.trace }

/-- The encoder, `output` and `input` after `encode(output, input)`. -/
def encode (c : Consts) (H : List Nat → Nat) (enc : XCodecEncoder)
    (output input : List Nat) : XCodecEncoder × List Nat × List Nat :=
  let r := encodeRun c H enc output input
  (r.encoder, r.output, r.input)


/-- A sample hash function (a polynomial hash modulo `2^64`) used to evaluate the model. -/
def sampleHash (w : List Nat) : Nat := w.foldl (fun a b => (a * 31 + b) % 2 ^ 64) 7

/-- The encoder of a new connection: an empty cache and an empty window. -/
def XCodecEncoder.fresh : XCodecEncoder := ⟨XCDatabase.empty, XCBackref.empty⟩

/-! ## Decoder (collaborator) -/

/-- Modelled from the spec: the state of an `XCodecDecoder` (xcodec_decoder.cc is absent):
the cache it is bound to and its back-reference window. -/
structure XCodecDecoder where
  cache_ : XCDatabase
  backref_ : XCBackref
deriving DecidableEq, Repr

/-- The value of eight bytes read as a little-endian `uint64_t`. -/
def le64_decode (bs : List Nat) : Nat := bs.foldr (fun b acc => b + 256 * acc) 0

/-- The result of a `decode` call: the decoder, the `output` and `input` buffers, the set of
unknown hashes and the returned flag. -/
structure DecodeRun where
  decoder : XCodecDecoder
  output : List Nat
  input : List Nat
  unknown_hashes : List Nat
  ok : Bool
deriving DecidableEq, Repr

/-- Modelled from the spec: the token loop of `XCodecDecoder::decode` (section 4.4), run for
at most `fuel` tokens. A truncated token is left in `input`; an unknown hash reference is
added to the unknown set and suspends the loop with the token still in `input`.

The specification gives two accounts of a back-reference. Section 4.4 has the decoder
register the resolved hash in its window again; sections 4.3 and 8 have both sides register
declarations and hash references only, which is what the encoder does. The flag `again`
selects the first account (`true`) or the second (`false`). -/
def decodeLoop (c : Consts) (H : List Nat → Nat) (again : Bool) :
    Nat → DecodeRun → DecodeRun
  | 0, r => r
  | fuel + 1, r =>
    match r.input with
    | [] => r
    | ch :: rest =>
      if ch = c.XCODEC_ESCAPE_CHAR then
        match rest with
        | [] => r
        | b :: rest2 =>
          decodeLoop c H again fuel { r with output := r.output ++ [b ^^^ 255], input := rest2 }
      else if ch = c.XCODEC_DECLARE_CHAR then
        if rest.length < 8 + XCODEC_SEGMENT_LENGTH then r
        else
          let hash := le64_decode (rest.take 8)
          let seg := (rest.drop 8).take XCODEC_SEGMENT_LENGTH
          let rest2 := rest.drop (8 + XCODEC_SEGMENT_LENGTH)
          if hash ≠ XCodecHash_hash H seg then { r with ok := false }
          else
            match r.decoder.cache_.lookup hash with
            | some old =>
              if old ≠ seg then { r with ok := false }
              else
                decodeLoop c H again fuel
                  { r with decoder := { r.decoder with
                             backref_ := r.decoder.backref_.declare hash seg },
                           input := rest2 }
            | none =>
              decodeLoop c H again fuel
                { r with decoder := { cache_ := r.decoder.cache_.enter hash seg,
                                      backref_ := r.decoder.backref_.declare hash seg },
                         input := rest2 }
      else if ch = c.XCODEC_HASHREF_CHAR then
        if rest.length < 8 then r
        else
          let hash := le64_decode (rest.take 8)
          match r.decoder.cache_.lookup hash with
          | none =>
            { r with unknown_hashes :=
                if hash ∈ r.unknown_hashes then r.unknown_hashes
                else r.unknown_hashes ++ [hash] }
          | some seg =>
            decodeLoop c H again fuel
              { r with decoder := { r.decoder with
                         backref_ := r.decoder.backref_.declare hash seg },
                       output := r.output ++ seg, input := rest.drop 8 }
      else if ch = c.XCODEC_BACKREF_CHAR then
        match rest with
        | [] => r
        | b :: rest2 =>
          match r.decoder.backref_.dereference b with
          | none => { r with ok := false }
          | some (hash, seg) =>
            decodeLoop c H again fuel
              { r with decoder := { r.decoder with
                         backref_ := if again then r.decoder.backref_.declare hash seg
                                     else r.decoder.backref_ },
                       output := r.output ++ seg, input := rest2 }
      else
        decodeLoop c H again fuel { r with output := r.output ++ [ch], input := rest }

/-- Modelled from the spec: `decode(output, input, unknown_hashes)`. Every token consumes at
least one byte of `input`, so its length bounds the number of tokens. -/
def decode (c : Consts) (H : List Nat → Nat) (again : Bool) (d : XCodecDecoder)
    (output input unknown : List Nat) : DecodeRun :=
  decodeLoop c H again input.length
    { decoder := d, output := output, input := input, unknown_hashes := unknown, ok := true }

/-! ## Pipe pair: framing and out-of-band control -/

/-- The two bytes appended for `BigEndian::encode` of a `uint16_t`. -/
def be16 (n : Nat) : List Nat := [n / 256 % 256, n % 256]

/-- The value of two bytes read as a big-endian `uint16_t`. -/
def be16_decode (bs : List Nat) : Nat := bs.foldl (fun acc b => acc * 256 + b) 0

/-- The value of eight bytes read as a big-endian `uint64_t`. -/
def be64_decode (bs : List Nat) : Nat := bs.foldl (fun acc b => acc * 256 + b) 0

/-- Why a call did not run to its end: a `Buffer` operation outside the buffered bytes, a
failed `ASSERT`, a call through a `NULL` pointer, or the iteration bound of the model. -/
inductive Fault where
  | bounds
  | assertion
  | null
  | fuel
deriving DecidableEq, Repr

namespace Buffer

/-- Modelled from the spec: `peek()`, the first byte of a non-empty buffer. -/
def peek? (buf : List Nat) : Except Fault Nat :=
  match buf with
  | [] => .error .bounds
  | b :: _ => .ok b

/-- Modelled from the spec: `extract(offset, N)`, within the buffered bytes. -/
def extract? (buf : List Nat) (offset n : Nat) : Except Fault (List Nat) :=
  if offset + n ≤ buf.length then .ok ((buf.drop offset).take n) else .error .bounds

/-- Modelled from the spec: `copyout(dest, offset, N)`, within the buffered bytes. -/
def copyout? (buf : List Nat) (offset n : Nat) : Except Fault (List Nat) :=
  if offset + n ≤ buf.length then .ok (copyout buf offset n) else .error .bounds

/-- Modelled from the spec: `skip(N)`, within the buffered bytes. -/
def skip? (buf : List Nat) (n : Nat) : Except Fault (List Nat) :=
  if n ≤ buf.length then .ok (skip buf n) else .error .bounds

/-- Modelled from the spec: `moveout(dest, offset, N)`, within the buffered bytes. -/
def moveout? (buf : List Nat) (offset n : Nat) : Except Fault (List Nat × List Nat) :=
  if offset + n ≤ buf.length then .ok (moveout buf offset n) else .error .bounds

end Buffer

/-- The callbacks a pipe pair invokes, in order: bytes for the wire, decoded bytes for the
application (an empty buffer signals the end of the stream), and the two error paths. -/
inductive Event where
  | encoder_produce (buf : List Nat)
  | decoder_produce (buf : List Nat)
  | encoder_error
  | decoder_error
deriving DecidableEq, Repr

/-- Collaborators of the pipe pair whose source is absent: the hash function; `UUID::decode`,
which yields the identifier carried by sixteen bytes or fails; `uuid_encode`, which yields
the bytes of the identifier of a cache or fails; and the account of back-references that the
token decoder follows (see `decodeLoop`). -/
structure Collab where
  H : List Nat → Nat
  uuid_decode : List Nat → Option (List Nat)
  uuid_encode : List Nat → Option (List Nat)
  again : Bool

/-- The state of an `XCodecPipePair`. Caches live in a registry keyed by UUID, as the
process-wide map of `XCodecCache` does; `codec_uuid` names the cache of `codec_`, and
`decoder_cache_` the cache bound by `HELLO`. An encoder or decoder object is represented by
its window, its cache being found through the registry. -/
structure XCodecPipePair where
  registry : List (List Nat × XCDatabase)
  codec_uuid : List Nat
  encoder_ : Option XCBackref
  decoder_cache_ : Option (List Nat)
  decoder_ : Option XCBackref
  decoder_buffer_ : List Nat
  decoder_frame_buffer_ : List Nat
  decoder_unknown_hashes_ : List Nat
  encoder_sent_eos_ : Bool
  decoder_received_eos_ : Bool
  decoder_received_eos_ack_ : Bool
  events : List Event
deriving DecidableEq, Repr

namespace XCodecPipePair

/-- Modelled from the spec: the cache registered under `uuid`, created empty on first
reference. -/
def cacheOf (s : XCodecPipePair) (uuid : List Nat) : XCDatabase :=
  (List.lookup uuid s.registry).getD XCDatabase.empty

/-- The registry after the cache under `uuid` became `db`. -/
def setCache (s : XCodecPipePair) (uuid : List Nat) (db : XCDatabase) : XCodecPipePair :=
  { s with registry := (uuid, db) :: s.registry }

/-- A callback is invoked. -/
def emit (s : XCodecPipePair) (e : Event) : XCodecPipePair :=
  { s with events := s.events ++ [e] }

end XCodecPipePair

/-- The function `encode_frame(out, in)`: split `in` into frames of at most
`XCODEC_FRAME_LENGTH` payload bytes; `framelen` is a `uint16_t`. Returns `out`. Each
iteration moves at least one byte out of `in`, so its length bounds the iterations. -/
def encode_frame_loop (c : Consts) : Nat → List Nat → List Nat → List Nat
  | 0, out, _ => out
  | fuel + 1, out, inp =>
    match inp with
    | [] => out
    | _ :: _ =>
      let framelen :=
        (if inp.length ≤ XCODEC_FRAME_LENGTH then inp.length else XCODEC_FRAME_LENGTH) % 65536
      let mv := Buffer.moveout inp 0 framelen
      encode_frame_loop c fuel
        (out ++ [c.XCODEC_MAGIC, c.XCODEC_OP_FRAME] ++ be16 framelen ++ mv.1) mv.2

/-- The function `encode_frame(out, in)`. -/
def encode_frame (c : Consts) (out inp : List Nat) : List Nat :=
  encode_frame_loop c inp.length out inp

/-- The function `encode_oob(out, in)`; its two assertions fail on an empty or oversized
message. Returns `out`. -/
def encode_oob (c : Consts) (out inp : List Nat) : Except Fault (List Nat) :=
  if inp = [] then .error .assertion
  else if ¬ inp.length ≤ XCODEC_FRAME_LENGTH then .error .assertion
  else .ok (out ++ [c.XCODEC_MAGIC, c.XCODEC_OP_OOB] ++ be16 (inp.length % 65536) ++ inp)

/-- The case `XCODEC_OP_HELLO` of `decode_oob`; `buf` starts after the operation byte. -/
def decode_oob_hello (col : Collab) (s : XCodecPipePair) (buf : List Nat) :
    Except Fault (Bool × XCodecPipePair × List Nat) :=
  if s.decoder_cache_ ≠ none then .ok (false, s, buf)
  else if buf.length < 1 then .ok (false, s, buf)
  else
    match Buffer.peek? buf with
    | .error f => .error f
    | .ok len =>
      match Buffer.skip? buf 1 with
      | .error f => .error f
      | .ok buf =>
        if buf.length < len then .ok (false, s, buf)
        else if len ≠ UUID_SIZE then .ok (false, s, buf)
        else
          match Buffer.moveout? buf 0 UUID_SIZE with
          | .error f => .error f
          | .ok (uubuf, buf) =>
            match col.uuid_decode uubuf with
            | none => .ok (false, s, buf)
            | some uuid =>
              if s.decoder_ ≠ none then .error .assertion
              else
                .ok (true,
                  { s.setCache uuid (s.cacheOf uuid) with
                      decoder_cache_ := some uuid, decoder_ := some XCBackref.empty },
                  buf)

/-- The case `XCODEC_OP_ASK` of `decode_oob`; `buf` starts after the operation byte. -/
def decode_oob_ask (c : Consts) (s : XCodecPipePair) (buf : List Nat) :
    Except Fault (Bool × XCodecPipePair × List Nat) :=
  if s.encoder_ = none then .ok (false, s, buf)
  else
    match Buffer.extract? buf 0 8 with
    | .error f => .error f
    | .ok hb =>
      match Buffer.skip? buf 8 with
      | .error f => .error f
      | .ok buf =>
        match (s.cacheOf s.codec_uuid).lookup (be64_decode hb) with
        | none => .ok (false, s, buf)
        | some oseg =>
          match encode_oob c [] ([c.XCODEC_MAGIC, c.XCODEC_OP_LEARN] ++ oseg) with
          | .error f => .error f
          | .ok oob => .ok (true, s.emit (Event.encoder_produce oob), buf)

/-- The state after the hash left the set of unknown hashes (`std::set::erase`). -/
def eraseUnknown (s : XCodecPipePair) (hash : Nat) : XCodecPipePair :=
  { s with decoder_unknown_hashes_ := s.decoder_unknown_hashes_.filter (· ≠ hash) }

/-- The case `XCODEC_OP_LEARN` of `decode_oob`; `buf` starts after the operation byte. The
hash leaves the set of unknown hashes before the cache is consulted. -/
def decode_oob_learn (col : Collab) (s : XCodecPipePair) (buf : List Nat) :
    Except Fault (Bool × XCodecPipePair × List Nat) :=
  match s.decoder_cache_ with
  | none => .ok (false, s, buf)
  | some uuid =>
    match Buffer.copyout? buf 0 XCODEC_SEGMENT_LENGTH with
    | .error f => .error f
    | .ok seg =>
      match Buffer.skip? buf XCODEC_SEGMENT_LENGTH with
      | .error f => .error f
      | .ok buf =>
        let hash := XCodecHash_hash col.H seg
        let s := eraseUnknown s hash
        match (s.cacheOf uuid).lookup hash with
        | some oseg =>
          if oseg ≠ seg then .ok (false, s, buf)
          else .ok (true, s, buf)
        | none => .ok (true, s.setCache uuid ((s.cacheOf uuid).enter hash seg), buf)

/-- The case `XCODEC_OP_EOS` of `decode_oob`. -/
def decode_oob_eos (s : XCodecPipePair) (buf : List Nat) :
    Except Fault (Bool × XCodecPipePair × List Nat) :=
  if s.decoder_received_eos_ then .ok (false, s, buf)
  else .ok (true, { s with decoder_received_eos_ := true }, buf)

/-- The case `XCODEC_OP_EOS_ACK` of `decode_oob`. -/
def decode_oob_eos_ack (s : XCodecPipePair) (buf : List Nat) :
    Except Fault (Bool × XCodecPipePair × List Nat) :=
  if ¬ s.encoder_sent_eos_ then .ok (false, s, buf)
  else if s.decoder_received_eos_ack_ then .ok (false, s, buf)
  else .ok (true, { s with decoder_received_eos_ack_ := true }, buf)

/-- The `switch (op)` of `decode_oob`. -/
def decode_oob_op (c : Consts) (col : Collab) (s : XCodecPipePair) (op : Nat)
    (buf : List Nat) : Except Fault (Bool × XCodecPipePair × List Nat) :=
  if op = c.XCODEC_OP_HELLO then decode_oob_hello col s buf
  else if op = c.XCODEC_OP_ASK then decode_oob_ask c s buf
  else if op = c.XCODEC_OP_LEARN then decode_oob_learn col s buf
  else if op = c.XCODEC_OP_EOS then decode_oob_eos s buf
  else if op = c.XCODEC_OP_EOS_ACK then decode_oob_eos_ack s buf
  else .ok (false, s, buf)

/-- One message of the loop of `decode_oob`, on a non-empty `buf`: the flag is `false` when
the method returns `false`, and the remaining bytes of `buf` are returned with the state. -/
def decode_oob_step (c : Consts) (col : Collab) (s : XCodecPipePair) (buf : List Nat) :
    Except Fault (Bool × XCodecPipePair × List Nat) :=
  match Buffer.peek? buf with
  | .error f => .error f
  | .ok magic =>
    if magic ≠ c.XCODEC_MAGIC then .ok (false, s, buf)
    else if buf = [] then .ok (false, s, buf)
    else
      match Buffer.moveout? buf 1 1 with
      | .error f => .error f
      | .ok (opb, buf) => decode_oob_op c col s (opb.headD 0) buf

/-- The `while` loop of `decode_oob`, run for at most `fuel` messages. -/
def decode_oob_loop (c : Consts) (col : Collab) :
    Nat → XCodecPipePair → List Nat → Except Fault (Bool × XCodecPipePair)
  | 0, s, buf => if buf = [] then .ok (true, s) else .error .fuel
  | fuel + 1, s, buf =>
    if buf = [] then .ok (true, s)
    else
      match decode_oob_step c col s buf with
      | .error f => .error f
      | .ok (false, s, _) => .ok (false, s)
      | .ok (true, s, buf) => decode_oob_loop c col fuel s buf

/-- The method `XCodecPipePair::decode_oob(buf)`: the returned flag and the state. Every
message consumes at least two bytes, so the length of `buf` bounds the messages. -/
def decode_oob (c : Consts) (col : Collab) (s : XCodecPipePair) (buf : List Nat) :
    Except Fault (Bool × XCodecPipePair) :=
  decode_oob_loop c col buf.length s buf

/-- How an iteration of the frame loop of `decoder_consume` ends. -/
inductive LoopExit where
  | continue
  | returned
deriving DecidableEq, Repr

/-- The end of an iteration of the loop of `decoder_consume`, after the payload of a frame
has been dispatched: run the token decoder on the frame buffer unless it is empty or
unknown hashes are pending. -/
def decoder_consume_decode (c : Consts) (col : Collab) (s : XCodecPipePair) :
    Except Fault (LoopExit × XCodecPipePair) :=
  if s.decoder_frame_buffer_ = [] then .ok (.continue, s)
  else if s.decoder_unknown_hashes_ ≠ [] then .ok (.continue, s)
  else
    match s.decoder_, s.decoder_cache_ with
    | some w, some uuid =>
      let r := decode c col.H col.again { cache_ := s.cacheOf uuid, backref_ := w } []
        s.decoder_frame_buffer_ s.decoder_unknown_hashes_
      let s : XCodecPipePair := { s.setCache uuid r.decoder.cache_ with
                   decoder_ := some r.decoder.backref_,
                   decoder_frame_buffer_ := r.input,
                   decoder_unknown_hashes_ := r.unknown_hashes }
      if ¬ r.ok then .ok (.returned, s.emit .decoder_error)
      else if r.output ≠ [] then .ok (.continue, s.emit (.decoder_produce r.output))
      else if s.decoder_frame_buffer_ = [] then .error .assertion
      else .ok (.continue, s)
    | _, _ => .error .null

/-- The frame header at the head of `decoder_buffer_`, which holds at least four bytes:
the magic byte, the operation and the big-endian length. -/
def frame_header (buf : List Nat) : Except Fault (Nat × Nat × Nat) :=
  match Buffer.extract? buf 0 1 with
  | .error f => .error f
  | .ok magic =>
    match Buffer.extract? buf 1 1 with
    | .error f => .error f
    | .ok op =>
      match Buffer.extract? buf (1 + 1) 2 with
      | .error f => .error f
      | .ok len => .ok (magic.headD 0, op.headD 0, be16_decode len)

/-- The dispatch of the payload `data` of a frame: an `OOB` payload goes to `decode_oob`, a
`FRAME` payload joins the frame buffer; then the token decoder runs. -/
def decoder_consume_payload (c : Consts) (col : Collab) (s : XCodecPipePair) (op : Nat)
    (data : List Nat) : Except Fault (LoopExit × XCodecPipePair) :=
  if op = c.XCODEC_OP_OOB then
    match decode_oob c col s data with
    | .error f => .error f
    | .ok (false, s) => .ok (.returned, s.emit .decoder_error)
    | .ok (true, s) => decoder_consume_decode c col s
  else
    decoder_consume_decode c col
      { s with decoder_frame_buffer_ := s.decoder_frame_buffer_ ++ data }

/-- One iteration of the `while` loop of `decoder_consume`, on a non-empty
`decoder_buffer_`. The first `switch (op)` accepts `XCODEC_OP_FRAME` (with a decoder) and
`XCODEC_OP_OOB`; the second dispatches on the same `op`. -/
def decoder_consume_step (c : Consts) (col : Collab) (s : XCodecPipePair) :
    Except Fault (LoopExit × XCodecPipePair) :=
  if s.decoder_buffer_.length < 1 + 1 + 2 then .ok (.returned, s)
  else
    match frame_header s.decoder_buffer_ with
    | .error f => .error f
    | .ok (magic, op, len) =>
      if magic ≠ c.XCODEC_MAGIC then .ok (.returned, s.emit .decoder_error)
      else if op = c.XCODEC_OP_FRAME ∧ s.decoder_ = none then
        .ok (.returned, s.emit .decoder_error)
      else if op ≠ c.XCODEC_OP_FRAME ∧ op ≠ c.XCODEC_OP_OOB then
        .ok (.returned, s.emit .decoder_error)
      else if len = 0 ∨ len > XCODEC_FRAME_LENGTH then .ok (.returned, s.emit .decoder_error)
      else if s.decoder_buffer_.length < 1 + 1 + 2 + len then .ok (.returned, s)
      else
        match Buffer.moveout? s.decoder_buffer_ (1 + 1 + 2) len with
        | .error f => .error f
        | .ok (data, rest) =>
          decoder_consume_payload c col { s with decoder_buffer_ := rest } op data

/-- The `while` loop of `decoder_consume`, run for at most `fuel` frames. -/
def decoder_consume_loop (c : Consts) (col : Collab) :
    Nat → XCodecPipePair → Except Fault (LoopExit × XCodecPipePair)
  | 0, s => if s.decoder_buffer_ = [] then .ok (.continue, s) else .error .fuel
  | fuel + 1, s =>
    if s.decoder_buffer_ = [] then .ok (.continue, s)
    else
      match decoder_consume_step c col s with
      | .error f => .error f
      | .ok (.returned, s) => .ok (.returned, s)
      | .ok (.continue, s) => decoder_consume_loop c col fuel s

/-- The tail of `decoder_consume`, reached when the loop ends with `decoder_buffer_` empty:
close the channel after an `EOS_ACK`, or answer an `EOS` with an `EOS_ACK`. -/
def decoder_consume_eos (c : Consts) (s : XCodecPipePair) : Except Fault XCodecPipePair :=
  if s.decoder_buffer_ = [] ∧ s.decoder_frame_buffer_ = [] then
    if s.decoder_received_eos_ack_ then .ok (s.emit (.encoder_produce []))
    else if s.decoder_received_eos_ then
      match encode_oob c [] [c.XCODEC_MAGIC, c.XCODEC_OP_EOS_ACK] with
      | .error f => .error f
      | .ok oob => .ok (s.emit (.encoder_produce oob))
    else .ok s
  else .ok s

/-- The method `XCodecPipePair::decoder_consume(buf)`. Every frame consumes at least five
buffered bytes, so the length of `decoder_buffer_` bounds the frames. -/
def decoder_consume (c : Consts) (col : Collab) (s : XCodecPipePair) (buf : List Nat) :
    Except Fault XCodecPipePair :=
  if buf = [] then .ok (s.emit (.decoder_produce buf))
  else
    match decoder_consume_loop c col (s.decoder_buffer_ ++ buf).length
        { s with decoder_buffer_ := s.decoder_buffer_ ++ buf } with
    | .error f => .error f
    | .ok (.returned, s) => .ok s
    | .ok (.continue, s) => decoder_consume_eos c s

/-- The `HELLO` of `encoder_consume`, once `uuid_encode` has yielded `extra`: frame a
`HELLO` carrying the UUID of the cache and create the encoder; `len` is a `uint8_t`. -/
def encoder_hello (c : Consts) (s : XCodecPipePair) (extra : List Nat) :
    Except Fault (XCodecPipePair × List Nat) :=
  let len := extra.length % 256
  if len ≠ UUID_SIZE then .error .assertion
  else if ([c.XCODEC_MAGIC, c.XCODEC_OP_HELLO, len] ++ extra).length ≠ 3 + UUID_SIZE then
    .error .assertion
  else
    match encode_oob c [] ([c.XCODEC_MAGIC, c.XCODEC_OP_HELLO, len] ++ extra) with
    | .error f => .error f
    | .ok output => .ok ({ s with encoder_ := some XCBackref.empty }, output)

/-- The second half of `encoder_consume`: encode and frame a non-empty `buf`, or signal the
end of the stream for an empty one; `output` holds the `HELLO` frame, if any. -/
def encoder_send (c : Consts) (col : Collab) (s : XCodecPipePair) (output buf : List Nat) :
    Except Fault XCodecPipePair :=
  if buf ≠ [] then
    let r := encodeRun c col.H
      { database_ := s.cacheOf s.codec_uuid, backref_ := s.encoder_.getD XCBackref.empty } [] buf
    if r.output = [] then .error .assertion
    else if encode_frame c output r.output = [] then .error .assertion
    else
      .ok (XCodecPipePair.emit
        { s.setCache s.codec_uuid r.encoder.database_ with encoder_ := some r.encoder.backref_ }
        (.encoder_produce (encode_frame c output r.output)))
  else
    match encode_oob c output [c.XCODEC_MAGIC, c.XCODEC_OP_EOS] with
    | .error f => .error f
    | .ok output =>
      .ok { s.emit (.encoder_produce output) with encoder_sent_eos_ := true }

/-- The method `XCodecPipePair::encoder_consume(buf)`. -/
def encoder_consume (c : Consts) (col : Collab) (s : XCodecPipePair) (buf : List Nat) :
    Except Fault XCodecPipePair :=
  if s.encoder_sent_eos_ then .error .assertion
  else if s.encoder_ = none then
    if buf = [] then .ok (s.emit (.encoder_produce buf))
    else
      match col.uuid_encode s.codec_uuid with
      | none => .ok (s.emit .encoder_error)
      | some extra =>
        match encoder_hello c s extra with
        | .error f => .error f
        | .ok (s, output) => encoder_send c col s output buf
  else encoder_send c col s [] buf

/-! ## Invariants of the two passes of `encode` -/

structure Inv1 (H : List Nat → Nat) (db : XCDatabase) (s : Pass1) : Prop where
  o_eq : s.o = s.outq.length
  base_le : s.base ≤ s.o
  window_eq : s.xcodec_hash.window = s.outq.drop (s.o - 64)
  ohm_sorted : s.offset_hash_map.Pairwise (fun a b => a.1 < b.1)
  ohm_ok : ∀ e ∈ s.offset_hash_map, e.1 + 64 ≤ s.o ∧
    e.2 = XCodecHash_hash H (Buffer.copyout s.outq e.1 64)
  osm_sorted : s.offset_seg_map.Pairwise (fun a b => a.1 < b.1)
  osm_ok : ∀ e ∈ s.offset_seg_map, e.1 + 64 ≤ s.base ∧
    (∃ h, (e.1, h) ∈ s.offset_hash_map) ∧
    e.2 = Buffer.copyout s.outq e.1 64 ∧
    db.lookup (XCodecHash_hash H e.2) = some e.2
  gap : ∀ e ∈ s.offset_seg_map, ∀ e2 ∈ s.offset_hash_map,
    e.1 < e2.1 → e.1 + 64 ≤ e2.1

/-- What is recorded about an emitted item is true of the input and of the cache `db`. -/
def TokOK (inp : List Nat) (db : XCDatabase) : Token → Prop
  | .verbatim bs => bs = inp
  | .declare start hash seg =>
      start + 64 ≤ inp.length ∧ seg = Buffer.copyout inp start 64 ∧ db.lookup hash = some seg
  | .literal off bs => bs = Buffer.copyout inp off bs.length ∧ off + bs.length ≤ inp.length
  | .backref start soff hash seg _ =>
      soff ≤ start ∧ start + 64 ≤ inp.length ∧ seg = Buffer.copyout inp start 64 ∧
        db.lookup hash = some seg
  | .hashref start soff hash seg =>
      soff ≤ start ∧ start + 64 ≤ inp.length ∧ seg = Buffer.copyout inp start 64 ∧
        db.lookup hash = some seg

/-- The condition under which `encode` emits an item, in terms of the encoder state `e` at
that point: a declaration when the cache misses the hash of the segment, a hash reference
when the cache maps the hash to the segment and the window does not hold the hash, a
back-reference with token `b` when the cache maps the hash to the segment and `present`
finds the hash at `b`. -/
def Token.emittable (H : List Nat → Nat) (e : XCodecEncoder) : Token → Prop
  | .declare _ hash seg =>
      e.database_.lookup hash = none ∧ hash = XCodecHash_hash H seg ∧ seg.length = 64
  | .hashref _ _ hash seg =>
      e.database_.lookup hash = some seg ∧ e.backref_.present hash = none ∧ hash < 2 ^ 64 ∧
        seg.length = 64
  | .backref _ _ hash seg b =>
      e.database_.lookup hash = some seg ∧ e.backref_.present hash = some b ∧ seg.length = 64
  | _ => True

/-- The encoder state after an item has been emitted: a declaration enters the segment into
the cache and registers it in the window, a hash reference registers it in the window. -/
def Token.apply (e : XCodecEncoder) : Token → XCodecEncoder
  | .declare _ hash seg => ⟨e.database_.enter hash seg, e.backref_.declare hash seg⟩
  | .hashref _ _ hash seg => ⟨e.database_, e.backref_.declare hash seg⟩
  | _ => e

/-- The encoder state after a sequence of items. -/
def runTokens (e : XCodecEncoder) : List Token → XCodecEncoder
  | [] => e
  | t :: ts => runTokens (t.apply e) ts

/-- Every item of a sequence is emitted under its condition, from the state `e` on. -/
def Chain (H : List Nat → Nat) (e : XCodecEncoder) : List Token → Prop
  | [] => True
  | t :: ts => t.emittable H e ∧ Chain H (t.apply e) ts

/-- The window agrees with the cache: the segment a slot holds is the one the cache maps
the hash of the slot to. -/
def WindowOK (e : XCodecEncoder) : Prop :=
  ∀ b hash seg, e.backref_.dereference b = some (hash, seg) →
    e.database_.lookup hash = some seg

/-- Facts that hold of the second-pass state at the head of every iteration; `inp` is the
input of `encode`, `db0`, `w0` and `out0` the cache, window and output at entry. -/
structure Inv2 (c : Consts) (H : List Nat → Nat) (inp : List Nat) (db0 : XCDatabase)
    (w0 : XCBackref) (out0 : List Nat) (s : Pass2) : Prop where
  outq_eq : s.outq = inp.drop s.soff
  soff_le : s.soff ≤ inp.length
  ohm_sorted : s.offset_hash_map.Pairwise (fun a b => a.1 < b.1)
  ohm_ok : ∀ e ∈ s.offset_hash_map, s.soff ≤ e.1 ∧ e.1 + 64 ≤ inp.length ∧
    e.2 = XCodecHash_hash H (Buffer.copyout inp e.1 64)
  osm_sorted : s.offset_seg_map.Pairwise (fun a b => a.1 < b.1)
  osm_ok : ∀ e ∈ s.offset_seg_map, (∃ h, (e.1, h) ∈ s.offset_hash_map) ∧
    e.2 = Buffer.copyout inp e.1 64 ∧ s.database_.lookup (XCodecHash_hash H e.2) = some e.2
  gap : ∀ e ∈ s.offset_seg_map, ∀ e2 ∈ s.offset_hash_map, e.1 < e2.1 → e.1 + 64 ≤ e2.1
  db_ext : ∀ h seg, db0.lookup h = some seg → s.database_.lookup h = some seg
  db_new : ∀ h seg, s.database_.lookup h = some seg →
    db0.lookup h = some seg ∨ (XCodecHash_hash H seg = h ∧ seg.length = 64)
  trace_ok : ∀ t ∈ s.trace, TokOK inp s.database_ t
  refs_below : ∀ st ∈ refStarts s.trace, st + 64 ≤ s.soff
  refs_disjoint : (refStarts s.trace).Pairwise (fun a b => a + 64 ≤ b)
  cover : sourceOf s.trace = inp.take s.soff
  window_eq : s.backref_ = replay w0 s.trace
  output_eq : s.output = out0 ++ serialize c s.trace
  chain : Chain H ⟨db0, w0⟩ s.trace
  state_eq : runTokens ⟨db0, w0⟩ s.trace = ⟨s.database_, s.backref_⟩
  no_verbatim : ∀ bs, Token.verbatim bs ∉ s.trace

/-- What `encode` guarantees about its run `r` on `inp`, from the encoder `enc` and the
output `out`. -/
structure EncodeFacts (c : Consts) (H : List Nat → Nat) (enc : XCodecEncoder)
    (out inp : List Nat) (r : EncodeRun) : Prop where
  output_eq : r.output = out ++ serialize c r.trace
  window_eq : r.encoder.backref_ = replay enc.backref_ r.trace
  trace_ok : ∀ t ∈ r.trace, TokOK inp r.encoder.database_ t
  refs_disjoint : (refStarts r.trace).Pairwise (fun a b => a + 64 ≤ b)
  cover : sourceOf r.trace = inp
  db_ext : ∀ h seg, enc.database_.lookup h = some seg →
    r.encoder.database_.lookup h = some seg
  db_new : ∀ h seg, r.encoder.database_.lookup h = some seg →
    enc.database_.lookup h = some seg ∨ (XCodecHash_hash H seg = h ∧ seg.length = 64)
  input_eq : r.input = []
  ohm_eq : r.offset_hash_map = []
  chain : Chain H enc r.trace
  state_eq : runTokens enc r.trace = r.encoder
  verbatim_short : ∀ bs, Token.verbatim bs ∈ r.trace → inp.length < 64

/-- The source offset, hash and segment of an item that declares or references a segment. -/
def Token.ref? : Token → Option (Nat × Nat × Segment)
  | .declare start hash seg => some (start, hash, seg)
  | .backref start _ hash seg _ => some (start, hash, seg)
  | .hashref start _ hash seg => some (start, hash, seg)
  | _ => none

/-- The source offset of a window replaced by a reference, with the value of `soff` at the
head of the iteration that chose it. -/
def Token.chosen? : Token → Option (Nat × Nat)
  | .backref start soff _ _ _ => some (start, soff)
  | .hashref start soff _ _ => some (start, soff)
  | _ => none

/-- Hash consistency of a cache: every segment is stored under its own hash. -/
def HashConsistent (H : List Nat → Nat) (db : XCDatabase) : Prop :=
  ∀ h seg, db.lookup h = some seg → XCodecHash_hash H seg = h

/-- Whether an item is a back-reference. -/
def Token.isBackref : Token → Bool
  | .backref _ _ _ _ _ => true
  | _ => false

/-- Whether an item is a run of literal bytes (escaped or verbatim). -/
def Token.isLiteral : Token → Bool
  | .literal _ _ => true
  | .verbatim _ => true
  | _ => false

/-- The input of scenario S2: 128 bytes `a`. -/
def scenarioX : List Nat := List.replicate 128 97

/-- Every cache of the registry is hash-consistent. -/
def CachesConsistent (H : List Nat → Nat) (s : XCodecPipePair) : Prop :=
  ∀ uuid, HashConsistent H (s.cacheOf uuid)

/-- Every entry of every cache of `s` is an entry of the same cache of `s2`. -/
def CachesExtend (s s2 : XCodecPipePair) : Prop :=
  ∀ uuid h seg, (s.cacheOf uuid).lookup h = some seg → (s2.cacheOf uuid).lookup h = some seg

/-- Sample collaborators used to evaluate the model: the sample hash, a `UUID::decode` and a
`uuid_encode` that take the sixteen bytes as the identifier, and a token decoder that leaves
its window alone on back-references. -/
def sampleCollab : Collab :=
  { H := sampleHash, uuid_decode := fun b => some b, uuid_encode := fun u => some u,
    again := false }

/-- A sample pipe pair in mid-connection: its encoder exists, a `HELLO` has bound its
decoder to the cache `2 × 16`, and the decoder waits for the unknown hash `5`. -/
def samplePeer : XCodecPipePair :=
  { registry := [], codec_uuid := List.replicate 16 1, encoder_ := some XCBackref.empty,
    decoder_cache_ := some (List.replicate 16 2), decoder_ := some XCBackref.empty,
    decoder_buffer_ := [], decoder_frame_buffer_ := [], decoder_unknown_hashes_ := [5],
    encoder_sent_eos_ := false, decoder_received_eos_ := false,
    decoder_received_eos_ack_ := false, events := [] }

/-- The state of `samplePeer` after a `LEARN` of the segment `b × 64`. -/
def sampleLearned : XCodecPipePair :=
  { samplePeer with
    registry := [(List.replicate 16 2,
      ⟨[(sampleHash (List.replicate 64 98) % 2 ^ 64, List.replicate 64 98)]⟩)] }

/-- The wire image of one `FRAME` with payload `p`: magic, operation, the big-endian
length and the payload. -/
def frameOf (c : Consts) (p : List Nat) : List Nat :=
  [c.XCODEC_MAGIC, c.XCODEC_OP_FRAME] ++ be16 p.length ++ p

/-- The wire image of a sequence of `FRAME`s. -/
def framesOf (c : Consts) : List (List Nat) → List Nat
  | [] => []
  | p :: ps => frameOf c p ++ framesOf c ps

/-- The concatenation of a sequence of payloads. -/
def payloadOf : List (List Nat) → List Nat
  | [] => []
  | p :: ps => p ++ payloadOf ps

/-- The four reserved token bytes are pairwise distinct. -/
def Consts.tokensDistinct (c : Consts) : Prop :=
  c.XCODEC_ESCAPE_CHAR ≠ c.XCODEC_DECLARE_CHAR ∧ c.XCODEC_ESCAPE_CHAR ≠ c.XCODEC_BACKREF_CHAR ∧
  c.XCODEC_ESCAPE_CHAR ≠ c.XCODEC_HASHREF_CHAR ∧ c.XCODEC_DECLARE_CHAR ≠ c.XCODEC_BACKREF_CHAR ∧
  c.XCODEC_DECLARE_CHAR ≠ c.XCODEC_HASHREF_CHAR ∧ c.XCODEC_BACKREF_CHAR ≠ c.XCODEC_HASHREF_CHAR

/-- The decoder of a peer whose cache and window match those of the encoder `e`. -/
def XCodecEncoder.mirror (e : XCodecEncoder) : XCodecDecoder := ⟨e.database_, e.backref_⟩

/-- The number of iterations the token loop of the decoder spends on a token sequence: one
per literal byte, one per declaration or reference. -/
def tokenSteps : List Token → Nat
  | [] => 0
  | .literal _ bs :: ts => bs.length + tokenSteps ts
  | .verbatim bs :: ts => bs.length + tokenSteps ts
  | _ :: ts => 1 + tokenSteps ts

/-- A sample input with two distinct windows: 64 bytes `a` followed by 64 bytes `b`. -/
def scenarioAB : List Nat := List.replicate 64 97 ++ List.replicate 64 98


/-! ## Pipe pair: vocabulary of the protocol properties -/

/-- Modelled from the spec: the seven opcodes are distinct (section 6); the two frame
operations label one `switch`, the five control operations another. -/
def Consts.opsDistinct (c : Consts) : Prop :=
  c.XCODEC_OP_FRAME ≠ c.XCODEC_OP_OOB ∧
  [c.XCODEC_OP_HELLO, c.XCODEC_OP_ASK, c.XCODEC_OP_LEARN, c.XCODEC_OP_EOS,
    c.XCODEC_OP_EOS_ACK].Nodup

/-- Modelled from the spec: a pipe pair as its constructor (xcodec/xcodec_pipe_pair.h is
absent) leaves it: no encoder, no decoder, empty buffers, no flag set. -/
def XCodecPipePair.init (registry : List (List Nat × XCDatabase)) (uuid : List Nat) :
    XCodecPipePair :=
  { registry := registry, codec_uuid := uuid, encoder_ := none, decoder_cache_ := none,
    decoder_ := none, decoder_buffer_ := [], decoder_frame_buffer_ := [],
    decoder_unknown_hashes_ := [], encoder_sent_eos_ := false,
    decoder_received_eos_ := false, decoder_received_eos_ack_ := false, events := [] }

/-- A sample pipe pair right after construction. -/
def sampleFresh : XCodecPipePair := XCodecPipePair.init [] (List.replicate 16 1)

/-- The wire image of one `OOB` frame carrying the control bytes `p`. -/
def oobOf (c : Consts) (p : List Nat) : List Nat :=
  [c.XCODEC_MAGIC, c.XCODEC_OP_OOB] ++ be16 p.length ++ p

/-- A sample pipe pair whose own cache holds the segment `b × 64`: the state of
`sampleLearned` with the cache of the decoder as the cache of the codec. -/
def sampleServer : XCodecPipePair :=
  { sampleLearned with codec_uuid := List.replicate 16 2 }

/-- The shutdown flags of `s2` against those of `s`: no flag went back to false, and
`decoder_received_eos_ack_` implies `encoder_sent_eos_` in `s2` if it did in `s`. -/
def FlagsLe (s s2 : XCodecPipePair) : Prop :=
  (s.encoder_sent_eos_ = true → s2.encoder_sent_eos_ = true) ∧
  (s.decoder_received_eos_ = true → s2.decoder_received_eos_ = true) ∧
  (s.decoder_received_eos_ack_ = true → s2.decoder_received_eos_ack_ = true) ∧
  ((s.decoder_received_eos_ack_ = true → s.encoder_sent_eos_ = true) →
    (s2.decoder_received_eos_ack_ = true → s2.encoder_sent_eos_ = true))

/-- What the handling of a payload leaves alone: the inbound buffer is the same, and the
shutdown flags only grow. -/
def PayloadKeeps (s s2 : XCodecPipePair) : Prop :=
  s2.decoder_buffer_ = s.decoder_buffer_ ∧ FlagsLe s s2

/-- A call of one of the two entry points of the pipe pair, as the pipes on either side
make them. -/
inductive Call where
  | encoder_consume (buf : List Nat)
  | decoder_consume (buf : List Nat)
deriving DecidableEq, Repr

/-- The state after one call. -/
def XCodecPipePair.call (c : Consts) (col : Collab) (s : XCodecPipePair) :
    Call → Except Fault XCodecPipePair
  | .encoder_consume buf => XCodec.encoder_consume c col s buf
  | .decoder_consume buf => XCodec.decoder_consume c col s buf

/-- The state after a sequence of calls, each made on the state the one before left. -/
def XCodecPipePair.run (c : Consts) (col : Collab) (s : XCodecPipePair) :
    List Call → Except Fault XCodecPipePair
  | [] => .ok s
  | k :: ks =>
    match s.call c col k with
    | .error f => .error f
    | .ok s2 => XCodecPipePair.run c col s2 ks

/-- The header checks in the words of the specification: the first byte is not `MAGIC`, or
the opcode is neither `OP_FRAME` nor `OP_OOB`, or it is `OP_FRAME` while no decoder has
been bound, or the length is 0 or greater than `FRAME_LENGTH`. -/
def HeaderViolation (c : Consts) (s : XCodecPipePair) (magic op len : Nat) : Prop :=
  magic ≠ c.XCODEC_MAGIC ∨ (op ≠ c.XCODEC_OP_FRAME ∧ op ≠ c.XCODEC_OP_OOB) ∨
  (op = c.XCODEC_OP_FRAME ∧ s.decoder_ = none) ∨ len = 0 ∨ len > XCODEC_FRAME_LENGTH

/-- An event that puts no byte on the wire: an empty buffer handed on, or the error path. -/
def Event.Quiet (e : Event) : Prop :=
  e = Event.encoder_produce [] ∨ e = Event.encoder_error

/-- A produced buffer that consists of `FRAME`s only, at least one, each with a payload of
1 to `FRAME_LENGTH` bytes. -/
def Event.FramesOnly (c : Consts) (e : Event) : Prop :=
  ∃ ps : List (List Nat), ps ≠ [] ∧
    (∀ p ∈ ps, 1 ≤ p.length ∧ p.length ≤ XCODEC_FRAME_LENGTH) ∧
    e = Event.encoder_produce (framesOf c ps)

/-- A produced buffer that starts with the `OOB` frame of a `HELLO` for the UUID bytes `u`
and goes on with `FRAME`s only, at least one. -/
def Event.HelloThenFrames (c : Consts) (u : List Nat) (e : Event) : Prop :=
  ∃ ps : List (List Nat), ps ≠ [] ∧
    (∀ p ∈ ps, 1 ≤ p.length ∧ p.length ≤ XCODEC_FRAME_LENGTH) ∧
    e = Event.encoder_produce
      ([c.XCODEC_MAGIC, c.XCODEC_OP_OOB, 0, 19, c.XCODEC_MAGIC, c.XCODEC_OP_HELLO, 16] ++ u ++
        framesOf c ps)

/-- A produced buffer that is the `OOB` frame of an `EOS`. -/
def Event.EosOnly (c : Consts) (e : Event) : Prop :=
  e = Event.encoder_produce
    [c.XCODEC_MAGIC, c.XCODEC_OP_OOB, 0, 2, c.XCODEC_MAGIC, c.XCODEC_OP_EOS]

/-- The source offset and the segment of an item that references a segment. -/
def Token.adopted? : Token → Option (Nat × Segment)
  | .backref start _ _ seg _ => some (start, seg)
  | .hashref start _ _ seg => some (start, seg)
  | _ => none

/-- A sample pipe pair in mid-connection with nothing pending: `sampleServer` without
unknown hashes. -/
def sampleIdle : XCodecPipePair :=
  { sampleServer with decoder_unknown_hashes_ := [] }

/-- The state `s` with `b` appended to the inbound buffer and `Q` put before the recorded
events: the same pipe pair with more bytes to come and a longer past. -/
def XCodecPipePair.more (s : XCodecPipePair) (b : List Nat) (Q : List Event) :
    XCodecPipePair :=
  { s with decoder_buffer_ := s.decoder_buffer_ ++ b, events := Q ++ s.events }

/-- The frame loop on a sequence of `FRAME`s in the words of the specification: every
payload joins the frame buffer, in order, and after each the token decoder step of the
loop runs on the frame buffer; meanwhile the inbound buffer holds the frames still to
come. -/
def feed_frames (c : Consts) (col : Collab) :
    XCodecPipePair → List (List Nat) → Except Fault (LoopExit × XCodecPipePair)
  | s, [] => .ok (.continue, { s with decoder_buffer_ := [] })
  | s, p :: ps =>
    match decoder_consume_decode c col
        { s with decoder_buffer_ := framesOf c ps,
                 decoder_frame_buffer_ := s.decoder_frame_buffer_ ++ p } with
    | .error f => .error f
    | .ok (.returned, s2) => .ok (.returned, s2)
    | .ok (.continue, s2) => feed_frames c col s2 ps

/-! ## Condition variable (event/condition.h) -/

/-- Modelled from the spec: a `SimpleCallback` (event/callback.h is absent) is known by an
identifier. -/
abbrev SimpleCallback := Nat

/-- Modelled from the spec: an `Action` (event/action.h is absent) is known by an
identifier. -/
abbrev Action := Nat

/-- What a condition variable does to its collaborators, in order: a callback is taken by
`wait`, scheduled by `signal` (which yields an action), deleted or, once scheduled, has its
action cancelled by `wait_cancel`. -/
inductive CVEffect where
  | registered (cb : SimpleCallback)
  | scheduled (cb : SimpleCallback) (a : Action)
  | deleted (cb : SimpleCallback)
  | cancelled (a : Action)
deriving DecidableEq, Repr

/-- The class `ConditionVariable`: its two fields. The other two fields are ghost: whether
the cancellation returned by the last `wait` has not been used yet, and the record of
effects. -/
structure ConditionVariable where
  wait_action_ : Option Action
  wait_callback_ : Option SimpleCallback
  handle : Bool
  effects : List CVEffect
deriving DecidableEq, Repr

namespace ConditionVariable

/-- The constructor `ConditionVariable(void)`: both fields are `NULL`. -/
def init : ConditionVariable :=
  { wait_action_ := none, wait_callback_ := none, handle := false, effects := [] }

/-- The method `signal()`. Modelled from the spec: `schedule()` yields a new action, known
here by the number of effects before it. -/
def signal (v : ConditionVariable) : Except Fault ConditionVariable :=
  match v.wait_callback_ with
  | none => .ok v
  | some cb =>
    if v.wait_action_ ≠ none then .error .assertion
    else
      .ok { v with wait_action_ := some v.effects.length, wait_callback_ := none,
                   effects := v.effects ++ [CVEffect.scheduled cb v.effects.length] }

/-- The method `wait(cb)`; the cancellation it returns calls `wait_cancel`. -/
def wait (v : ConditionVariable) (cb : SimpleCallback) : Except Fault ConditionVariable :=
  if v.wait_action_ ≠ none then .error .assertion
  else if v.wait_callback_ ≠ none then .error .assertion
  else
    .ok { v with wait_callback_ := some cb, handle := true,
                 effects := v.effects ++ [CVEffect.registered cb] }

/-- The method `wait_cancel()`. -/
def wait_cancel (v : ConditionVariable) : Except Fault ConditionVariable :=
  match v.wait_callback_ with
  | some cb =>
    if v.wait_action_ ≠ none then .error .assertion
    else
      .ok { v with wait_callback_ := none, handle := false,
                   effects := v.effects ++ [CVEffect.deleted cb] }
  | none =>
    match v.wait_action_ with
    | none => .error .assertion
    | some a =>
      .ok { v with wait_action_ := none, handle := false,
                   effects := v.effects ++ [CVEffect.cancelled a] }

end ConditionVariable

/-- A use of a condition variable: `signal()`, `wait(cb)`, or the cancellation that the last
`wait` returned. -/
inductive CVCall where
  | signal
  | wait (cb : SimpleCallback)
  | cancel
deriving DecidableEq, Repr

namespace ConditionVariable

/-- The condition variable after one use. -/
def call (v : ConditionVariable) : CVCall → Except Fault ConditionVariable
  | .signal => v.signal
  | .wait cb => v.wait cb
  | .cancel => v.wait_cancel

/-- The condition variable after a sequence of uses. -/
def run (v : ConditionVariable) : List CVCall → Except Fault ConditionVariable
  | [] => .ok v
  | k :: ks =>
    match v.call k with
    | .error f => .error f
    | .ok v2 => run v2 ks

/-- A use the callers may make in the state `v`: `wait` when its two assertions hold, the
cancellation when the last `wait` returned one that has not been used, `signal` always. -/
def allows (v : ConditionVariable) : CVCall → Bool
  | .signal => true
  | .wait _ => v.wait_action_ = none && v.wait_callback_ = none
  | .cancel => v.handle

/-- Every use of a sequence is one the callers may make in the state the uses before it
left. -/
def admissible (v : ConditionVariable) : List CVCall → Bool
  | [] => true
  | k :: ks =>
    v.allows k &&
      match v.call k with
      | .error _ => true
      | .ok v2 => admissible v2 ks

/-- The number of callbacks taken by `wait`. -/
def waits (v : ConditionVariable) : Nat :=
  v.effects.countP (fun e => match e with | .registered _ => true | _ => false)

/-- The number of callbacks scheduled. -/
def schedules (v : ConditionVariable) : Nat :=
  v.effects.countP (fun e => match e with | .scheduled _ _ => true | _ => false)

/-- The number of callbacks deleted. -/
def deletes (v : ConditionVariable) : Nat :=
  v.effects.countP (fun e => match e with | .deleted _ => true | _ => false)

/-- The number of actions cancelled. -/
def cancels (v : ConditionVariable) : Nat :=
  v.effects.countP (fun e => match e with | .cancelled _ => true | _ => false)

end ConditionVariable

/-- Facts that hold of a condition variable between uses: at most one field is set, the
cancellation is unused exactly while a field is set, every callback taken is waiting,
scheduled or deleted, and every action obtained is held or cancelled. -/
structure CVInv (v : ConditionVariable) : Prop where
  one : v.wait_callback_ = none ∨ v.wait_action_ = none
  handle_iff : v.handle = true ↔ (v.wait_callback_ ≠ none ∨ v.wait_action_ ≠ none)
  waits_eq : v.waits = v.schedules + v.deletes + (if v.wait_callback_ = none then 0 else 1)
  schedules_eq : v.schedules = v.cancels + (if v.wait_action_ = none then 0 else 1)

/-! ## Lemmas about the encoder -/

theorem copyout_length (buf : List Nat) (off n : Nat) (h : off + n ≤ buf.length) :
    (Buffer.copyout buf off n).length = n := by
  simp [Buffer.copyout]; omega

theorem copyout_append (a b : List Nat) (off n : Nat) (h : off + n ≤ a.length) :
    Buffer.copyout (a ++ b) off n = Buffer.copyout a off n := by
  unfold Buffer.copyout
  rw [List.drop_append_of_le_length (by omega), List.take_append_of_le_length]
  simp; omega

theorem copyout_drop (inp : List Nat) (k off n : Nat) :
    Buffer.copyout (inp.drop k) off n = Buffer.copyout inp (k + off) n := by
  simp [Buffer.copyout, List.drop_drop, Nat.add_comm]

theorem lookup_enter (db : XCDatabase) (h h2 : Nat) (seg : Segment) :
    (db.enter h seg).lookup h2 = if h2 = h then some seg else db.lookup h2 := by
  simp only [XCDatabase.lookup, XCDatabase.enter, List.lookup]
  by_cases hh : h2 = h
  · subst hh; simp
  · have : (h2 == h) = false := by simpa using hh
    simp [this, hh]

theorem dropWhile_sorted (fin : Nat) (l : List (Nat × Nat))
    (hs : l.Pairwise (fun a b => a.1 < b.1)) :
    l.dropWhile (fun e => decide (e.1 < fin)) = l.filter (fun e => decide (fin ≤ e.1)) := by
  induction l with
  | nil => rfl
  | cons a l ih =>
    rw [List.pairwise_cons] at hs
    by_cases ha : a.1 < fin
    · rw [List.dropWhile_cons_of_pos (by simpa using ha), List.filter_cons_of_neg (by simpa using ha)]
      exact ih hs.2
    · rw [List.dropWhile_cons_of_neg (by simpa using ha)]
      symm
      rw [List.filter_eq_self]
      intro e he
      rcases List.mem_cons.1 he with rfl | he
      · simpa using ha
      · have := hs.1 e he
        simp; omega

theorem Inv1_init (H : List Nat → Nat) (db : XCDatabase) : Inv1 H db Pass1.init := by
  constructor <;> simp [Pass1.init, XCHash.init]

theorem roll_window (w : List Nat) (outq : List Nat) (p : Nat)
    (hw : w = outq.drop (outq.length - 64)) :
    (XCHash.roll ⟨w⟩ p).window =
      (outq ++ [p]).drop ((outq ++ [p]).length - 64) := by
  subst hw
  have hk : outq.length - 64 ≤ outq.length := by omega
  simp only [XCHash.roll]
  unfold XCODEC_SEGMENT_LENGTH
  rw [← List.drop_append_of_le_length hk, List.drop_drop]
  have hlen : outq.length - 64 + ((List.drop (outq.length - 64) (outq ++ [p])).length - 64)
      = (outq ++ [p]).length - 64 := by
    simp only [List.length_drop, List.length_append, List.length_singleton]
    omega
  rw [hlen]

theorem mix_window (H : List Nat → Nat) (x : XCHash) (outq : List Nat)
    (hw : x.window = outq.drop (outq.length - 64))
    (hl : 64 ≤ outq.length) :
    x.mix H = XCodecHash_hash H
      (Buffer.copyout outq (outq.length - 64) 64) := by
  have hlen : (outq.drop (outq.length - 64)).length = 64 := by
    simp only [List.length_drop]; omega
  simp only [XCHash.mix, XCodecHash_hash, Buffer.copyout, hw]
  rw [List.take_of_length_le (le_of_eq hlen), List.take_of_length_le (le_of_eq hlen)]


theorem firstPassStep_inv (H : List Nat → Nat) (db : XCDatabase) (s : Pass1) (p : Nat)
    (h : Inv1 H db s) : Inv1 H db (firstPassStep H db s p) := by
  obtain ⟨ho, hb, hw, hhs, hho, hss, hso, hg⟩ := h
  have hlen : (s.outq ++ [p]).length = s.o + 1 := by simp only [List.length_append, List.length_singleton, ho]
  have hw2 : (s.xcodec_hash.roll p).window = (s.outq ++ [p]).drop (s.o + 1 - 64) := by
    have := roll_window s.xcodec_hash.window s.outq p (by rw [hw, ho])
    rw [hlen] at this
    exact this
  -- facts that survive the append of `p` to `outq`
  have hho2 : ∀ e ∈ s.offset_hash_map, e.1 + 64 ≤ s.o + 1 ∧
      e.2 = XCodecHash_hash H (Buffer.copyout (s.outq ++ [p]) e.1 64) := by
    intro e he
    obtain ⟨h1, h2⟩ := hho e he
    refine ⟨by omega, ?_⟩
    rw [copyout_append _ _ _ _ (by omega)]; exact h2
  have hso2 : ∀ e ∈ s.offset_seg_map, e.1 + 64 ≤ s.base ∧
      (∃ h, (e.1, h) ∈ s.offset_hash_map) ∧
      e.2 = Buffer.copyout (s.outq ++ [p]) e.1 64 ∧
      db.lookup (XCodecHash_hash H e.2) = some e.2 := by
    intro e he
    obtain ⟨h1, h2, h3, h4⟩ := hso e he
    refine ⟨h1, h2, ?_, h4⟩
    rw [copyout_append _ _ _ _ (by omega)]; exact h3
  unfold firstPassStep
  unfold XCODEC_SEGMENT_LENGTH
  simp only []
  split
  · omega
  split
  · exact ⟨by simp only [List.length_append, List.length_singleton, ho], by first | omega | (dsimp only; omega), hw2, hhs, hho2, hss, hso2, hg⟩
  rename_i hn1 hn2
  simp only [not_lt] at hn1 hn2
  try dsimp only at hn1 hn2
  have hmix : (s.xcodec_hash.roll p).mix H =
      XCodecHash_hash H (Buffer.copyout (s.outq ++ [p]) (s.o + 1 - 64) 64) := by
    have := mix_window H (s.xcodec_hash.roll p) (s.outq ++ [p]) (by rw [hw2, hlen])
      (by rw [hlen]; omega)
    rw [hlen] at this
    exact this
  have hsorted : (s.offset_hash_map ++ [(s.o + 1 - 64, (s.xcodec_hash.roll p).mix H)]).Pairwise
      (fun a b => a.1 < b.1) := by
    rw [List.pairwise_append]
    refine ⟨hhs, List.pairwise_singleton _ _, ?_⟩
    intro a ha b hb
    rw [List.mem_singleton] at hb
    subst hb
    have := (hho a ha).1
    simp only; omega
  have hok : ∀ e ∈ s.offset_hash_map ++ [(s.o + 1 - 64, (s.xcodec_hash.roll p).mix H)],
      e.1 + 64 ≤ s.o + 1 ∧
      e.2 = XCodecHash_hash H (Buffer.copyout (s.outq ++ [p]) e.1 64) := by
    intro e he
    rcases List.mem_append.1 he with he | he
    · exact hho2 e he
    · rw [List.mem_singleton] at he
      subst he
      exact ⟨by simp only; omega, hmix⟩
  split
  · rename_i oseg hlk
    split
    · exact ⟨by simp only [List.length_append, List.length_singleton, ho], by first | omega | (dsimp only; omega), hw2, hhs, hho2, hss, hso2, hg⟩
    · rename_i heq
      simp only [ne_eq, not_not] at heq
      refine ⟨by simp only [List.length_append, List.length_singleton, ho], le_refl _, hw2, hsorted, hok, ?_, ?_, ?_⟩
      · show (s.offset_seg_map ++ [(s.o + 1 - 64, oseg)]).Pairwise (fun a b => a.1 < b.1)
        rw [List.pairwise_append]
        refine ⟨hss, List.pairwise_singleton _ _, ?_⟩
        intro a ha b hb
        rw [List.mem_singleton] at hb
        subst hb
        have := (hso a ha).1
        simp only; omega
      · intro e he
        rcases List.mem_append.1 he with he | he
        · obtain ⟨h1, ⟨h, h2⟩, h3, h4⟩ := hso2 e he
          exact ⟨by simp only; omega, ⟨h, List.mem_append_left _ h2⟩, h3, h4⟩
        · rw [List.mem_singleton] at he
          subst he
          refine ⟨by simp only; omega, ⟨_, List.mem_append_right _ (List.mem_singleton_self _)⟩,
            heq, ?_⟩
          simp only
          rw [heq, ← hmix]
          rw [heq] at hlk
          exact hlk
      · intro e he e2 he2 hlt
        rcases List.mem_append.1 he2 with he2 | he2
        · rcases List.mem_append.1 he with he | he
          · exact hg e he e2 he2 hlt
          · rw [List.mem_singleton] at he
            subst he
            have := (hho e2 he2).1
            simp only at hlt; omega
        · rw [List.mem_singleton] at he2
          subst he2
          rcases List.mem_append.1 he with he | he
          · have := (hso e he).1
            simp only at hn2 ⊢; omega
          · rw [List.mem_singleton] at he
            subst he
            simp only at hlt; omega
  · refine ⟨by simp only [List.length_append, List.length_singleton, ho], by first | omega | (dsimp only; omega), hw2, hsorted, hok, hss, ?_, ?_⟩
    · intro e he
      obtain ⟨h1, ⟨h, h2⟩, h3, h4⟩ := hso2 e he
      exact ⟨h1, ⟨h, List.mem_append_left _ h2⟩, h3, h4⟩
    · intro e he e2 he2 hlt
      rcases List.mem_append.1 he2 with he2 | he2
      · exact hg e he e2 he2 hlt
      · rw [List.mem_singleton] at he2
        subst he2
        have := (hso e he).1
        simp only at hn2 ⊢; omega

theorem firstPass_inv (H : List Nat → Nat) (db : XCDatabase) (inp : List Nat) (s : Pass1)
    (h : Inv1 H db s) : Inv1 H db (firstPass H db s inp) := by
  induction inp generalizing s with
  | nil => exact h
  | cons p ps ih => exact ih _ (firstPassStep_inv H db s p h)

theorem firstPassStep_outq (H : List Nat → Nat) (db : XCDatabase) (s : Pass1) (p : Nat) :
    (firstPassStep H db s p).outq = s.outq ++ [p] := by
  unfold firstPassStep
  simp only []
  repeat (first | rfl | split)

theorem firstPass_outq (H : List Nat → Nat) (db : XCDatabase) (inp : List Nat) (s : Pass1) :
    (firstPass H db s inp).outq = s.outq ++ inp := by
  induction inp generalizing s with
  | nil => simp [firstPass]
  | cons p ps ih => simp [firstPass, ih, firstPassStep_outq]


theorem replay_append (w : XCBackref) (a b : List Token) :
    replay w (a ++ b) = replay (replay w a) b := by
  induction a generalizing w with
  | nil => rfl
  | cons t ts ih => cases t <;> simp [replay, ih]

theorem serialize_append (c : Consts) (a b : List Token) :
    serialize c (a ++ b) = serialize c a ++ serialize c b := by
  induction a with
  | nil => rfl
  | cons t ts ih => simp [serialize, ih]

theorem sourceOf_append (a b : List Token) : sourceOf (a ++ b) = sourceOf a ++ sourceOf b := by
  induction a with
  | nil => rfl
  | cons t ts ih => simp [sourceOf, ih]

theorem refStarts_append (a b : List Token) : refStarts (a ++ b) = refStarts a ++ refStarts b := by
  induction a with
  | nil => rfl
  | cons t ts ih => cases t <;> simp [refStarts, ih]

theorem runTokens_append (e : XCodecEncoder) (a b : List Token) :
    runTokens e (a ++ b) = runTokens (runTokens e a) b := by
  induction a generalizing e with
  | nil => rfl
  | cons t ts ih => simp [runTokens, ih]

theorem chain_append (H : List Nat → Nat) (e : XCodecEncoder) (a b : List Token) :
    Chain H e (a ++ b) ↔ Chain H e a ∧ Chain H (runTokens e a) b := by
  induction a generalizing e with
  | nil => simp [Chain, runTokens]
  | cons t ts ih => simp [Chain, runTokens, ih, and_assoc]

/-- Appending one item to a chain whose end state is known. -/
theorem chain_snoc (H : List Nat → Nat) (e e2 : XCodecEncoder) (ts : List Token) (t : Token)
    (hc : Chain H e ts) (hs : runTokens e ts = e2) (ht : t.emittable H e2) :
    Chain H e (ts ++ [t]) ∧ runTokens e (ts ++ [t]) = t.apply e2 := by
  rw [chain_append, runTokens_append, hs]
  exact ⟨⟨hc, ht, trivial⟩, rfl⟩

theorem TokOK_mono (inp : List Nat) (db db2 : XCDatabase) (t : Token)
    (hdb : ∀ h seg, db.lookup h = some seg → db2.lookup h = some seg)
    (h : TokOK inp db t) : TokOK inp db2 t := by
  cases t with
  | verbatim bs => exact h
  | declare start hash seg => exact ⟨h.1, h.2.1, hdb _ _ h.2.2⟩
  | literal off bs => exact h
  | backref start soff hash seg b => exact ⟨h.1, h.2.1, h.2.2.1, hdb _ _ h.2.2.2⟩
  | hashref start soff hash seg => exact ⟨h.1, h.2.1, h.2.2.1, hdb _ _ h.2.2.2⟩

/-- Erasing entries of the two maps keeps the invariant, as long as every remaining
offset-segment entry keeps its offset-hash entry. -/
theorem Inv2.shrink {c : Consts} {H : List Nat → Nat} {inp : List Nat} {db0 : XCDatabase}
    {w0 : XCBackref} {out0 : List Nat} {s : Pass2} (h : Inv2 c H inp db0 w0 out0 s)
    (ohm : List (Nat × Nat)) (osm : List (Nat × Segment))
    (h1 : ohm.Sublist s.offset_hash_map) (h2 : osm.Sublist s.offset_seg_map)
    (h3 : ∀ e ∈ osm, ∃ h, (e.1, h) ∈ ohm) :
    Inv2 c H inp db0 w0 out0 { s with offset_hash_map := ohm, offset_seg_map := osm } where
  outq_eq := h.outq_eq
  soff_le := h.soff_le
  ohm_sorted := h.ohm_sorted.sublist h1
  ohm_ok := fun e he => h.ohm_ok e (h1.subset he)
  osm_sorted := h.osm_sorted.sublist h2
  osm_ok := fun e he => ⟨h3 e he, (h.osm_ok e (h2.subset he)).2⟩
  gap := fun e he e2 he2 => h.gap e (h2.subset he) e2 (h1.subset he2)
  db_ext := h.db_ext
  db_new := h.db_new
  trace_ok := h.trace_ok
  refs_below := h.refs_below
  refs_disjoint := h.refs_disjoint
  cover := h.cover
  window_eq := h.window_eq
  output_eq := h.output_eq
  chain := h.chain
  state_eq := h.state_eq
  no_verbatim := h.no_verbatim

theorem take_add_copyout (inp : List Nat) (a n : Nat) :
    inp.take a ++ Buffer.copyout inp a n = inp.take (a + n) := by
  rw [List.take_add]; rfl

theorem copyGap_inv {c : Consts} {H : List Nat → Nat} {inp : List Nat} {db0 : XCDatabase}
    {w0 : XCBackref} {out0 : List Nat} {s : Pass2} (h : Inv2 c H inp db0 w0 out0 s)
    (start : Nat) (hs : s.soff ≤ start) (hfin : start + 64 ≤ inp.length)
    (hohm : ∀ e ∈ s.offset_hash_map, start ≤ e.1) :
    Inv2 c H inp db0 w0 out0 (copyGap c s start) ∧ (copyGap c s start).soff = start ∧
    (copyGap c s start).offset_hash_map = s.offset_hash_map ∧
    (copyGap c s start).offset_seg_map = s.offset_seg_map ∧
    (copyGap c s start).database_ = s.database_ := by
  unfold copyGap
  split
  · refine ⟨?_, rfl, rfl, rfl, rfl⟩
    have hmv : (Buffer.moveout s.outq 0 (start - s.soff)).1 =
        Buffer.copyout inp s.soff (start - s.soff) := by
      simp only [Buffer.moveout, Buffer.copyout, h.outq_eq, List.drop_zero]
    have hlen : (Buffer.copyout inp s.soff (start - s.soff)).length = start - s.soff :=
      copyout_length _ _ _ (by omega)
    exact {
      outq_eq := by
        simp only [Buffer.moveout, h.outq_eq, List.drop_drop, Nat.zero_add]
        congr 1; omega
      soff_le := by dsimp only; omega
      ohm_sorted := h.ohm_sorted
      ohm_ok := fun e he => ⟨hohm e he, (h.ohm_ok e he).2⟩
      osm_sorted := h.osm_sorted
      osm_ok := h.osm_ok
      gap := h.gap
      db_ext := h.db_ext
      db_new := h.db_new
      trace_ok := by
        intro t ht
        rcases List.mem_append.1 ht with ht | ht
        · exact h.trace_ok t ht
        · rw [List.mem_singleton] at ht
          subst ht
          rw [hmv]
          simp only [TokOK, hlen]
          exact ⟨trivial, by omega⟩
      refs_below := by
        intro st hst
        simp only [refStarts_append, refStarts, List.append_nil] at hst
        have := h.refs_below st hst
        dsimp only; omega
      refs_disjoint := by
        simp only [refStarts_append, refStarts, List.append_nil]
        exact h.refs_disjoint
      cover := by
        simp only [sourceOf_append, sourceOf, Token.source, List.append_nil, h.cover, hmv]
        rw [take_add_copyout]
        congr 1; omega
      window_eq := by
        simp only [replay_append, replay]
        exact h.window_eq
      output_eq := by
        simp only [serialize_append, serialize, Token.bytes, List.append_nil, h.output_eq,
          List.append_assoc]
      chain := (chain_snoc H _ _ _
        (Token.literal s.soff (Buffer.moveout s.outq 0 (start - s.soff)).1)
        h.chain h.state_eq trivial).1
      state_eq := (chain_snoc H _ _ _
        (Token.literal s.soff (Buffer.moveout s.outq 0 (start - s.soff)).1)
        h.chain h.state_eq trivial).2
      no_verbatim := by
        intro bs hm
        rcases List.mem_append.1 hm with hm | hm
        · exact h.no_verbatim bs hm
        · rw [List.mem_singleton] at hm
          cases hm }
  · rename_i heq
    simp only [ne_eq, not_not] at heq
    exact ⟨h, heq, rfl, rfl, rfl⟩


theorem outputReference_inv {c : Consts} {H : List Nat → Nat} {inp : List Nat}
    {db0 : XCDatabase} {w0 : XCBackref} {out0 : List Nat} {s : Pass2}
    (h : Inv2 c H inp db0 w0 out0 s)
    (start hash : Nat) (seg : Segment) (soff0 : Nat) (hs0 : soff0 ≤ start)
    (hs : s.soff = start) (hfin : start + 64 ≤ inp.length)
    (hohm : ∀ e ∈ s.offset_hash_map, start + 64 ≤ e.1)
    (hseg : seg = Buffer.copyout inp start 64) (hlk : s.database_.lookup hash = some seg)
    (hh : hash < 2 ^ 64) :
    Inv2 c H inp db0 w0 out0 (outputReference c s start hash seg soff0) := by
  have hsl : seg.length = 64 := by rw [hseg]; exact copyout_length _ _ _ hfin
  have hnv : ∀ (t : Token), (∀ bs, t ≠ Token.verbatim bs) →
      ∀ bs, Token.verbatim bs ∉ s.trace ++ [t] := by
    intro t ht bs hm
    rcases List.mem_append.1 hm with hm | hm
    · exact h.no_verbatim bs hm
    · rw [List.mem_singleton] at hm
      exact ht bs hm.symm
  have hbelow : ∀ st ∈ refStarts s.trace ++ [start], st + 64 ≤ start + 64 := by
    intro st hst
    rcases List.mem_append.1 hst with hst | hst
    · have := h.refs_below st hst; omega
    · rw [List.mem_singleton] at hst; omega
  have hdis : (refStarts s.trace ++ [start]).Pairwise (fun a b => a + 64 ≤ b) := by
    rw [List.pairwise_append]
    refine ⟨h.refs_disjoint, List.pairwise_singleton _ _, ?_⟩
    intro a ha b hb
    rw [List.mem_singleton] at hb
    have := h.refs_below a ha
    omega
  have hcover : inp.take s.soff ++ seg = inp.take (start + 64) := by
    rw [hseg, hs, take_add_copyout]
  have houtq : Buffer.skip s.outq 64 = inp.drop (start + 64) := by
    rw [Buffer.skip, h.outq_eq, List.drop_drop, hs, Nat.add_comm]
  unfold outputReference
  unfold XCODEC_SEGMENT_LENGTH
  dsimp only
  split
  · rename_i b hb
    exact {
      outq_eq := houtq
      soff_le := hfin
      ohm_sorted := h.ohm_sorted
      ohm_ok := fun e he => ⟨hohm e he, (h.ohm_ok e he).2⟩
      osm_sorted := h.osm_sorted
      osm_ok := h.osm_ok
      gap := h.gap
      db_ext := h.db_ext
      db_new := h.db_new
      trace_ok := by
        intro t ht
        rcases List.mem_append.1 ht with ht | ht
        · exact h.trace_ok t ht
        · rw [List.mem_singleton] at ht
          subst ht
          exact ⟨hs0, hfin, hseg, hlk⟩
      refs_below := by
        simp only [refStarts_append, refStarts]
        exact hbelow
      refs_disjoint := by
        simp only [refStarts_append, refStarts]
        exact hdis
      cover := by
        simp only [sourceOf_append, sourceOf, Token.source, List.append_nil, h.cover]
        exact hcover
      window_eq := by
        simp only [replay_append, replay]
        exact h.window_eq
      output_eq := by
        simp only [serialize_append, serialize, Token.bytes, List.append_nil, h.output_eq,
          List.append_assoc]
      chain := (chain_snoc H _ _ _ (Token.backref start soff0 hash seg b)
        h.chain h.state_eq ⟨hlk, hb, hsl⟩).1
      state_eq := (chain_snoc H _ _ _ (Token.backref start soff0 hash seg b)
        h.chain h.state_eq ⟨hlk, hb, hsl⟩).2
      no_verbatim := hnv _ (fun _ hc => by cases hc) }
  · rename_i hb
    exact {
      outq_eq := houtq
      soff_le := hfin
      ohm_sorted := h.ohm_sorted
      ohm_ok := fun e he => ⟨hohm e he, (h.ohm_ok e he).2⟩
      osm_sorted := h.osm_sorted
      osm_ok := h.osm_ok
      gap := h.gap
      db_ext := h.db_ext
      db_new := h.db_new
      trace_ok := by
        intro t ht
        rcases List.mem_append.1 ht with ht | ht
        · exact h.trace_ok t ht
        · rw [List.mem_singleton] at ht
          subst ht
          exact ⟨hs0, hfin, hseg, hlk⟩
      refs_below := by
        simp only [refStarts_append, refStarts]
        exact hbelow
      refs_disjoint := by
        simp only [refStarts_append, refStarts]
        exact hdis
      cover := by
        simp only [sourceOf_append, sourceOf, Token.source, List.append_nil, h.cover]
        exact hcover
      window_eq := by
        simp only [replay_append, replay]
        rw [h.window_eq]
      output_eq := by
        simp only [serialize_append, serialize, Token.bytes, List.append_nil, h.output_eq,
          List.append_assoc]
      chain := (chain_snoc H _ _ _ (Token.hashref start soff0 hash seg)
        h.chain h.state_eq ⟨hlk, hb, hh, hsl⟩).1
      state_eq := (chain_snoc H _ _ _ (Token.hashref start soff0 hash seg)
        h.chain h.state_eq ⟨hlk, hb, hh, hsl⟩).2
      no_verbatim := hnv _ (fun _ hc => by cases hc) }

theorem emitSlice_inv {c : Consts} {H : List Nat → Nat} {inp : List Nat}
    {db0 : XCDatabase} {w0 : XCBackref} {out0 : List Nat} {s : Pass2}
    (h : Inv2 c H inp db0 w0 out0 s)
    (start hash : Nat) (seg : Segment) (hs : s.soff ≤ start) (hfin : start + 64 ≤ inp.length)
    (hohm : ∀ e ∈ s.offset_hash_map, start + 64 ≤ e.1)
    (hseg : seg = Buffer.copyout inp start 64) (hlk : s.database_.lookup hash = some seg)
    (hh : hash < 2 ^ 64) :
    Inv2 c H inp db0 w0 out0 (emitSlice c s start hash seg) := by
  obtain ⟨h1, h2, h3, _, h5⟩ := copyGap_inv h start hs hfin
    (fun e he => by have := hohm e he; omega)
  unfold emitSlice
  exact outputReference_inv h1 start hash seg s.soff hs h2 hfin (by rw [h3]; exact hohm) hseg
    (by rw [h5]; exact hlk) hh

theorem declareSegment_inv {c : Consts} {H : List Nat → Nat} {inp : List Nat}
    {db0 : XCDatabase} {w0 : XCBackref} {out0 : List Nat} {s : Pass2}
    (h : Inv2 c H inp db0 w0 out0 s)
    (start hash : Nat) (data : Segment) (hfin : start + 64 ≤ inp.length)
    (hdata : data = Buffer.copyout inp start 64) (hhash : hash = XCodecHash_hash H data)
    (hlk : s.database_.lookup hash = none) :
    Inv2 c H inp db0 w0 out0 (declareSegment c s start hash data) := by
  have hmono : ∀ h2 seg, s.database_.lookup h2 = some seg →
      (s.database_.enter hash data).lookup h2 = some seg := by
    intro h2 seg hl
    rw [lookup_enter]
    split
    · rename_i he; rw [he, hlk] at hl; cases hl
    · exact hl
  exact {
    outq_eq := h.outq_eq
    soff_le := h.soff_le
    ohm_sorted := h.ohm_sorted
    ohm_ok := h.ohm_ok
    osm_sorted := h.osm_sorted
    osm_ok := fun e he =>
      ⟨(h.osm_ok e he).1, (h.osm_ok e he).2.1, hmono _ _ (h.osm_ok e he).2.2⟩
    gap := h.gap
    db_ext := fun h2 seg hl => hmono _ _ (h.db_ext h2 seg hl)
    db_new := by
      intro h2 seg hl
      simp only [declareSegment, lookup_enter] at hl
      split at hl
      · rename_i he
        cases hl
        right
        exact ⟨by rw [he, hhash], by rw [hdata]; exact copyout_length _ _ _ hfin⟩
      · exact h.db_new h2 seg hl
    trace_ok := by
      intro t ht
      rcases List.mem_append.1 ht with ht | ht
      · exact TokOK_mono _ _ _ _ hmono (h.trace_ok t ht)
      · rw [List.mem_singleton] at ht
        subst ht
        exact ⟨hfin, hdata, by simp [declareSegment, lookup_enter]⟩
    refs_below := by
      simp only [declareSegment, refStarts_append, refStarts, List.append_nil]
      exact h.refs_below
    refs_disjoint := by
      simp only [declareSegment, refStarts_append, refStarts, List.append_nil]
      exact h.refs_disjoint
    cover := by
      simp only [declareSegment, sourceOf_append, sourceOf, Token.source, List.append_nil,
        h.cover]
    window_eq := by
      simp only [declareSegment, replay_append, replay]
      rw [h.window_eq]
    output_eq := by
      simp only [declareSegment, serialize_append, serialize, Token.bytes, List.append_nil,
        h.output_eq, List.append_assoc]
    chain := (chain_snoc H _ _ _ (Token.declare start hash data) h.chain h.state_eq
      ⟨hlk, hhash, by rw [hdata]; exact copyout_length _ _ _ hfin⟩).1
    state_eq := (chain_snoc H _ _ _ (Token.declare start hash data) h.chain h.state_eq
      ⟨hlk, hhash, by rw [hdata]; exact copyout_length _ _ _ hfin⟩).2
    no_verbatim := by
      intro bs hm
      rcases List.mem_append.1 hm with hm | hm
      · exact h.no_verbatim bs hm
      · rw [List.mem_singleton] at hm
        cases hm }

theorem skipOverlapping_inv {c : Consts} {H : List Nat → Nat} {inp : List Nat}
    {db0 : XCDatabase} {w0 : XCBackref} {out0 : List Nat} {s : Pass2}
    (h : Inv2 c H inp db0 w0 out0 s) (fin : Nat)
    (hosm : ∀ e ∈ s.offset_seg_map, fin ≤ e.1) :
    Inv2 c H inp db0 w0 out0 (skipOverlapping s fin) ∧
    (∀ e ∈ (skipOverlapping s fin).offset_hash_map, fin ≤ e.1) ∧
    (skipOverlapping s fin).soff = s.soff ∧
    (skipOverlapping s fin).database_ = s.database_ := by
  have hf := dropWhile_sorted fin s.offset_hash_map h.ohm_sorted
  refine ⟨?_, ?_, rfl, rfl⟩
  · have := h.shrink (s.offset_hash_map.dropWhile (fun e => decide (e.1 < fin)))
      s.offset_seg_map (List.dropWhile_sublist _) (List.Sublist.refl _) (by
        intro e he
        obtain ⟨h2, hm⟩ := (h.osm_ok e he).1
        refine ⟨h2, ?_⟩
        rw [hf, List.mem_filter]
        exact ⟨hm, by simpa using hosm e he⟩)
    exact this
  · intro e he
    simp only [skipOverlapping] at he
    rw [hf, List.mem_filter] at he
    simpa using he.2


theorem lookupOrDeclare_inv {c : Consts} {H : List Nat → Nat} {inp : List Nat}
    {db0 : XCDatabase} {w0 : XCBackref} {out0 : List Nat} {s : Pass2}
    (h : Inv2 c H inp db0 w0 out0 s)
    (start hash : Nat) (hs : s.soff ≤ start) (hfin : start + 64 ≤ inp.length)
    (hhash : hash = XCodecHash_hash H (Buffer.copyout inp start 64))
    (hosm : ∀ e ∈ s.offset_seg_map, start + 64 ≤ e.1) :
    Inv2 c H inp db0 w0 out0 (lookupOrDeclare c s start hash) := by
  have hdata : Buffer.copyout s.outq (start - s.soff) 64 = Buffer.copyout inp start 64 := by
    rw [h.outq_eq, copyout_drop]
    congr 1; omega
  have hlt : hash < 2 ^ 64 := by
    rw [hhash]; exact Nat.mod_lt _ (by decide)
  unfold lookupOrDeclare
  unfold XCODEC_SEGMENT_LENGTH
  dsimp only
  rw [hdata]
  split
  · rename_i seg hlk
    split
    · exact h
    · rename_i heq
      simp only [ne_eq, not_not] at heq
      obtain ⟨h1, h2, h3, h4⟩ := skipOverlapping_inv h (start + 64) hosm
      exact emitSlice_inv h1 start hash seg (by rw [h3]; exact hs) hfin h2 heq
        (by rw [h4]; exact hlk) hlt
  · rename_i hlk
    have hd := declareSegment_inv h start hash (Buffer.copyout inp start 64) hfin rfl hhash hlk
    obtain ⟨h1, h2, h3, h4⟩ := skipOverlapping_inv hd (start + 64) hosm
    exact emitSlice_inv h1 start hash _ (by rw [h3]; exact hs) hfin h2 rfl
      (by rw [h4]; simp [declareSegment, lookup_enter]) hlt

theorem secondPassStep_inv {c : Consts} {H : List Nat → Nat} {inp : List Nat}
    {db0 : XCDatabase} {w0 : XCBackref} {out0 : List Nat} {s : Pass2}
    (h : Inv2 c H inp db0 w0 out0 s) : Inv2 c H inp db0 w0 out0 (secondPassStep c s) := by
  unfold secondPassStep
  split
  · exact h
  rename_i start hash rest hohm
  have hhead := h.ohm_ok (start, hash) (by rw [hohm]; exact List.mem_cons_self _ _)
  have hsorted := h.ohm_sorted
  rw [hohm, List.pairwise_cons] at hsorted
  dsimp only at hhead hsorted
  have hsub : rest.Sublist s.offset_hash_map := by rw [hohm]; exact List.sublist_cons_self _ _
  -- an offset-segment entry that does not start at `start` keeps its offset-hash entry
  have hkeep : ∀ e ∈ s.offset_seg_map, e.1 ≠ start → ∃ h2, (e.1, h2) ∈ rest := by
    intro e he hne
    obtain ⟨h2, hm⟩ := (h.osm_ok e he).1
    rw [hohm] at hm
    rcases List.mem_cons.1 hm with hm | hm
    · exact absurd (congrArg Prod.fst hm) hne
    · exact ⟨h2, hm⟩
  unfold XCODEC_SEGMENT_LENGTH
  dsimp only
  split
  · rename_i ofirst oseg osrest hosm
    have hosorted := h.osm_sorted
    rw [hosm, List.pairwise_cons] at hosorted
    have hofirst := h.osm_ok (ofirst, oseg) (by rw [hosm]; exact List.mem_cons_self _ _)
    dsimp only at hofirst hosorted
    split
    · rename_i heq
      subst heq
      have h1 := h.shrink rest osrest hsub (by rw [hosm]; exact List.sublist_cons_self _ _) (by
        intro e he
        have hlt := hosorted.1 e he
        exact hkeep e (by rw [hosm]; exact List.mem_cons_of_mem _ he) (by omega))
      refine emitSlice_inv h1 start hash oseg hhead.1 hhead.2.1 ?_ hofirst.2.1 ?_
        (by rw [hhead.2.2]; exact Nat.mod_lt _ (by decide))
      · intro e he
        exact h.gap (start, oseg) (by rw [hosm]; exact List.mem_cons_self _ _) e
          (hsub.subset he) (hsorted.1 e he)
      · have := hofirst.2.2
        dsimp only
        rw [hhead.2.2, ← hofirst.2.1]
        exact this
    · rename_i hne
      -- the head of the offset-segment map lies strictly after `start`
      have hgt : start < ofirst := by
        obtain ⟨h2, hm⟩ := hkeep (ofirst, oseg) (by rw [hosm]; exact List.mem_cons_self _ _)
          (fun h3 => hne h3.symm)
        exact hsorted.1 _ hm
      have hall : ∀ e ∈ s.offset_seg_map, ofirst ≤ e.1 := by
        intro e he
        rw [hosm] at he
        rcases List.mem_cons.1 he with he | he
        · rw [he]
        · exact le_of_lt (hosorted.1 e he)
      have h1 := h.shrink rest s.offset_seg_map hsub (List.Sublist.refl _) (by
        intro e he
        have := hall e he
        exact hkeep e he (by omega))
      split
      · exact h1
      · rename_i hno
        refine lookupOrDeclare_inv h1 start hash hhead.1 hhead.2.1 hhead.2.2 ?_
        intro e he
        have := hall e he
        omega
  · rename_i hosm
    have h1 := h.shrink rest s.offset_seg_map hsub (List.Sublist.refl _) (by
      intro e he
      rw [hosm] at he
      cases he)
    refine lookupOrDeclare_inv h1 start hash hhead.1 hhead.2.1 hhead.2.2 ?_
    intro e he
    have he2 : e ∈ s.offset_seg_map := he
    rw [hosm] at he2
    cases he2

theorem secondPassLoop_inv {c : Consts} {H : List Nat → Nat} {inp : List Nat}
    {db0 : XCDatabase} {w0 : XCBackref} {out0 : List Nat} (fuel : Nat) {s : Pass2}
    (h : Inv2 c H inp db0 w0 out0 s) : Inv2 c H inp db0 w0 out0 (secondPassLoop c fuel s) := by
  induction fuel generalizing s with
  | zero => exact h
  | succ n ih =>
    unfold secondPassLoop
    split
    · exact h
    · exact ih (secondPassStep_inv h)


theorem secondPassInit_inv (c : Consts) (H : List Nat → Nat) (enc : XCodecEncoder)
    (out inp : List Nat) :
    Inv2 c H inp enc.database_ enc.backref_ out
      (secondPassInit enc out (firstPass H enc.database_ Pass1.init inp)) := by
  have h1 := firstPass_inv H enc.database_ inp Pass1.init (Inv1_init H enc.database_)
  have hq : (firstPass H enc.database_ Pass1.init inp).outq = inp := by
    rw [firstPass_outq]; rfl
  have ho := h1.o_eq
  rw [hq] at ho
  exact {
    outq_eq := by simp [secondPassInit, hq]
    soff_le := Nat.zero_le _
    ohm_sorted := h1.ohm_sorted
    ohm_ok := by
      intro e he
      have := h1.ohm_ok e he
      rw [hq, ho] at this
      exact ⟨Nat.zero_le _, this.1, this.2⟩
    osm_sorted := h1.osm_sorted
    osm_ok := by
      intro e he
      have := h1.osm_ok e he
      rw [hq] at this
      exact ⟨this.2.1, this.2.2.1, this.2.2.2⟩
    gap := h1.gap
    db_ext := fun _ _ h => h
    db_new := fun _ _ h => Or.inl h
    trace_ok := by intro t ht; cases ht
    refs_below := by intro st hst; cases hst
    refs_disjoint := List.Pairwise.nil
    cover := by simp [secondPassInit, sourceOf]
    window_eq := rfl
    output_eq := by simp [secondPassInit, serialize]
    chain := trivial
    state_eq := rfl
    no_verbatim := by intro bs hm; cases hm }

theorem copyGap_ohm (c : Consts) (s : Pass2) (start : Nat) :
    (copyGap c s start).offset_hash_map = s.offset_hash_map := by
  unfold copyGap; split <;> rfl

theorem outputReference_ohm (c : Consts) (s : Pass2) (start hash : Nat) (seg : Segment)
    (soff0 : Nat) :
    (outputReference c s start hash seg soff0).offset_hash_map = s.offset_hash_map := by
  unfold outputReference; dsimp only; split <;> rfl

theorem emitSlice_ohm (c : Consts) (s : Pass2) (start hash : Nat) (seg : Segment) :
    (emitSlice c s start hash seg).offset_hash_map = s.offset_hash_map := by
  unfold emitSlice; rw [outputReference_ohm, copyGap_ohm]

theorem lookupOrDeclare_ohm (c : Consts) (s : Pass2) (start hash : Nat) :
    (lookupOrDeclare c s start hash).offset_hash_map.length ≤ s.offset_hash_map.length := by
  unfold lookupOrDeclare
  dsimp only
  split
  · split
    · exact le_refl _
    · rw [emitSlice_ohm]
      exact (List.dropWhile_sublist _).length_le
  · rw [emitSlice_ohm]
    exact (List.dropWhile_sublist _).length_le

theorem secondPassStep_ohm (c : Consts) (s : Pass2) (hne : s.offset_hash_map ≠ []) :
    (secondPassStep c s).offset_hash_map.length < s.offset_hash_map.length := by
  unfold secondPassStep
  split
  · rename_i h; exact absurd h hne
  · rename_i start hash rest hohm
    dsimp only
    rw [hohm]
    have hl : rest.length < ((start, hash) :: rest).length := by simp
    split
    · split
      · rw [emitSlice_ohm]; exact hl
      · split
        · exact hl
        · exact lt_of_le_of_lt (lookupOrDeclare_ohm _ _ _ _) hl
    · exact lt_of_le_of_lt (lookupOrDeclare_ohm _ _ _ _) hl

theorem secondPassLoop_ohm (c : Consts) (fuel : Nat) (s : Pass2)
    (h : s.offset_hash_map.length ≤ fuel) :
    (secondPassLoop c fuel s).offset_hash_map = [] := by
  induction fuel generalizing s with
  | zero =>
    unfold secondPassLoop
    exact List.length_eq_zero.1 (Nat.le_zero.1 h)
  | succ n ih =>
    unfold secondPassLoop
    split
    · rename_i h2; exact h2
    · rename_i a l h2
      apply ih
      have := secondPassStep_ohm c s (by rw [h2]; exact List.cons_ne_nil _ _)
      omega

theorem encodeRun_facts (c : Consts) (H : List Nat → Nat) (enc : XCodecEncoder)
    (out inp : List Nat) : EncodeFacts c H enc out inp (encodeRun c H enc out inp) := by
  unfold encodeRun
  unfold XCODEC_SEGMENT_LENGTH
  split
  · exact {
      output_eq := by simp [serialize, Token.bytes]
      window_eq := rfl
      trace_ok := by
        intro t ht
        rw [List.mem_singleton] at ht
        subst ht
        rfl
      refs_disjoint := List.Pairwise.nil
      cover := by simp [sourceOf, Token.source]
      db_ext := fun _ _ h => h
      db_new := fun _ _ h => Or.inl h
      input_eq := rfl
      ohm_eq := rfl
      chain := ⟨trivial, trivial⟩
      state_eq := rfl
      verbatim_short := fun _ _ => by assumption }
  · have hi := secondPassInit_inv c H enc out inp
    have h2 := secondPassLoop_inv
      (firstPass H enc.database_ Pass1.init inp).offset_hash_map.length hi
    have hdone := secondPassLoop_ohm c
      (firstPass H enc.database_ Pass1.init inp).offset_hash_map.length
      (secondPassInit enc out (firstPass H enc.database_ Pass1.init inp)) (le_refl _)
    dsimp only
    generalize secondPassLoop c (firstPass H enc.database_ Pass1.init inp).offset_hash_map.length
      (secondPassInit enc out (firstPass H enc.database_ Pass1.init inp)) = p2 at h2 hdone ⊢
    have hsfx : p2.outq = Buffer.copyout inp p2.soff p2.outq.length := by
      rw [h2.outq_eq]
      simp [Buffer.copyout]
    have hsl : p2.soff + p2.outq.length = inp.length := by
      have := h2.soff_le
      rw [h2.outq_eq, List.length_drop]
      omega
    by_cases hs : p2.outq = []
    · have hall : inp.take p2.soff = inp := by
        apply List.take_of_length_le
        rw [hs] at hsl
        simp at hsl
        omega
      exact {
        output_eq := by simp [hs, h2.output_eq]
        window_eq := by simp [hs, h2.window_eq]
        trace_ok := by simp only [hs, ne_eq, not_true_eq_false, if_false]; exact h2.trace_ok
        refs_disjoint := by
          simp only [hs, ne_eq, not_true_eq_false, if_false]; exact h2.refs_disjoint
        cover := by simp only [hs, ne_eq, not_true_eq_false, if_false, h2.cover, hall]
        db_ext := h2.db_ext
        db_new := h2.db_new
        input_eq := rfl
        ohm_eq := hdone
        chain := by simp only [hs, ne_eq, not_true_eq_false, if_false]; exact h2.chain
        state_eq := by simp only [hs, ne_eq, not_true_eq_false, if_false]; exact h2.state_eq
        verbatim_short := by
          simp only [hs, ne_eq, not_true_eq_false, if_false]
          intro bs hm
          exact absurd hm (h2.no_verbatim bs) }
    · exact {
        output_eq := by
          simp only [hs, ne_eq, not_false_eq_true, if_true, h2.output_eq, serialize_append,
            serialize, Token.bytes, List.append_nil, List.append_assoc]
        window_eq := by
          simp only [hs, ne_eq, not_false_eq_true, if_true, replay_append, replay]
          exact h2.window_eq
        trace_ok := by
          simp only [hs, ne_eq, not_false_eq_true, if_true]
          intro t ht
          rcases List.mem_append.1 ht with ht | ht
          · exact h2.trace_ok t ht
          · rw [List.mem_singleton] at ht
            subst ht
            exact ⟨hsfx, le_of_eq hsl⟩
        refs_disjoint := by
          simp only [hs, ne_eq, not_false_eq_true, if_true, refStarts_append, refStarts,
            List.append_nil]
          exact h2.refs_disjoint
        cover := by
          simp only [hs, ne_eq, not_false_eq_true, if_true, sourceOf_append, sourceOf,
            Token.source, List.append_nil, h2.cover]
          rw [h2.outq_eq, List.take_append_drop]
        db_ext := h2.db_ext
        db_new := h2.db_new
        input_eq := rfl
        ohm_eq := hdone
        chain := by
          simp only [hs, ne_eq, not_false_eq_true, if_true]
          exact (chain_snoc H _ _ _ (Token.literal p2.soff p2.outq)
            h2.chain h2.state_eq trivial).1
        state_eq := by
          simp only [hs, ne_eq, not_false_eq_true, if_true]
          exact (chain_snoc H _ _ _ (Token.literal p2.soff p2.outq)
            h2.chain h2.state_eq trivial).2
        verbatim_short := by
          simp only [hs, ne_eq, not_false_eq_true, if_true]
          intro bs hm
          rcases List.mem_append.1 hm with hm | hm
          · exact absurd hm (h2.no_verbatim bs)
          · rw [List.mem_singleton] at hm
            cases hm }


/-! ## The encoder: claims -/

theorem mem_refStarts (ts : List Token) (st : Nat) (h : st ∈ refStarts ts) :
    ∃ t ∈ ts, ∃ soff, t.chosen? = some (st, soff) := by
  induction ts with
  | nil => cases h
  | cons t ts ih =>
    cases t with
    | backref start soff hash seg b =>
      simp only [refStarts, List.mem_cons] at h
      rcases h with h | h
      · exact ⟨_, List.mem_cons_self _ _, soff, by rw [h]; rfl⟩
      · obtain ⟨t, ht, hc⟩ := ih h
        exact ⟨t, List.mem_cons_of_mem _ ht, hc⟩
    | hashref start soff hash seg =>
      simp only [refStarts, List.mem_cons] at h
      rcases h with h | h
      · exact ⟨_, List.mem_cons_self _ _, soff, by rw [h]; rfl⟩
      · obtain ⟨t, ht, hc⟩ := ih h
        exact ⟨t, List.mem_cons_of_mem _ ht, hc⟩
    | verbatim bs =>
      obtain ⟨t, ht, hc⟩ := ih h
      exact ⟨t, List.mem_cons_of_mem _ ht, hc⟩
    | declare start hash seg =>
      obtain ⟨t, ht, hc⟩ := ih h
      exact ⟨t, List.mem_cons_of_mem _ ht, hc⟩
    | literal off bs =>
      obtain ⟨t, ht, hc⟩ := ih h
      exact ⟨t, List.mem_cons_of_mem _ ht, hc⟩

theorem TokOK_ref {inp : List Nat} {db : XCDatabase} {t : Token} (h : TokOK inp db t)
    {start hash : Nat} {seg : Segment} (hr : t.ref? = some (start, hash, seg)) :
    start + 64 ≤ inp.length ∧ seg = Buffer.copyout inp start 64 ∧ db.lookup hash = some seg := by
  cases t with
  | verbatim bs => cases hr
  | literal off bs => cases hr
  | declare s0 h0 g0 =>
    simp only [Token.ref?, Option.some.injEq, Prod.mk.injEq] at hr
    obtain ⟨rfl, rfl, rfl⟩ := hr
    exact h
  | backref s0 so h0 g0 b =>
    simp only [Token.ref?, Option.some.injEq, Prod.mk.injEq] at hr
    obtain ⟨rfl, rfl, rfl⟩ := hr
    exact h.2
  | hashref s0 so h0 g0 =>
    simp only [Token.ref?, Option.some.injEq, Prod.mk.injEq] at hr
    obtain ⟨rfl, rfl, rfl⟩ := hr
    exact h.2

theorem TokOK_chosen {inp : List Nat} {db : XCDatabase} {t : Token} (h : TokOK inp db t)
    {start soff : Nat} (hr : t.chosen? = some (start, soff)) :
    soff ≤ start ∧ start + 64 ≤ inp.length := by
  cases t with
  | verbatim bs => cases hr
  | literal off bs => cases hr
  | declare s0 h0 g0 => cases hr
  | backref s0 so h0 g0 b =>
    simp only [Token.chosen?, Option.some.injEq, Prod.mk.injEq] at hr
    obtain ⟨rfl, rfl⟩ := hr
    exact ⟨h.1, h.2.1⟩
  | hashref s0 so h0 g0 =>
    simp only [Token.chosen?, Option.some.injEq, Prod.mk.injEq] at hr
    obtain ⟨rfl, rfl⟩ := hr
    exact ⟨h.1, h.2.1⟩

theorem encodeRun_short (c : Consts) (H : List Nat → Nat) (enc : XCodecEncoder)
    (output B : List Nat) (h : B.length < 64) :
    encodeRun c H enc output B =
      { encoder := enc, output := output ++ B, input := [], offset_hash_map := [],
        offset_seg_map := [], outq := [], trace := [Token.verbatim B] } := by
  unfold encodeRun
  rw [if_pos h]

/-- C2. Short-input passthrough: for every input `B` shorter than `XCODEC_SEGMENT_LENGTH`,
`encode` appends exactly the bytes of `B` to `output`, empties `input`, and leaves the
encoder (segment cache and back-reference window) unchanged. -/
theorem encode_short_passthrough (c : Consts) (H : List Nat → Nat) (enc : XCodecEncoder)
    (output B : List Nat) (h : B.length < XCODEC_SEGMENT_LENGTH) :
    encode c H enc output B = (enc, output ++ B, []) := by
  simp only [encode, encodeRun_short c H enc output B h]

/-- Scenario S1 of C2: `encode("ABC")` on a new encoder yields `"ABC"` and changes
nothing. -/
theorem encode_short_passthrough_witness :
    encode sampleConsts sampleHash XCodecEncoder.fresh [] [65, 66, 67] =
      (XCodecEncoder.fresh, [] ++ [65, 66, 67], []) :=
  encode_short_passthrough sampleConsts sampleHash XCodecEncoder.fresh [] [65, 66, 67]
    (by decide)

/-- C3. Reference correctness under collisions: whatever the input and the initial cache,
the output of `encode` is the serialization of its items, and every declaration, hash
reference or back-reference emitted for a source offset `start` carries a hash that the
cache maps, after the call, to a segment whose 64 bytes are `input[start, start+64)`; a
cache entry that was stored under that hash at entry has those same bytes (so an entry whose
bytes differ from the window is never referenced), and no entry of the cache at entry is
replaced. Each item is emitted under its condition (`Chain`): a declaration on a cache miss,
a reference when the cache maps the hash to the segment, and a back-reference with the token
at which the window holds the hash. -/
theorem encode_reference_correct (c : Consts) (H : List Nat → Nat) (enc : XCodecEncoder)
    (output input : List Nat) :
    (encodeRun c H enc output input).output =
        output ++ serialize c (encodeRun c H enc output input).trace ∧
    (∀ t ∈ (encodeRun c H enc output input).trace, ∀ start hash seg,
        t.ref? = some (start, hash, seg) →
          start + XCODEC_SEGMENT_LENGTH ≤ input.length ∧
          seg = Buffer.copyout input start XCODEC_SEGMENT_LENGTH ∧
          (encodeRun c H enc output input).encoder.database_.lookup hash = some seg ∧
          ∀ seg0, enc.database_.lookup hash = some seg0 →
            seg0 = Buffer.copyout input start XCODEC_SEGMENT_LENGTH) ∧
    (∀ h seg, enc.database_.lookup h = some seg →
        (encodeRun c H enc output input).encoder.database_.lookup h = some seg) ∧
    Chain H enc (encodeRun c H enc output input).trace := by
  have hf := encodeRun_facts c H enc output input
  refine ⟨hf.output_eq, ?_, hf.db_ext, hf.chain⟩
  intro t ht start hash seg hr
  obtain ⟨h1, h2, h3⟩ := TokOK_ref (hf.trace_ok t ht) hr
  refine ⟨h1, h2, h3, ?_⟩
  intro seg0 h0
  have := hf.db_ext hash seg0 h0
  rw [h3] at this
  rw [← h2]
  exact (Option.some.inj this).symm

/-- C4. No overlapping references: within one `encode` call the source offsets of the
windows replaced by a reference are at least 64 apart in output order (so the ranges
`[start, start+64)` are pairwise disjoint and strictly increasing), every range lies inside
the input, and every chosen `start` satisfies `soff ≤ start` for the value of `soff` at the
head of its iteration, so `start - soff` does not underflow. -/
theorem encode_no_overlap (c : Consts) (H : List Nat → Nat) (enc : XCodecEncoder)
    (output input : List Nat) :
    (refStarts (encodeRun c H enc output input).trace).Pairwise
        (fun a b => a + XCODEC_SEGMENT_LENGTH ≤ b) ∧
    (∀ st ∈ refStarts (encodeRun c H enc output input).trace,
        st + XCODEC_SEGMENT_LENGTH ≤ input.length) ∧
    (∀ t ∈ (encodeRun c H enc output input).trace, ∀ start soff,
        t.chosen? = some (start, soff) → soff ≤ start) := by
  have hf := encodeRun_facts c H enc output input
  refine ⟨hf.refs_disjoint, ?_, ?_⟩
  · intro st hst
    obtain ⟨t, ht, soff, hc⟩ := mem_refStarts _ st hst
    exact (TokOK_chosen (hf.trace_ok t ht) hc).2
  · intro t ht start soff hc
    exact (TokOK_chosen (hf.trace_ok t ht) hc).1

/-- C6 (failing input). On the one-byte input `ESCAPE_CHAR` the short-input path of `encode`
appends the special byte bare: the output is the input, not `ESCAPE_CHAR` followed by the
transformed byte. -/
theorem encode_short_special_unescaped (c : Consts) (H : List Nat → Nat)
    (enc : XCodecEncoder) :
    XCODEC_CHAR_SPECIAL c c.XCODEC_ESCAPE_CHAR = true ∧
    (encode c H enc [] [c.XCODEC_ESCAPE_CHAR]).2.1 = [c.XCODEC_ESCAPE_CHAR] ∧
    (encode c H enc [] [c.XCODEC_ESCAPE_CHAR]).2.1 ≠
      Buffer.escape c.XCODEC_ESCAPE_CHAR (xcodec_special_p c) [c.XCODEC_ESCAPE_CHAR] := by
  have h := encodeRun_short c H enc [] [c.XCODEC_ESCAPE_CHAR] (by simp)
  refine ⟨by simp [XCODEC_CHAR_SPECIAL], by simp [encode, h], ?_⟩
  simp [encode, h, Buffer.escape, xcodec_special_p, XCODEC_CHAR_SPECIAL]

/-- C1 (failing input). Round trip fails on a short input that starts with a special byte:
`encode` emits `[ESCAPE_CHAR, x]` unescaped, and the token decoder reads it as one escaped
literal, so it yields the single byte `x XOR 0xff` and not the two input bytes. -/
theorem roundtrip_short_special_fails (c : Consts) (H : List Nat → Nat) (again : Bool)
    (enc : XCodecEncoder) (d : XCodecDecoder) (x : Nat) :
    (decode c H again d [] (encode c H enc [] [c.XCODEC_ESCAPE_CHAR, x]).2.1 []).output
        = [x ^^^ 255] ∧
    (decode c H again d [] (encode c H enc [] [c.XCODEC_ESCAPE_CHAR, x]).2.1 []).output
        ≠ [c.XCODEC_ESCAPE_CHAR, x] := by
  have h : (decode c H again d [] (encode c H enc [] [c.XCODEC_ESCAPE_CHAR, x]).2.1 []).output
      = [x ^^^ 255] := by
    have he := encodeRun_short c H enc [] [c.XCODEC_ESCAPE_CHAR, x] (by simp)
    simp only [encode, he, List.nil_append]
    simp [decode, decodeLoop]
  exact ⟨h, by rw [h]; simp⟩

/-! ## Scenario S2 -/

theorem firstPass_cons (H : List Nat → Nat) (db : XCDatabase) (s : Pass1) (p : Nat)
    (ps : List Nat) : firstPass H db s (p :: ps) = firstPass H db (firstPassStep H db s p) ps :=
  rfl

theorem firstPass_nil (H : List Nat → Nat) (db : XCDatabase) (s : Pass1) :
    firstPass H db s [] = s := rfl

theorem lookup_empty (h : Nat) : XCDatabase.empty.lookup h = none := rfl

set_option maxRecDepth 100000 in
set_option maxHeartbeats 4000000 in
theorem firstPass_scenario_fresh (H : List Nat → Nat) :
    firstPass H XCDatabase.empty Pass1.init scenarioX =
      { xcodec_hash := ⟨List.replicate 64 97⟩,
        offset_hash_map := (List.range 65).map (fun i => (i, H (List.replicate 64 97) % 2 ^ 64)),
        offset_seg_map := [], outq := scenarioX, o := 128, base := 0 } := by
  simp only [scenarioX, List.replicate, Pass1.init, XCHash.init]
  simp only [firstPass_cons, firstPass_nil, firstPassStep, XCHash.roll, XCHash.mix, lookup_empty,
    List.nil_append, List.cons_append, List.length_cons, List.length_nil, List.drop_succ_cons,
    List.drop_zero, Nat.reduceAdd, Nat.reduceSub, Nat.reduceLT, Nat.not_lt_zero, if_false,
    if_true, XCODEC_SEGMENT_LENGTH, Nat.lt_irrefl, reduceIte, Nat.sub_zero]
  rfl

theorem lookup_cons_self (h : Nat) (seg : Segment) (es : List (Nat × Segment)) :
    XCDatabase.lookup ⟨(h, seg) :: es⟩ h = some seg := by
  simp [XCDatabase.lookup, List.lookup]

theorem present_declare_empty (h : Nat) (seg : Segment) :
    (XCBackref.empty.declare h seg).present h = some 0 := by
  simp [XCBackref.present, XCBackref.declare, XCBackref.empty, List.replicate, XCBackref.scan]

theorem secondPassLoop_cons (c : Consts) (n : Nat) (s : Pass2) (e : Nat × Nat)
    (es : List (Nat × Nat)) (h : s.offset_hash_map = e :: es) :
    secondPassLoop c (n + 1) s = secondPassLoop c n (secondPassStep c s) := by
  rw [secondPassLoop, h]

theorem secondPassLoop_nil (c : Consts) (n : Nat) (s : Pass2) (h : s.offset_hash_map = []) :
    secondPassLoop c n s = s := by
  cases n with
  | zero => rfl
  | succ n => rw [secondPassLoop, h]

set_option maxRecDepth 100000 in
set_option maxHeartbeats 4000000 in
theorem s2_step1 (c : Consts) (h : Nat) :
    secondPassStep c
      { database_ := XCDatabase.empty, backref_ := XCBackref.empty, output := [],
        offset_hash_map := (List.range 65).map (fun i => (i, h)), offset_seg_map := [],
        outq := scenarioX, soff := 0, trace := [] } =
      { database_ := XCDatabase.empty.enter h (List.replicate 64 97),
        backref_ := XCBackref.empty.declare h (List.replicate 64 97),
        output := (c.XCODEC_DECLARE_CHAR :: (le64 h ++ List.replicate 64 97)) ++
          [c.XCODEC_BACKREF_CHAR, 0],
        offset_hash_map := [(64, h)], offset_seg_map := [],
        outq := List.replicate 64 97, soff := 64,
        trace := [Token.declare 0 h (List.replicate 64 97),
                  Token.backref 0 0 h (List.replicate 64 97) 0] } := by
  simp [secondPassStep, lookupOrDeclare, lookup_empty, declareSegment, skipOverlapping,
    emitSlice, copyGap, outputReference, present_declare_empty, Buffer.copyout, Buffer.skip,
    scenarioX, List.range, List.range.loop, List.dropWhile, XCODEC_SEGMENT_LENGTH]

set_option maxRecDepth 100000 in
set_option maxHeartbeats 4000000 in
theorem s2_step2 (c : Consts) (h : Nat) :
    secondPassStep c
      { database_ := XCDatabase.empty.enter h (List.replicate 64 97),
        backref_ := XCBackref.empty.declare h (List.replicate 64 97),
        output := (c.XCODEC_DECLARE_CHAR :: (le64 h ++ List.replicate 64 97)) ++
          [c.XCODEC_BACKREF_CHAR, 0],
        offset_hash_map := [(64, h)], offset_seg_map := [],
        outq := List.replicate 64 97, soff := 64,
        trace := [Token.declare 0 h (List.replicate 64 97),
                  Token.backref 0 0 h (List.replicate 64 97) 0] } =
      { database_ := XCDatabase.empty.enter h (List.replicate 64 97),
        backref_ := XCBackref.empty.declare h (List.replicate 64 97),
        output := (c.XCODEC_DECLARE_CHAR :: (le64 h ++ List.replicate 64 97)) ++
          [c.XCODEC_BACKREF_CHAR, 0] ++ [c.XCODEC_BACKREF_CHAR, 0],
        offset_hash_map := [], offset_seg_map := [],
        outq := [], soff := 128,
        trace := [Token.declare 0 h (List.replicate 64 97),
                  Token.backref 0 0 h (List.replicate 64 97) 0,
                  Token.backref 64 64 h (List.replicate 64 97) 0] } := by
  simp [secondPassStep, lookupOrDeclare, lookup_enter, skipOverlapping,
    emitSlice, copyGap, outputReference, present_declare_empty, Buffer.copyout, Buffer.skip,
    List.dropWhile, XCODEC_SEGMENT_LENGTH]

set_option maxRecDepth 100000 in
/-- The run of `encode` on scenario S2 from a new encoder, for any constants and hash. -/
theorem s2_first_run (c : Consts) (H : List Nat → Nat) :
    encodeRun c H XCodecEncoder.fresh [] scenarioX =
      { encoder :=
          { database_ := XCDatabase.empty.enter (XCodecHash_hash H (List.replicate 64 97))
              (List.replicate 64 97),
            backref_ := XCBackref.empty.declare (XCodecHash_hash H (List.replicate 64 97))
              (List.replicate 64 97) },
        output := (c.XCODEC_DECLARE_CHAR ::
            (le64 (XCodecHash_hash H (List.replicate 64 97)) ++ List.replicate 64 97)) ++
          [c.XCODEC_BACKREF_CHAR, 0] ++ [c.XCODEC_BACKREF_CHAR, 0],
        input := [], offset_hash_map := [], offset_seg_map := [], outq := [],
        trace := [Token.declare 0 (XCodecHash_hash H (List.replicate 64 97)) (List.replicate 64 97),
          Token.backref 0 0 (XCodecHash_hash H (List.replicate 64 97)) (List.replicate 64 97) 0,
          Token.backref 64 64 (XCodecHash_hash H (List.replicate 64 97))
            (List.replicate 64 97) 0] } := by
  have hlen : ¬ scenarioX.length < XCODEC_SEGMENT_LENGTH := by decide
  have hh : XCodecHash_hash H (List.replicate 64 97) = H (List.replicate 64 97) % 2 ^ 64 := rfl
  unfold encodeRun
  rw [if_neg hlen, hh]
  simp only [XCodecEncoder.fresh, firstPass_scenario_fresh]
  generalize H (List.replicate 64 97) % 2 ^ 64 = h
  have hl : ((List.range 65).map (fun i => (i, h))).length = 63 + 1 + 1 := by simp
  simp only [secondPassInit]
  rw [hl, secondPassLoop_cons c (63 + 1) _ (0, h) ((List.range' 1 64).map (fun i => (i, h))) rfl,
    s2_step1, secondPassLoop_cons c 63 _ (64, h) [] rfl, s2_step2,
    secondPassLoop_nil c 63 _ rfl]
  simp

set_option maxRecDepth 100000 in
set_option maxHeartbeats 4000000 in
theorem firstPass_scenario_second (H : List Nat → Nat) :
    firstPass H (XCDatabase.empty.enter (XCodecHash_hash H (List.replicate 64 97))
        (List.replicate 64 97)) Pass1.init scenarioX =
      { xcodec_hash := ⟨List.replicate 64 97⟩,
        offset_hash_map := [(0, XCodecHash_hash H (List.replicate 64 97)),
                            (64, XCodecHash_hash H (List.replicate 64 97))],
        offset_seg_map := [(0, List.replicate 64 97), (64, List.replicate 64 97)],
        outq := scenarioX, o := 128, base := 128 } := by
  have hh : XCodecHash_hash H (List.replicate 64 97) = H (List.replicate 64 97) % 2 ^ 64 := rfl
  rw [hh]
  simp only [scenarioX, List.replicate, Pass1.init, XCHash.init]
  simp only [firstPass_cons, firstPass_nil, firstPassStep, XCHash.roll, XCHash.mix, lookup_enter,
    lookup_empty, Buffer.copyout, List.take, ne_eq, not_true_eq_false,
    List.nil_append, List.cons_append, List.length_cons, List.length_nil, List.drop_succ_cons,
    List.drop_zero, Nat.reduceAdd, Nat.reduceSub, Nat.reduceLT, Nat.not_lt_zero, if_false,
    if_true, XCODEC_SEGMENT_LENGTH, Nat.lt_irrefl, reduceIte, Nat.sub_zero]

set_option maxRecDepth 100000 in
set_option maxHeartbeats 4000000 in
theorem s2_second_step1 (c : Consts) (h : Nat) (out : List Nat) :
    secondPassStep c
      { database_ := XCDatabase.empty.enter h (List.replicate 64 97),
        backref_ := XCBackref.empty.declare h (List.replicate 64 97),
        output := out,
        offset_hash_map := [(0, h), (64, h)],
        offset_seg_map := [(0, List.replicate 64 97), (64, List.replicate 64 97)],
        outq := scenarioX, soff := 0, trace := [] } =
      { database_ := XCDatabase.empty.enter h (List.replicate 64 97),
        backref_ := XCBackref.empty.declare h (List.replicate 64 97),
        output := out ++ [c.XCODEC_BACKREF_CHAR, 0],
        offset_hash_map := [(64, h)],
        offset_seg_map := [(64, List.replicate 64 97)],
        outq := List.replicate 64 97, soff := 64,
        trace := [Token.backref 0 0 h (List.replicate 64 97) 0] } := by
  simp [secondPassStep, emitSlice, copyGap, outputReference, present_declare_empty,
    Buffer.skip, scenarioX, XCODEC_SEGMENT_LENGTH]

set_option maxRecDepth 100000 in
set_option maxHeartbeats 4000000 in
theorem s2_second_step2 (c : Consts) (h : Nat) (out : List Nat) :
    secondPassStep c
      { database_ := XCDatabase.empty.enter h (List.replicate 64 97),
        backref_ := XCBackref.empty.declare h (List.replicate 64 97),
        output := out,
        offset_hash_map := [(64, h)],
        offset_seg_map := [(64, List.replicate 64 97)],
        outq := List.replicate 64 97, soff := 64,
        trace := [Token.backref 0 0 h (List.replicate 64 97) 0] } =
      { database_ := XCDatabase.empty.enter h (List.replicate 64 97),
        backref_ := XCBackref.empty.declare h (List.replicate 64 97),
        output := out ++ [c.XCODEC_BACKREF_CHAR, 0],
        offset_hash_map := [],
        offset_seg_map := [],
        outq := [], soff := 128,
        trace := [Token.backref 0 0 h (List.replicate 64 97) 0,
                  Token.backref 64 64 h (List.replicate 64 97) 0] } := by
  simp [secondPassStep, emitSlice, copyGap, outputReference, present_declare_empty,
    Buffer.skip, XCODEC_SEGMENT_LENGTH]

set_option maxRecDepth 100000 in
/-- The run of `encode` on scenario S2 from the encoder left by a first run. -/
theorem s2_second_run (c : Consts) (H : List Nat → Nat) :
    encodeRun c H (encodeRun c H XCodecEncoder.fresh [] scenarioX).encoder [] scenarioX =
      { encoder := (encodeRun c H XCodecEncoder.fresh [] scenarioX).encoder,
        output := [c.XCODEC_BACKREF_CHAR, 0, c.XCODEC_BACKREF_CHAR, 0],
        input := [], offset_hash_map := [], offset_seg_map := [], outq := [],
        trace := [
          Token.backref 0 0 (XCodecHash_hash H (List.replicate 64 97)) (List.replicate 64 97) 0,
          Token.backref 64 64 (XCodecHash_hash H (List.replicate 64 97))
            (List.replicate 64 97) 0] } := by
  have hlen : ¬ scenarioX.length < XCODEC_SEGMENT_LENGTH := by decide
  rw [s2_first_run]
  unfold encodeRun
  rw [if_neg hlen]
  simp only [firstPass_scenario_second]
  generalize XCodecHash_hash H (List.replicate 64 97) = h
  simp only [secondPassInit, List.length_cons, List.length_nil]
  rw [secondPassLoop_cons c (0 + 1) _ (0, h) [(64, h)] rfl,
    s2_second_step1, secondPassLoop_cons c 0 _ (64, h) [] rfl, s2_second_step2,
    secondPassLoop_nil c 0 _ rfl]
  simp

set_option maxRecDepth 100000 in
set_option maxHeartbeats 4000000 in
theorem s2_cache_step1 (c : Consts) (h : Nat) (out : List Nat) :
    secondPassStep c
      { database_ := XCDatabase.empty.enter h (List.replicate 64 97),
        backref_ := XCBackref.empty,
        output := out,
        offset_hash_map := [(0, h), (64, h)],
        offset_seg_map := [(0, List.replicate 64 97), (64, List.replicate 64 97)],
        outq := scenarioX, soff := 0, trace := [] } =
      { database_ := XCDatabase.empty.enter h (List.replicate 64 97),
        backref_ := XCBackref.empty.declare h (List.replicate 64 97),
        output := out ++ (c.XCODEC_HASHREF_CHAR :: le64 h),
        offset_hash_map := [(64, h)],
        offset_seg_map := [(64, List.replicate 64 97)],
        outq := List.replicate 64 97, soff := 64,
        trace := [Token.hashref 0 0 h (List.replicate 64 97)] } := by
  simp [secondPassStep, emitSlice, copyGap, outputReference, XCBackref.present,
    XCBackref.scan, XCBackref.empty, Buffer.skip, scenarioX, XCODEC_SEGMENT_LENGTH]

set_option maxRecDepth 100000 in
set_option maxHeartbeats 4000000 in
theorem s2_cache_step2 (c : Consts) (h : Nat) (out : List Nat) :
    secondPassStep c
      { database_ := XCDatabase.empty.enter h (List.replicate 64 97),
        backref_ := XCBackref.empty.declare h (List.replicate 64 97),
        output := out,
        offset_hash_map := [(64, h)],
        offset_seg_map := [(64, List.replicate 64 97)],
        outq := List.replicate 64 97, soff := 64,
        trace := [Token.hashref 0 0 h (List.replicate 64 97)] } =
      { database_ := XCDatabase.empty.enter h (List.replicate 64 97),
        backref_ := XCBackref.empty.declare h (List.replicate 64 97),
        output := out ++ [c.XCODEC_BACKREF_CHAR, 0],
        offset_hash_map := [],
        offset_seg_map := [],
        outq := [], soff := 128,
        trace := [Token.hashref 0 0 h (List.replicate 64 97),
                  Token.backref 64 64 h (List.replicate 64 97) 0] } := by
  simp [secondPassStep, emitSlice, copyGap, outputReference, present_declare_empty,
    Buffer.skip, XCODEC_SEGMENT_LENGTH]

set_option maxRecDepth 100000 in
/-- The run of `encode` on scenario S2 from a new encoder on the cache left by a first run. -/
theorem s2_cache_run (c : Consts) (H : List Nat → Nat) :
    encodeRun c H
        { database_ := (encodeRun c H XCodecEncoder.fresh [] scenarioX).encoder.database_,
          backref_ := XCBackref.empty } [] scenarioX =
      { encoder := (encodeRun c H XCodecEncoder.fresh [] scenarioX).encoder,
        output := c.XCODEC_HASHREF_CHAR :: (le64 (XCodecHash_hash H (List.replicate 64 97)) ++
          [c.XCODEC_BACKREF_CHAR, 0]),
        input := [], offset_hash_map := [], offset_seg_map := [], outq := [],
        trace := [
          Token.hashref 0 0 (XCodecHash_hash H (List.replicate 64 97)) (List.replicate 64 97),
          Token.backref 64 64 (XCodecHash_hash H (List.replicate 64 97))
            (List.replicate 64 97) 0] } := by
  have hlen : ¬ scenarioX.length < XCODEC_SEGMENT_LENGTH := by decide
  rw [s2_first_run]
  unfold encodeRun
  rw [if_neg hlen]
  simp only [firstPass_scenario_second]
  generalize XCodecHash_hash H (List.replicate 64 97) = h
  simp only [secondPassInit, List.length_cons, List.length_nil]
  rw [secondPassLoop_cons c (0 + 1) _ (0, h) [(64, h)] rfl,
    s2_cache_step1, secondPassLoop_cons c 0 _ (64, h) [] rfl, s2_cache_step2,
    secondPassLoop_nil c 0 _ rfl]
  simp

/-! ## The pipe pair: lemmas -/

theorem cacheOf_setCache (s : XCodecPipePair) (uuid u : List Nat) (db : XCDatabase) :
    (s.setCache uuid db).cacheOf u = if u = uuid then db else s.cacheOf u := by
  simp only [XCodecPipePair.cacheOf, XCodecPipePair.setCache, List.lookup]
  by_cases h : u = uuid
  · subst h; simp
  · have : (u == uuid) = false := by simpa using h
    simp [this, h]

theorem CachesExtend.refl (s : XCodecPipePair) : CachesExtend s s := fun _ _ _ h => h

theorem CachesExtend.trans {s s2 s3 : XCodecPipePair} (h1 : CachesExtend s s2)
    (h2 : CachesExtend s2 s3) : CachesExtend s s3 :=
  fun u h seg hl => h2 u h seg (h1 u h seg hl)

/-- A state whose registry is that of `s` has the caches of `s`. -/
theorem caches_of_registry (H : List Nat → Nat) (s s2 : XCodecPipePair)
    (hr : s2.registry = s.registry) (hc : CachesConsistent H s) :
    CachesConsistent H s2 ∧ CachesExtend s s2 := by
  have he : ∀ u, s2.cacheOf u = s.cacheOf u := by
    intro u; simp only [XCodecPipePair.cacheOf, hr]
  refine ⟨fun u => by rw [he]; exact hc u, fun u h seg hl => by rw [he]; exact hl⟩

theorem caches_of_eq (H : List Nat → Nat) (s s2 : XCodecPipePair)
    (he : ∀ u, s2.cacheOf u = s.cacheOf u) (hc : CachesConsistent H s) :
    CachesConsistent H s2 ∧ CachesExtend s s2 :=
  ⟨fun u => by rw [he]; exact hc u, fun u h seg hl => by rw [he]; exact hl⟩

theorem cacheOf_rebind (s : XCodecPipePair) (uuid u : List Nat) (w : Option XCBackref) :
    XCodecPipePair.cacheOf
      { s.setCache uuid (s.cacheOf uuid) with decoder_cache_ := some uuid, decoder_ := w } u
      = s.cacheOf u := by
  have := cacheOf_setCache s uuid u (s.cacheOf uuid)
  simp only [XCodecPipePair.cacheOf, XCodecPipePair.setCache] at this ⊢
  rw [this]
  split
  · rename_i hu; rw [hu]
  · rfl

theorem decode_oob_hello_caches (col : Collab) (s s2 : XCodecPipePair) (buf buf2 : List Nat)
    (b : Bool) (h : decode_oob_hello col s buf = .ok (b, s2, buf2))
    (hc : CachesConsistent col.H s) : CachesConsistent col.H s2 ∧ CachesExtend s s2 := by
  unfold decode_oob_hello at h
  repeat' split at h
  all_goals first
    | (cases h; done)
    | (cases h; exact ⟨hc, CachesExtend.refl _⟩)
    | (cases h; exact caches_of_eq col.H s _ (fun u => cacheOf_rebind s _ u _) hc)

theorem decode_oob_ask_caches (c : Consts) (col : Collab) (s s2 : XCodecPipePair)
    (buf buf2 : List Nat)
    (b : Bool) (h : decode_oob_ask c s buf = .ok (b, s2, buf2))
    (hc : CachesConsistent col.H s) : CachesConsistent col.H s2 ∧ CachesExtend s s2 := by
  unfold decode_oob_ask at h
  repeat' split at h
  all_goals first
    | (cases h; done)
    | (cases h; exact caches_of_registry col.H s _ rfl hc)

theorem decode_oob_eos_caches (col : Collab) (s s2 : XCodecPipePair)
    (buf buf2 : List Nat)
    (b : Bool) (h : decode_oob_eos s buf = .ok (b, s2, buf2))
    (hc : CachesConsistent col.H s) : CachesConsistent col.H s2 ∧ CachesExtend s s2 := by
  unfold decode_oob_eos at h
  repeat' split at h
  all_goals
    simp only [Except.ok.injEq, Prod.mk.injEq] at h
    obtain ⟨_, rfl, _⟩ := h
    exact caches_of_registry col.H s _ rfl hc

theorem decode_oob_eos_ack_caches (col : Collab) (s s2 : XCodecPipePair)
    (buf buf2 : List Nat)
    (b : Bool) (h : decode_oob_eos_ack s buf = .ok (b, s2, buf2))
    (hc : CachesConsistent col.H s) : CachesConsistent col.H s2 ∧ CachesExtend s s2 := by
  unfold decode_oob_eos_ack at h
  repeat' split at h
  all_goals
    simp only [Except.ok.injEq, Prod.mk.injEq] at h
    obtain ⟨_, rfl, _⟩ := h
    exact caches_of_registry col.H s _ rfl hc

theorem decode_oob_learn_caches (col : Collab) (s s2 : XCodecPipePair) (buf buf2 : List Nat)
    (b : Bool) (h : decode_oob_learn col s buf = .ok (b, s2, buf2))
    (hc : CachesConsistent col.H s) : CachesConsistent col.H s2 ∧ CachesExtend s s2 := by
  unfold decode_oob_learn at h
  split at h
  · cases h; exact ⟨hc, CachesExtend.refl _⟩
  rename_i uuid hu
  split at h
  · cases h
  rename_i seg hseg
  split at h
  · cases h
  rename_i buf3 hbuf
  dsimp only at h
  have hE := caches_of_registry col.H s (eraseUnknown s (XCodecHash_hash col.H seg)) rfl hc
  split at h
  · split at h <;>
    · simp only [Except.ok.injEq, Prod.mk.injEq] at h
      obtain ⟨_, rfl, _⟩ := h
      exact hE
  · rename_i hlk
    simp only [Except.ok.injEq, Prod.mk.injEq] at h
    obtain ⟨_, rfl, _⟩ := h
    constructor
    · intro u h2 seg2 hl
      rw [cacheOf_setCache] at hl
      split at hl
      · rw [lookup_enter] at hl
        split at hl
        · rename_i he
          cases hl
          exact he.symm
        · exact hE.1 uuid h2 seg2 hl
      · exact hE.1 u h2 seg2 hl
    · intro u h2 seg2 hl
      have hl2 := hE.2 u h2 seg2 hl
      rw [cacheOf_setCache]
      split
      · rename_i hu2
        subst hu2
        rw [lookup_enter]
        split
        · rename_i he
          rw [he, hlk] at hl2
          cases hl2
        · exact hl2
      · exact hl2

theorem decode_oob_step_caches (c : Consts) (col : Collab) (s s2 : XCodecPipePair)
    (buf buf2 : List Nat)
    (b : Bool) (h : decode_oob_step c col s buf = .ok (b, s2, buf2))
    (hc : CachesConsistent col.H s) : CachesConsistent col.H s2 ∧ CachesExtend s s2 := by
  unfold decode_oob_step at h
  split at h
  · cases h
  split at h
  · cases h; exact ⟨hc, CachesExtend.refl _⟩
  split at h
  · cases h; exact ⟨hc, CachesExtend.refl _⟩
  split at h
  · cases h
  unfold decode_oob_op at h
  split at h
  · exact decode_oob_hello_caches col s s2 _ _ b h hc
  split at h
  · exact decode_oob_ask_caches c col s s2 _ _ b h hc
  split at h
  · exact decode_oob_learn_caches col s s2 _ _ b h hc
  split at h
  · exact decode_oob_eos_caches col s s2 _ _ b h hc
  split at h
  · exact decode_oob_eos_ack_caches col s s2 _ _ b h hc
  · cases h; exact ⟨hc, CachesExtend.refl _⟩

theorem decode_oob_loop_caches (c : Consts) (col : Collab) (fuel : Nat)
    (s : XCodecPipePair) (buf : List Nat) (r : Bool × XCodecPipePair)
    (h : decode_oob_loop c col fuel s buf = .ok r)
    (hc : CachesConsistent col.H s) : CachesConsistent col.H r.2 ∧ CachesExtend s r.2 := by
  induction fuel generalizing s buf with
  | zero =>
    unfold decode_oob_loop at h
    split at h
    · cases h; exact ⟨hc, CachesExtend.refl _⟩
    · cases h
  | succ n ih =>
    unfold decode_oob_loop at h
    split at h
    · cases h; exact ⟨hc, CachesExtend.refl _⟩
    split at h
    · cases h
    · rename_i s2 buf2 hstep
      cases h
      exact decode_oob_step_caches c col s s2 buf _ false hstep hc
    · rename_i s2 buf2 hstep
      obtain ⟨h1, h2⟩ := decode_oob_step_caches c col s s2 buf _ true hstep hc
      obtain ⟨h3, h4⟩ := ih s2 buf2 h h1
      exact ⟨h3, h2.trans h4⟩

theorem be16_decode_be16 (n : Nat) (h : n < 65536) : be16_decode (be16 n) = n := by
  simp only [be16_decode, be16, List.foldl]
  omega

/-- The frames `encode_frame` emits, from any fuel that covers the input. -/
theorem encode_frame_loop_spec (c : Consts) (fuel : Nat) (out inp : List Nat)
    (hfuel : inp.length ≤ fuel) :
    ∃ ps : List (List Nat),
      payloadOf ps = inp ∧
      encode_frame_loop c fuel out inp = out ++ framesOf c ps ∧
      ps.length = (inp.length + 32767) / 32768 ∧
      (∀ p ∈ ps, 1 ≤ p.length ∧ p.length ≤ 32768) ∧
      (∀ p ∈ ps.dropLast, p.length = 32768) := by
  induction fuel generalizing out inp with
  | zero =>
    have : inp = [] := List.length_eq_zero.1 (Nat.le_zero.1 hfuel)
    subst this
    exact ⟨[], rfl, by simp [encode_frame_loop, framesOf], rfl, by simp, by simp⟩
  | succ n ih =>
    cases inp with
    | nil => exact ⟨[], rfl, by simp [encode_frame_loop, framesOf], rfl, by simp, by simp⟩
    | cons b bs =>
      unfold encode_frame_loop
      dsimp only
      generalize hinp : b :: bs = inp at hfuel ⊢
      have hpos : 1 ≤ inp.length := by rw [← hinp]; simp
      generalize hfl : (if inp.length ≤ XCODEC_FRAME_LENGTH then inp.length
        else XCODEC_FRAME_LENGTH) % 65536 = framelen
      have hfl2 : framelen = min inp.length 32768 := by
        rw [← hfl]
        unfold XCODEC_FRAME_LENGTH
        split <;> omega
      have hlen1 : (inp.take framelen).length = framelen := by
        rw [List.length_take]; omega
      have hlen2 : (inp.drop framelen).length = inp.length - framelen := List.length_drop _ _
      obtain ⟨ps, h1, h2, h3, h4, h5⟩ := ih
        (out ++ [c.XCODEC_MAGIC, c.XCODEC_OP_FRAME] ++ be16 framelen ++
          (Buffer.moveout inp 0 framelen).1) (Buffer.moveout inp 0 framelen).2 (by
            simp only [Buffer.moveout, Nat.zero_add, hlen2]; omega)
      simp only [Buffer.moveout, Nat.zero_add, List.drop_zero] at h1 h2 h3 h4 h5 ⊢
      refine ⟨inp.take framelen :: ps, ?_, ?_, ?_, ?_, ?_⟩
      · simp only [payloadOf, h1, List.take_append_drop]
      · rw [h2]
        simp only [framesOf, frameOf, hlen1, List.append_assoc]
      · simp only [List.length_cons, h3, hlen2]
        omega
      · intro p hp
        rcases List.mem_cons.1 hp with rfl | hp
        · rw [hlen1]; omega
        · exact h4 p hp
      · intro p hp
        cases ps with
        | nil => simp at hp
        | cons q qs =>
          rw [List.dropLast_cons₂] at hp
          rcases List.mem_cons.1 hp with rfl | hp
          · have : 1 ≤ (q :: qs).length := by simp
            rw [h3, hlen2] at this
            rw [hlen1]
            omega
          · exact h5 p hp

theorem frame_header_frameOf (c : Consts) (p rest : List Nat) (hp : p.length ≤ 32768) :
    frame_header (frameOf c p ++ rest) =
      .ok (c.XCODEC_MAGIC, c.XCODEC_OP_FRAME, p.length) := by
  have hb : be16_decode (be16 p.length) = p.length := be16_decode_be16 _ (by omega)
  simp only [be16] at hb
  simp [frame_header, frameOf, Buffer.extract?, be16, hb]

/-- One iteration of the frame loop on a well-formed `FRAME`, while unknown hashes are
pending: the payload joins the frame buffer and the loop goes on. -/
theorem decoder_consume_step_frame (c : Consts) (col : Collab) (s : XCodecPipePair)
    (p rest : List Nat) (hbuf : s.decoder_buffer_ = frameOf c p ++ rest)
    (hp1 : 1 ≤ p.length) (hp : p.length ≤ 32768)
    (hdec : s.decoder_ ≠ none) (hunk : s.decoder_unknown_hashes_ ≠ [])
    (hops : c.XCODEC_OP_FRAME ≠ c.XCODEC_OP_OOB) :
    decoder_consume_step c col s =
      .ok (.continue, { s with decoder_buffer_ := rest,
                               decoder_frame_buffer_ := s.decoder_frame_buffer_ ++ p }) := by
  have hlen : (frameOf c p ++ rest).length = 4 + p.length + rest.length := by
    simp [frameOf, be16]; omega
  have hmv : Buffer.moveout? (frameOf c p ++ rest) (1 + 1 + 2) p.length = .ok (p, rest) := by
    simp only [Buffer.moveout?, hlen]
    rw [if_pos (by omega)]
    have h4 : 1 + 1 + 2 + p.length = p.length + 4 := by omega
    have hd : ∀ (a b c2 d : Nat) (l : List Nat),
        List.drop (p.length + 4) (a :: b :: c2 :: d :: l) = List.drop p.length l :=
      fun _ _ _ _ _ => rfl
    simp only [Buffer.moveout, frameOf, be16, h4, List.cons_append, List.nil_append, hd,
      List.drop_succ_cons, List.drop_zero, List.drop_left, List.take_left]
  have hne : p ≠ [] := by
    intro h; rw [h] at hp1; simp at hp1
  unfold decoder_consume_step
  rw [hbuf, frame_header_frameOf c p rest hp]
  dsimp only
  rw [hmv]
  simp only [hlen]
  rw [if_neg (by omega)]
  simp only [ne_eq, not_true_eq_false, if_false, hdec, and_false, false_and]
  rw [if_neg (by unfold XCODEC_FRAME_LENGTH; omega), if_neg (by omega)]
  simp only [decoder_consume_payload, if_neg hops, decoder_consume_decode]
  rw [if_neg (by simp [hne])]
  simp [hunk]

theorem framesOf_length_pos (c : Consts) (p : List Nat) (ps : List (List Nat)) :
    0 < (framesOf c (p :: ps)).length := by
  simp [framesOf, frameOf]

/-- The frame loop on a sequence of well-formed `FRAME`s, while unknown hashes are pending. -/
theorem decoder_consume_loop_frames (c : Consts) (col : Collab) (ps : List (List Nat))
    (fuel : Nat) (s : XCodecPipePair) (hbuf : s.decoder_buffer_ = framesOf c ps)
    (hfuel : (framesOf c ps).length ≤ fuel)
    (hps : ∀ p ∈ ps, 1 ≤ p.length ∧ p.length ≤ 32768)
    (hdec : s.decoder_ ≠ none) (hunk : s.decoder_unknown_hashes_ ≠ [])
    (hops : c.XCODEC_OP_FRAME ≠ c.XCODEC_OP_OOB) :
    decoder_consume_loop c col fuel s =
      .ok (.continue, { s with decoder_buffer_ := [],
                               decoder_frame_buffer_ := s.decoder_frame_buffer_ ++ payloadOf ps }) := by
  induction ps generalizing fuel s with
  | nil =>
    simp only [framesOf] at hbuf
    cases s
    simp only at hbuf
    subst hbuf
    cases fuel <;> simp only [decoder_consume_loop, if_true, payloadOf, List.append_nil]
  | cons p ps ih =>
    have hpos := framesOf_length_pos c p ps
    cases fuel with
    | zero => omega
    | succ n =>
      have hne : s.decoder_buffer_ ≠ [] := by
        intro h; rw [hbuf] at h; rw [h] at hpos; simp at hpos
      unfold decoder_consume_loop
      rw [if_neg hne]
      have hp := hps p (List.mem_cons_self _ _)
      rw [decoder_consume_step_frame c col s p (framesOf c ps) (by rw [hbuf]; rfl) hp.1 hp.2
        hdec hunk hops]
      dsimp only
      have := ih n { s with decoder_buffer_ := framesOf c ps,
                            decoder_frame_buffer_ := s.decoder_frame_buffer_ ++ p } rfl (by
          simp only [framesOf, List.length_append] at hfuel
          have : 0 < (frameOf c p).length := by simp [frameOf]
          omega)
        (fun q hq => hps q (List.mem_cons_of_mem _ hq)) hdec hunk
      rw [this]
      simp only [payloadOf, List.append_assoc]

/-! ## The pipe pair: claims -/

/-- C5. Hash consistency is an invariant of the cache. If every entry of the encoder's cache
is stored under its own hash, the same holds after `encode`, and no entry present at entry
is changed; if every cache of the registry is hash-consistent, the same holds after
`decode_oob` has handled an out-of-band payload (a `LEARN` in particular), and no entry then
present is changed. -/
theorem hash_consistency_preserved (c : Consts) (col : Collab) (enc : XCodecEncoder)
    (output input : List Nat) (s : XCodecPipePair) (buf : List Nat)
    (r : Bool × XCodecPipePair)
    (henc : HashConsistent col.H enc.database_)
    (hreg : CachesConsistent col.H s)
    (hoob : decode_oob c col s buf = .ok r) :
    HashConsistent col.H (encodeRun c col.H enc output input).encoder.database_ ∧
    (∀ h seg, enc.database_.lookup h = some seg →
      (encodeRun c col.H enc output input).encoder.database_.lookup h = some seg) ∧
    CachesConsistent col.H r.2 ∧ CachesExtend s r.2 := by
  have hf := encodeRun_facts c col.H enc output input
  obtain ⟨h1, h2⟩ := decode_oob_loop_caches c col buf.length s buf r hoob hreg
  refine ⟨?_, hf.db_ext, h1, h2⟩
  intro h seg hl
  rcases hf.db_new h seg hl with h0 | h0
  · exact henc h seg h0
  · exact h0.1

set_option maxRecDepth 100000 in
/-- C5 at a concrete input: `encode` of scenario S2 on a new encoder, and a `LEARN` of the
segment `b × 64` received by `samplePeer`. -/
theorem hash_consistency_preserved_witness :
    HashConsistent sampleCollab.H
      (encodeRun sampleConsts sampleCollab.H XCodecEncoder.fresh [] scenarioX).encoder.database_ ∧
    (∀ h seg, XCodecEncoder.fresh.database_.lookup h = some seg →
      (encodeRun sampleConsts sampleCollab.H XCodecEncoder.fresh [] scenarioX).encoder.database_.lookup
        h = some seg) ∧
    CachesConsistent sampleCollab.H sampleLearned ∧ CachesExtend samplePeer sampleLearned :=
  hash_consistency_preserved sampleConsts sampleCollab XCodecEncoder.fresh [] scenarioX
    samplePeer ([0xf1, 0xfd] ++ List.replicate 64 98) (true, sampleLearned)
    (by intro h seg hl; cases hl)
    (by intro u h seg hl; cases hl)
    (by rfl)

/-! ## Scenario S2: claims -/

/-- C8. Scenario S2, second call: encoding `X` = 128 bytes `a` again on the cache left by
the first `encode(X)` emits no declaration and no literal byte, only two references, for
bytes `[0,64)` and `[64,128)`, and the second of them is a back-reference. With the encoder
of the first call the first reference is a back-reference too; with a new encoder on that
cache (an empty window) the first reference is a hash reference. -/
theorem s2_second_call (c : Consts) (H : List Nat → Nat) :
    ((encodeRun c H (encodeRun c H XCodecEncoder.fresh [] scenarioX).encoder [] scenarioX).trace =
      [Token.backref 0 0 (XCodecHash_hash H (List.replicate 64 97)) (List.replicate 64 97) 0,
       Token.backref 64 64 (XCodecHash_hash H (List.replicate 64 97))
         (List.replicate 64 97) 0] ∧
    (encodeRun c H (encodeRun c H XCodecEncoder.fresh [] scenarioX).encoder [] scenarioX).output =
      [c.XCODEC_BACKREF_CHAR, 0, c.XCODEC_BACKREF_CHAR, 0]) ∧
    ((encodeRun c H
        { database_ := (encodeRun c H XCodecEncoder.fresh [] scenarioX).encoder.database_,
          backref_ := XCBackref.empty } [] scenarioX).trace =
      [Token.hashref 0 0 (XCodecHash_hash H (List.replicate 64 97)) (List.replicate 64 97),
       Token.backref 64 64 (XCodecHash_hash H (List.replicate 64 97))
         (List.replicate 64 97) 0] ∧
    (encodeRun c H
        { database_ := (encodeRun c H XCodecEncoder.fresh [] scenarioX).encoder.database_,
          backref_ := XCBackref.empty } [] scenarioX).output =
      c.XCODEC_HASHREF_CHAR :: (le64 (XCodecHash_hash H (List.replicate 64 97)) ++
        [c.XCODEC_BACKREF_CHAR, 0])) := by
  rw [s2_second_run, s2_cache_run]
  exact ⟨⟨rfl, rfl⟩, rfl, rfl⟩

/-! ## Round trip through the token decoder -/

theorem le64_decode_le64 (h : Nat) (hh : h < 2 ^ 64) : le64_decode (le64 h) = h := by
  simp only [le64_decode, le64, List.foldr]
  norm_num
  omega

theorem le64_length (h : Nat) : (le64 h).length = 8 := rfl

theorem scan_some (hash : Nat) (slots : List (Option (Nat × Segment))) (i b : Nat)
    (h : XCBackref.scan hash slots i = some b) :
    i ≤ b ∧ ∃ seg, slots[b - i]? = some (some (hash, seg)) := by
  induction slots generalizing i with
  | nil => cases h
  | cons x xs ih =>
    cases x with
    | none =>
      simp only [XCBackref.scan] at h
      obtain ⟨h1, seg, h2⟩ := ih (i + 1) h
      refine ⟨by omega, seg, ?_⟩
      have : b - i = (b - (i + 1)) + 1 := by omega
      rw [this, List.getElem?_cons_succ]
      exact h2
    | some p =>
      obtain ⟨h0, seg0⟩ := p
      simp only [XCBackref.scan] at h
      split at h
      · rename_i heq
        cases h
        subst heq
        exact ⟨le_refl _, seg0, by simp⟩
      · obtain ⟨h1, seg, h2⟩ := ih (i + 1) h
        refine ⟨by omega, seg, ?_⟩
        have : b - i = (b - (i + 1)) + 1 := by omega
        rw [this, List.getElem?_cons_succ]
        exact h2

theorem present_dereference (w : XCBackref) (hash b : Nat) (h : w.present hash = some b) :
    ∃ seg, w.dereference b = some (hash, seg) := by
  obtain ⟨_, seg, h2⟩ := scan_some hash w.slots 0 b h
  refine ⟨seg, ?_⟩
  simp only [XCBackref.dereference, List.get?_eq_getElem?]
  simp only [Nat.sub_zero] at h2
  rw [h2]; rfl

theorem dereference_declare (w : XCBackref) (hash : Nat) (seg : Segment) (b : Nat)
    (p : Nat × Segment) (h : (w.declare hash seg).dereference b = some p) :
    p = (hash, seg) ∨ w.dereference b = some p := by
  simp only [XCBackref.dereference, XCBackref.declare, List.get?_eq_getElem?,
    List.getElem?_set] at h ⊢
  split at h
  · split at h
    · left
      simp only [Option.join] at h
      exact (Option.some.inj h).symm
    · cases h
  · right; exact h

theorem WindowOK_apply (H : List Nat → Nat) (e : XCodecEncoder) (t : Token)
    (hw : WindowOK e) (ht : t.emittable H e) : WindowOK (t.apply e) := by
  cases t with
  | verbatim bs => exact hw
  | literal off bs => exact hw
  | backref st so h seg b => exact hw
  | declare st h seg =>
    intro b h2 seg2 hd
    simp only [Token.apply] at hd ⊢
    rw [lookup_enter]
    rcases dereference_declare _ _ _ _ _ hd with hp | hp
    · cases hp; simp
    · have := hw b h2 seg2 hp
      split
      · rename_i heq
        rw [heq, ht.1] at this
        cases this
      · exact this
  | hashref st so h seg =>
    intro b h2 seg2 hd
    simp only [Token.apply] at hd ⊢
    rcases dereference_declare _ _ _ _ _ hd with hp | hp
    · cases hp; exact ht.1
    · exact hw b h2 seg2 hp

theorem special_false (c : Consts) (b : Nat) (h : xcodec_special_p c b = false) :
    b ≠ c.XCODEC_ESCAPE_CHAR ∧ b ≠ c.XCODEC_DECLARE_CHAR ∧ b ≠ c.XCODEC_BACKREF_CHAR ∧
    b ≠ c.XCODEC_HASHREF_CHAR := by
  simp only [xcodec_special_p, XCODEC_CHAR_SPECIAL, Bool.or_eq_false_iff, beq_eq_false_iff_ne,
    ne_eq] at h
  exact ⟨h.1.1.1, h.1.1.2, h.1.2, h.2⟩

/-- The token loop on a run of escaped literal bytes: one iteration per literal byte. -/
theorem decodeLoop_literal (c : Consts) (H : List Nat → Nat) (again : Bool) (bs tail : List Nat)
    (n : Nat) (d : XCodecDecoder) (out unk : List Nat) :
    decodeLoop c H again (n + bs.length)
      { decoder := d, output := out,
        input := Buffer.escape c.XCODEC_ESCAPE_CHAR (xcodec_special_p c) bs ++ tail,
        unknown_hashes := unk, ok := true } =
    decodeLoop c H again n
      { decoder := d, output := out ++ bs, input := tail, unknown_hashes := unk, ok := true } := by
  induction bs generalizing out with
  | nil => simp [Buffer.escape]
  | cons b bs ih =>
    have hf : n + (b :: bs).length = (n + bs.length) + 1 := by simp; omega
    rw [hf, decodeLoop]
    by_cases hsp : xcodec_special_p c b = true
    · simp only [Buffer.escape, hsp, if_true, List.cons_append]
      simp only [Nat.xor_cancel_right]
      rw [ih]
      simp
    · simp only [Bool.not_eq_true] at hsp
      obtain ⟨h1, h2, h3, h4⟩ := special_false c b hsp
      simp only [Buffer.escape, hsp, Bool.false_eq_true, if_false, List.cons_append]
      rw [if_neg h1, if_neg h2, if_neg h4, if_neg h3, ih]
      simp

theorem take8_le64 (h : Nat) (l : List Nat) : (le64 h ++ l).take 8 = le64 h := by
  simp [le64]

theorem drop8_le64 (h : Nat) (l : List Nat) : (le64 h ++ l).drop 8 = l := by
  simp [le64]

/-- The token loop on a declaration emitted by the encoder. -/
theorem decodeLoop_declare (c : Consts) (H : List Nat → Nat) (again : Bool) (tail : List Nat)
    (n : Nat) (e : XCodecEncoder) (out unk : List Nat) (start hash : Nat) (seg : Segment)
    (hd : c.tokensDistinct) (ht : (Token.declare start hash seg).emittable H e) :
    decodeLoop c H again (n + 1)
      { decoder := e.mirror, output := out,
        input := (Token.declare start hash seg).bytes c ++ tail,
        unknown_hashes := unk, ok := true } =
    decodeLoop c H again n
      { decoder := ((Token.declare start hash seg).apply e).mirror, output := out,
        input := tail, unknown_hashes := unk, ok := true } := by
  obtain ⟨h1, h2, h3⟩ := ht
  have hlt : hash < 2 ^ 64 := by rw [h2]; exact Nat.mod_lt _ (by decide)
  have hlen : ¬ (le64 hash ++ (seg ++ tail)).length < 8 + 64 := by
    simp only [List.length_append, le64_length, h3]; omega
  have hseg : ((le64 hash ++ (seg ++ tail)).drop 8).take 64 = seg := by
    rw [drop8_le64, ← h3, List.take_left]
  have hrest : (le64 hash ++ (seg ++ tail)).drop (8 + 64) = tail := by
    rw [← List.drop_drop, drop8_le64, ← h3, List.drop_left]
  have hne : c.XCODEC_DECLARE_CHAR ≠ c.XCODEC_ESCAPE_CHAR := Ne.symm hd.1
  have hhash : ¬ hash ≠ XCodecHash_hash H seg := by simp [h2]
  rw [decodeLoop]
  unfold XCODEC_SEGMENT_LENGTH
  simp only [Token.bytes, List.cons_append, List.append_assoc, hne, if_false, if_true, hlen,
    hseg, hrest, take8_le64, le64_decode_le64 hash hlt, hhash, XCodecEncoder.mirror, h1,
    Token.apply]

/-- The token loop on a hash reference emitted by the encoder. -/
theorem decodeLoop_hashref (c : Consts) (H : List Nat → Nat) (again : Bool) (tail : List Nat)
    (n : Nat) (e : XCodecEncoder) (out unk : List Nat) (start soff hash : Nat) (seg : Segment)
    (hd : c.tokensDistinct) (ht : (Token.hashref start soff hash seg).emittable H e) :
    decodeLoop c H again (n + 1)
      { decoder := e.mirror, output := out,
        input := (Token.hashref start soff hash seg).bytes c ++ tail,
        unknown_hashes := unk, ok := true } =
    decodeLoop c H again n
      { decoder := ((Token.hashref start soff hash seg).apply e).mirror, output := out ++ seg,
        input := tail, unknown_hashes := unk, ok := true } := by
  obtain ⟨h1, _, hlt, _⟩ := ht
  have hlen : ¬ (le64 hash ++ tail).length < 8 := by
    simp only [List.length_append, le64_length]; omega
  have hn1 : c.XCODEC_HASHREF_CHAR ≠ c.XCODEC_ESCAPE_CHAR := Ne.symm hd.2.2.1
  have hn2 : c.XCODEC_HASHREF_CHAR ≠ c.XCODEC_DECLARE_CHAR := Ne.symm hd.2.2.2.2.1
  rw [decodeLoop]
  simp only [Token.bytes, List.cons_append, hn1, hn2, if_false, if_true, hlen,
    take8_le64, drop8_le64, le64_decode_le64 hash hlt, XCodecEncoder.mirror, h1,
    Token.apply]

/-- The token loop on a back-reference emitted by the encoder, when the decoder leaves its
window alone on back-references. -/
theorem decodeLoop_backref (c : Consts) (H : List Nat → Nat) (tail : List Nat)
    (n : Nat) (e : XCodecEncoder) (out unk : List Nat) (start soff hash : Nat) (seg : Segment)
    (b : Nat) (hd : c.tokensDistinct) (hw : WindowOK e)
    (ht : (Token.backref start soff hash seg b).emittable H e) :
    decodeLoop c H false (n + 1)
      { decoder := e.mirror, output := out,
        input := (Token.backref start soff hash seg b).bytes c ++ tail,
        unknown_hashes := unk, ok := true } =
    decodeLoop c H false n
      { decoder := ((Token.backref start soff hash seg b).apply e).mirror, output := out ++ seg,
        input := tail, unknown_hashes := unk, ok := true } := by
  obtain ⟨h1, h2, _⟩ := ht
  obtain ⟨seg2, hder⟩ := present_dereference _ _ _ h2
  have hs : seg2 = seg := by
    have := hw b hash seg2 hder
    rw [h1] at this
    exact (Option.some.inj this).symm
  subst hs
  have hn1 : c.XCODEC_BACKREF_CHAR ≠ c.XCODEC_ESCAPE_CHAR := Ne.symm hd.2.1
  have hn2 : c.XCODEC_BACKREF_CHAR ≠ c.XCODEC_DECLARE_CHAR := Ne.symm hd.2.2.2.1
  have hn3 : c.XCODEC_BACKREF_CHAR ≠ c.XCODEC_HASHREF_CHAR := hd.2.2.2.2.2
  rw [decodeLoop]
  simp only [Token.bytes, List.cons_append, List.nil_append, hn1, hn2, hn3, if_false, if_true,
    XCodecEncoder.mirror, hder, Token.apply, Bool.false_eq_true]

theorem decodeLoop_done (c : Consts) (H : List Nat → Nat) (again : Bool) (n : Nat)
    (r : DecodeRun) (h : r.input = []) : decodeLoop c H again n r = r := by
  cases n with
  | zero => rfl
  | succ n => rw [decodeLoop, h]

/-- The token loop on the serialization of a chain of items emitted by the encoder. -/
theorem decodeLoop_tokens (c : Consts) (H : List Nat → Nat) (ts : List Token) (tail : List Nat)
    (n : Nat) (e : XCodecEncoder) (out unk : List Nat)
    (hd : c.tokensDistinct) (hw : WindowOK e) (hc : Chain H e ts)
    (hv : ∀ bs, Token.verbatim bs ∉ ts) :
    decodeLoop c H false (n + tokenSteps ts)
      { decoder := e.mirror, output := out, input := serialize c ts ++ tail,
        unknown_hashes := unk, ok := true } =
    decodeLoop c H false n
      { decoder := (runTokens e ts).mirror, output := out ++ sourceOf ts,
        input := tail, unknown_hashes := unk, ok := true } := by
  induction ts generalizing e out with
  | nil => simp [tokenSteps, serialize, sourceOf, runTokens]
  | cons t ts ih =>
    obtain ⟨ht, hc2⟩ := hc
    have hw2 := WindowOK_apply H e t hw ht
    have hv2 : ∀ bs, Token.verbatim bs ∉ ts := fun bs hm => hv bs (List.mem_cons_of_mem _ hm)
    cases t with
    | verbatim bs => exact absurd (List.mem_cons_self _ _) (hv bs)
    | literal off bs =>
      have : n + tokenSteps (Token.literal off bs :: ts) = (n + tokenSteps ts) + bs.length := by
        simp only [tokenSteps]; omega
      rw [this]
      simp only [serialize, Token.bytes, List.append_assoc]
      rw [decodeLoop_literal, ih e _ hw hc2 hv2]
      simp only [sourceOf, Token.source, runTokens, Token.apply, List.append_assoc]
    | declare st h seg =>
      have : n + tokenSteps (Token.declare st h seg :: ts) = (n + tokenSteps ts) + 1 := by
        simp only [tokenSteps]; omega
      rw [this]
      simp only [serialize, List.append_assoc]
      rw [decodeLoop_declare c H false _ _ e out unk st h seg hd ht, ih _ _ hw2 hc2 hv2]
      simp only [sourceOf, Token.source, runTokens, List.nil_append]
    | hashref st so h seg =>
      have : n + tokenSteps (Token.hashref st so h seg :: ts) = (n + tokenSteps ts) + 1 := by
        simp only [tokenSteps]; omega
      rw [this]
      simp only [serialize, List.append_assoc]
      rw [decodeLoop_hashref c H false _ _ e out unk st so h seg hd ht, ih _ _ hw2 hc2 hv2]
      simp only [sourceOf, Token.source, runTokens, List.append_assoc]
    | backref st so h seg b =>
      have : n + tokenSteps (Token.backref st so h seg b :: ts) = (n + tokenSteps ts) + 1 := by
        simp only [tokenSteps]; omega
      rw [this]
      simp only [serialize, List.append_assoc]
      rw [decodeLoop_backref c H _ _ e out unk st so h seg b hd hw ht, ih _ _ hw2 hc2 hv2]
      simp only [sourceOf, Token.source, runTokens, Token.apply, List.append_assoc]

theorem tokenSteps_le (c : Consts) (ts : List Token) :
    tokenSteps ts ≤ (serialize c ts).length := by
  induction ts with
  | nil => simp [tokenSteps]
  | cons t ts ih =>
    have hesc : ∀ bs : List Nat,
        bs.length ≤ (Buffer.escape c.XCODEC_ESCAPE_CHAR (xcodec_special_p c) bs).length := by
      intro bs
      induction bs with
      | nil => simp [Buffer.escape]
      | cons b bs ih2 =>
        simp only [Buffer.escape]
        split <;> simp <;> omega
    cases t with
    | verbatim bs => simp only [tokenSteps, serialize, Token.bytes, List.length_append]; omega
    | literal off bs =>
      have := hesc bs
      simp only [tokenSteps, serialize, Token.bytes, List.length_append]; omega
    | declare st h seg =>
      simp only [tokenSteps, serialize, Token.bytes, List.length_append, List.length_cons]; omega
    | hashref st so h seg =>
      simp only [tokenSteps, serialize, Token.bytes, List.length_append, List.length_cons]; omega
    | backref st so h seg b =>
      simp only [tokenSteps, serialize, Token.bytes, List.length_append, List.length_cons]; omega

theorem escape_plain (c : Consts) (bs : List Nat)
    (h : ∀ b ∈ bs, xcodec_special_p c b = false) :
    Buffer.escape c.XCODEC_ESCAPE_CHAR (xcodec_special_p c) bs = bs := by
  induction bs with
  | nil => rfl
  | cons b bs ih =>
    have hb := h b (List.mem_cons_self _ _)
    simp only [Buffer.escape, hb, Bool.false_eq_true, if_false]
    rw [ih (fun x hx => h x (List.mem_cons_of_mem _ hx))]

/-- Round trip away from the defect of the short-input path. For distinct token bytes, an
encoder whose window agrees with its cache, and a peer decoder with the same cache and
window that leaves its window alone on back-references: on every input of at least 64
bytes, and on every shorter input free of special bytes, decoding the output of `encode`
yields the input, consumes all of it without error or unknown hash, and leaves the decoder
with the cache and the window of the encoder. -/
theorem roundtrip_escaped (c : Consts) (H : List Nat → Nat) (enc : XCodecEncoder)
    (inp : List Nat) (hd : c.tokensDistinct) (hw : WindowOK enc)
    (hin : 64 ≤ inp.length ∨ ∀ b ∈ inp, xcodec_special_p c b = false) :
    decode c H false enc.mirror [] (encodeRun c H enc [] inp).output [] =
      { decoder := (encodeRun c H enc [] inp).encoder.mirror, output := inp, input := [],
        unknown_hashes := [], ok := true } := by
  by_cases hlen : inp.length < 64
  · have hplain : ∀ b ∈ inp, xcodec_special_p c b = false := by
      rcases hin with h | h
      · omega
      · exact h
    rw [encodeRun_short c H enc [] inp hlen]
    simp only [decode, List.nil_append]
    have := decodeLoop_literal c H false inp [] 0 enc.mirror [] []
    rw [escape_plain c inp hplain] at this
    simp only [List.append_nil, Nat.zero_add, List.nil_append] at this
    rw [this]
    rfl
  · have hf := encodeRun_facts c H enc [] inp
    have hv : ∀ bs, Token.verbatim bs ∉ (encodeRun c H enc [] inp).trace :=
      fun bs hm => hlen (hf.verbatim_short bs hm)
    have hsteps := tokenSteps_le c (encodeRun c H enc [] inp).trace
    have hout : (encodeRun c H enc [] inp).output =
        serialize c (encodeRun c H enc [] inp).trace ++ [] := by
      rw [hf.output_eq]; simp
    have hfuel : (encodeRun c H enc [] inp).output.length =
        ((serialize c (encodeRun c H enc [] inp).trace).length -
          tokenSteps (encodeRun c H enc [] inp).trace) +
          tokenSteps (encodeRun c H enc [] inp).trace := by
      rw [hout, List.append_nil]; omega
    unfold decode
    rw [hfuel, hout, decodeLoop_tokens c H _ [] _ enc [] [] hd hw hf.chain hv,
      decodeLoop_done _ _ _ _ _ rfl, hf.state_eq, hf.cover]
    rfl

theorem WindowOK_fresh : WindowOK XCodecEncoder.fresh := by
  intro b hash seg h
  simp only [XCodecEncoder.fresh, XCBackref.dereference, XCBackref.empty,
    List.get?_eq_getElem?, List.getElem?_replicate] at h
  split at h <;> cases h

set_option maxRecDepth 100000 in
/-- Round trip of scenario S2 from a new encoder and a new decoder, with the sample constants
and hash. -/
theorem roundtrip_escaped_witness :
    decode sampleConsts sampleHash false XCodecEncoder.fresh.mirror []
        (encodeRun sampleConsts sampleHash XCodecEncoder.fresh [] scenarioX).output [] =
      { decoder := (encodeRun sampleConsts sampleHash XCodecEncoder.fresh [] scenarioX).encoder.mirror,
        output := scenarioX, input := [], unknown_hashes := [], ok := true } :=
  roundtrip_escaped sampleConsts sampleHash XCodecEncoder.fresh scenarioX
    (by unfold Consts.tokensDistinct; decide) WindowOK_fresh (Or.inl (by decide))

set_option maxRecDepth 100000 in
/-- The account of back-references matters. If the decoder registers the hash again on every
back-reference, as section 4.4 has it, its window leaves the encoder's behind: on 64 bytes
`a` followed by 64 bytes `b` the second back-reference resolves to the first segment, and the
decoded bytes are not the input. -/
theorem roundtrip_register_again_diverges :
    (decode sampleConsts sampleHash true XCodecEncoder.fresh.mirror []
        (encodeRun sampleConsts sampleHash XCodecEncoder.fresh [] scenarioAB).output []).output
      = List.replicate 128 97 ∧
    (decode sampleConsts sampleHash true XCodecEncoder.fresh.mirror []
        (encodeRun sampleConsts sampleHash XCodecEncoder.fresh [] scenarioAB).output []).output
      ≠ scenarioAB := by
  decide

/-! ## Encoder side of the pipe pair: end of stream -/

theorem sampleConsts_opsDistinct : sampleConsts.opsDistinct := by
  unfold Consts.opsDistinct; decide

/-- C13 (counterexample). A pipe pair that has not sent `EOS` and has not consumed any data
yet hands an empty buffer on as it is: no `EOS` frame is produced and `encoder_sent_eos_`
stays false. -/
theorem encoder_eos_counterexample :
    sampleFresh.encoder_sent_eos_ = false ∧
    encoder_consume sampleConsts sampleCollab sampleFresh [] =
      .ok { sampleFresh with events := [Event.encoder_produce []] } ∧
    ({ sampleFresh with events := [Event.encoder_produce []] } :
      XCodecPipePair).encoder_sent_eos_ = false :=
  ⟨rfl, rfl, rfl⟩

/-- C13 (amended). In every state in which `EOS` has not been sent, `encoder_consume` with
an empty buffer produces, when the encoder exists, one `OOB` frame of length 2 carrying
`MAGIC, OP_EOS` and sets `encoder_sent_eos_`; when no encoder exists yet (no data has been
consumed), it produces the empty buffer and changes nothing else. -/
theorem encoder_eos (c : Consts) (col : Collab) (s : XCodecPipePair)
    (h : s.encoder_sent_eos_ = false) :
    encoder_consume c col s [] =
      .ok (if s.encoder_ = none then s.emit (Event.encoder_produce [])
           else { s.emit (Event.encoder_produce
                    [c.XCODEC_MAGIC, c.XCODEC_OP_OOB, 0, 2, c.XCODEC_MAGIC, c.XCODEC_OP_EOS])
                  with encoder_sent_eos_ := true }) := by
  unfold encoder_consume
  by_cases he : s.encoder_ = none
  · simp [h, he]
  · simp [h, he, encoder_send, encode_oob, be16, XCODEC_FRAME_LENGTH]

theorem encoder_eos_witness :
    samplePeer.encoder_sent_eos_ = false ∧
    encoder_consume sampleConsts sampleCollab samplePeer [] =
      .ok (if samplePeer.encoder_ = none then samplePeer.emit (Event.encoder_produce [])
           else { samplePeer.emit (Event.encoder_produce
                    [sampleConsts.XCODEC_MAGIC, sampleConsts.XCODEC_OP_OOB, 0, 2,
                      sampleConsts.XCODEC_MAGIC, sampleConsts.XCODEC_OP_EOS])
                  with encoder_sent_eos_ := true }) :=
  ⟨rfl, encoder_eos sampleConsts sampleCollab samplePeer rfl⟩

/-! ## Out-of-band messages: one message at a time -/

theorem decode_oob_loop_nil (c : Consts) (col : Collab) (fuel : Nat) (s : XCodecPipePair) :
    decode_oob_loop c col fuel s [] = .ok (true, s) := by
  cases fuel <;> simp [decode_oob_loop]

/-- A payload holding one message: `decode_oob` returns what the message yields. -/
theorem decode_oob_single (c : Consts) (col : Collab) (s s2 : XCodecPipePair)
    (buf : List Nat) (b : Bool) (hne : buf ≠ [])
    (h : decode_oob_step c col s buf = .ok (b, s2, [])) :
    decode_oob c col s buf = .ok (b, s2) := by
  unfold decode_oob
  obtain ⟨n, hn⟩ : ∃ n, buf.length = n + 1 := by
    cases buf with
    | nil => exact absurd rfl hne
    | cons x xs => exact ⟨xs.length, rfl⟩
  rw [hn, decode_oob_loop, if_neg hne, h]
  cases b
  · rfl
  · simp only [decode_oob_loop_nil]

theorem decode_oob_step_op (c : Consts) (col : Collab) (s : XCodecPipePair) (op : Nat)
    (rest : List Nat) :
    decode_oob_step c col s (c.XCODEC_MAGIC :: op :: rest) = decode_oob_op c col s op rest := by
  simp [decode_oob_step, Buffer.peek?, Buffer.moveout?, Buffer.moveout, Buffer.copyout,
    Buffer.skip]

theorem opsDistinct_ne {c : Consts} (hd : c.opsDistinct) :
    c.XCODEC_OP_HELLO ≠ c.XCODEC_OP_ASK ∧ c.XCODEC_OP_HELLO ≠ c.XCODEC_OP_LEARN ∧
    c.XCODEC_OP_HELLO ≠ c.XCODEC_OP_EOS ∧ c.XCODEC_OP_HELLO ≠ c.XCODEC_OP_EOS_ACK ∧
    c.XCODEC_OP_ASK ≠ c.XCODEC_OP_LEARN ∧ c.XCODEC_OP_ASK ≠ c.XCODEC_OP_EOS ∧
    c.XCODEC_OP_ASK ≠ c.XCODEC_OP_EOS_ACK ∧ c.XCODEC_OP_LEARN ≠ c.XCODEC_OP_EOS ∧
    c.XCODEC_OP_LEARN ≠ c.XCODEC_OP_EOS_ACK ∧ c.XCODEC_OP_EOS ≠ c.XCODEC_OP_EOS_ACK ∧
    c.XCODEC_OP_FRAME ≠ c.XCODEC_OP_OOB := by
  simp only [Consts.opsDistinct, List.nodup_cons, List.mem_cons, List.mem_singleton,
    not_or, List.not_mem_nil, not_false_eq_true, List.nodup_nil, and_true] at hd
  tauto

/-- C16. After `HELLO` has been sent (the encoder exists), a complete `ASK` whose eight hash
bytes, read big-endian, are a key of the local cache is answered by exactly one `OOB` frame
of length 66 carrying `MAGIC, OP_LEARN` and the 64 bytes stored under the key, and nothing
but the list of produced buffers changes; when the key is not in the cache, `decode_oob`
returns false and produces nothing. -/
theorem ask_answered (c : Consts) (col : Collab) (s : XCodecPipePair) (hb : List Nat)
    (hd : c.opsDistinct) (he : s.encoder_ ≠ none) (hl : hb.length = 8)
    (h64 : ∀ seg, (s.cacheOf s.codec_uuid).lookup (be64_decode hb) = some seg →
      seg.length = 64) :
    decode_oob c col s ([c.XCODEC_MAGIC, c.XCODEC_OP_ASK] ++ hb) =
      match (s.cacheOf s.codec_uuid).lookup (be64_decode hb) with
      | some seg =>
        .ok (true, s.emit (Event.encoder_produce
          ([c.XCODEC_MAGIC, c.XCODEC_OP_OOB, 0, 66, c.XCODEC_MAGIC, c.XCODEC_OP_LEARN] ++ seg)))
      | none => .ok (false, s) := by
  have hne : c.XCODEC_OP_ASK ≠ c.XCODEC_OP_HELLO := (opsDistinct_ne hd).1.symm
  have hx : Buffer.extract? hb 0 8 = .ok hb := by
    simp only [Buffer.extract?, hl, Nat.zero_add, Nat.le_refl, if_true, List.drop_zero]
    rw [List.take_of_length_le (by omega)]
  have hs : Buffer.skip? hb 8 = .ok [] := by
    simp only [Buffer.skip?, Buffer.skip, hl, Nat.le_refl, if_true]
    rw [List.drop_of_length_le (by omega)]
  have hstep : decode_oob_step c col s ([c.XCODEC_MAGIC, c.XCODEC_OP_ASK] ++ hb) =
      decode_oob_ask c s hb := by
    rw [show [c.XCODEC_MAGIC, c.XCODEC_OP_ASK] ++ hb = c.XCODEC_MAGIC :: c.XCODEC_OP_ASK :: hb
      from rfl, decode_oob_step_op]
    simp [decode_oob_op, hne]
  cases hlook : (s.cacheOf s.codec_uuid).lookup (be64_decode hb) with
  | none =>
    have h2 : decode_oob_step c col s ([c.XCODEC_MAGIC, c.XCODEC_OP_ASK] ++ hb) =
        .ok (false, s, []) := by
      rw [hstep]; simp [decode_oob_ask, he, hx, hs, hlook]
    exact decode_oob_single c col s s _ false (by simp) h2
  | some seg =>
    have hseg := h64 seg hlook
    have h2 : decode_oob_step c col s ([c.XCODEC_MAGIC, c.XCODEC_OP_ASK] ++ hb) =
        .ok (true, s.emit (Event.encoder_produce
          ([c.XCODEC_MAGIC, c.XCODEC_OP_OOB, 0, 66, c.XCODEC_MAGIC, c.XCODEC_OP_LEARN] ++ seg)),
          []) := by
      rw [hstep]
      simp [decode_oob_ask, he, hx, hs, hlook, encode_oob, hseg, be16, XCODEC_FRAME_LENGTH]
    exact decode_oob_single c col s _ _ true (by simp) h2

set_option maxRecDepth 100000 in
theorem ask_answered_witness :
    sampleConsts.opsDistinct ∧ sampleServer.encoder_ ≠ none ∧
    [85, 191, 134, 3, 166, 190, 208, 7].length = 8 ∧
    decode_oob sampleConsts sampleCollab sampleServer
        ([sampleConsts.XCODEC_MAGIC, sampleConsts.XCODEC_OP_ASK] ++
          [85, 191, 134, 3, 166, 190, 208, 7]) =
      match (sampleServer.cacheOf sampleServer.codec_uuid).lookup
          (be64_decode [85, 191, 134, 3, 166, 190, 208, 7]) with
      | some seg =>
        .ok (true, sampleServer.emit (Event.encoder_produce
          ([sampleConsts.XCODEC_MAGIC, sampleConsts.XCODEC_OP_OOB, 0, 66,
            sampleConsts.XCODEC_MAGIC, sampleConsts.XCODEC_OP_LEARN] ++ seg)))
      | none => .ok (false, sampleServer) :=
  ⟨sampleConsts_opsDistinct, by decide, rfl,
    ask_answered sampleConsts sampleCollab sampleServer [85, 191, 134, 3, 166, 190, 208, 7]
      sampleConsts_opsDistinct (by decide) rfl
      (by
        intro seg h
        have h2 : (sampleServer.cacheOf sampleServer.codec_uuid).lookup
            (be64_decode [85, 191, 134, 3, 166, 190, 208, 7]) = some (List.replicate 64 98) :=
          rfl
        rw [h2] at h
        cases h
        rfl)⟩

/-- C17. After a `HELLO` has bound the decoder cache, a `LEARN` carrying a 64-byte segment
`S` with hash `h`: the hash `h` leaves the set of unknown hashes and every other unknown
hash stays, whether or not `h` was in the set; when the cache has no entry for `h`,
`decode_oob` returns true and the cache then maps `h` to `S` and every other key as before;
when it maps `h` to `S`, `decode_oob` returns true and the caches are unchanged; when it
maps `h` to other bytes, `decode_oob` returns false and the caches are unchanged. -/
theorem learn_handling (c : Consts) (col : Collab) (s : XCodecPipePair) (uuid : List Nat)
    (S : List Nat) (hd : c.opsDistinct) (hc : s.decoder_cache_ = some uuid)
    (hS : S.length = 64) :
    ∃ b s2, decode_oob c col s ([c.XCODEC_MAGIC, c.XCODEC_OP_LEARN] ++ S) = .ok (b, s2) ∧
      s2.decoder_unknown_hashes_ =
        s.decoder_unknown_hashes_.filter (· ≠ XCodecHash_hash col.H S) ∧
      ((s.cacheOf uuid).lookup (XCodecHash_hash col.H S) = none →
        b = true ∧ (s2.cacheOf uuid).lookup (XCodecHash_hash col.H S) = some S ∧
        (∀ h2, h2 ≠ XCodecHash_hash col.H S →
          (s2.cacheOf uuid).lookup h2 = (s.cacheOf uuid).lookup h2) ∧
        (∀ u, u ≠ uuid → s2.cacheOf u = s.cacheOf u)) ∧
      ((s.cacheOf uuid).lookup (XCodecHash_hash col.H S) = some S →
        b = true ∧ s2.registry = s.registry) ∧
      (∀ oseg, (s.cacheOf uuid).lookup (XCodecHash_hash col.H S) = some oseg → oseg ≠ S →
        b = false ∧ s2.registry = s.registry) := by
  obtain ⟨-, h1, -, -, h5, -⟩ := opsDistinct_ne hd
  have hx : Buffer.copyout? S 0 XCODEC_SEGMENT_LENGTH = .ok S := by
    simp only [Buffer.copyout?, Buffer.copyout, hS, XCODEC_SEGMENT_LENGTH, Nat.zero_add,
      Nat.le_refl, if_true, List.drop_zero]
    rw [List.take_of_length_le (by omega)]
  have hs : Buffer.skip? S XCODEC_SEGMENT_LENGTH = .ok [] := by
    simp only [Buffer.skip?, Buffer.skip, hS, XCODEC_SEGMENT_LENGTH, Nat.le_refl, if_true]
    rw [List.drop_of_length_le (by omega)]
  have hstep : decode_oob_step c col s ([c.XCODEC_MAGIC, c.XCODEC_OP_LEARN] ++ S) =
      decode_oob_learn col s S := by
    rw [show [c.XCODEC_MAGIC, c.XCODEC_OP_LEARN] ++ S = c.XCODEC_MAGIC :: c.XCODEC_OP_LEARN :: S
      from rfl, decode_oob_step_op]
    simp [decode_oob_op, h1.symm, h5.symm]
  have hcache : (eraseUnknown s (XCodecHash_hash col.H S)).cacheOf uuid = s.cacheOf uuid := rfl
  cases hlook : (s.cacheOf uuid).lookup (XCodecHash_hash col.H S) with
  | none =>
    have h2 : decode_oob_step c col s ([c.XCODEC_MAGIC, c.XCODEC_OP_LEARN] ++ S) =
        .ok (true, (eraseUnknown s (XCodecHash_hash col.H S)).setCache uuid
          ((s.cacheOf uuid).enter (XCodecHash_hash col.H S) S), []) := by
      rw [hstep]; simp [decode_oob_learn, hc, hx, hs, hcache, hlook]
    refine ⟨true, _, decode_oob_single c col s _ _ true (by simp) h2, rfl, ?_, ?_, ?_⟩
    · intro _
      refine ⟨rfl, ?_, ?_, ?_⟩
      · rw [cacheOf_setCache, if_pos rfl, lookup_enter, if_pos rfl]
      · intro h2 hne
        rw [cacheOf_setCache, if_pos rfl, lookup_enter, if_neg hne]
      · intro u hu
        rw [cacheOf_setCache, if_neg hu, ]
        rfl
    · intro h; cases h
    · intro oseg h; cases h
  | some oseg =>
    by_cases heq : oseg = S
    · have h2 : decode_oob_step c col s ([c.XCODEC_MAGIC, c.XCODEC_OP_LEARN] ++ S) =
          .ok (true, eraseUnknown s (XCodecHash_hash col.H S), []) := by
        rw [hstep]; simp [decode_oob_learn, hc, hx, hs, hcache, hlook, heq]
      refine ⟨true, _, decode_oob_single c col s _ _ true (by simp) h2, rfl, ?_, ?_, ?_⟩
      · intro h; cases h
      · intro _; exact ⟨rfl, rfl⟩
      · intro o2 h hne
        cases h
        exact absurd heq hne
    · have h2 : decode_oob_step c col s ([c.XCODEC_MAGIC, c.XCODEC_OP_LEARN] ++ S) =
          .ok (false, eraseUnknown s (XCodecHash_hash col.H S), []) := by
        rw [hstep]; simp [decode_oob_learn, hc, hx, hs, hcache, hlook, heq]
      refine ⟨false, _, decode_oob_single c col s _ _ false (by simp) h2, rfl, ?_, ?_, ?_⟩
      · intro h; cases h
      · intro h; cases h; exact absurd rfl heq
      · intro _ _ _; exact ⟨rfl, rfl⟩

theorem learn_handling_witness :
    sampleConsts.opsDistinct ∧ samplePeer.decoder_cache_ = some (List.replicate 16 2) ∧
    (List.replicate 64 98).length = 64 ∧
    ∃ b s2, decode_oob sampleConsts sampleCollab samplePeer
        ([sampleConsts.XCODEC_MAGIC, sampleConsts.XCODEC_OP_LEARN] ++ List.replicate 64 98) =
          .ok (b, s2) ∧
      s2.decoder_unknown_hashes_ = samplePeer.decoder_unknown_hashes_.filter
        (· ≠ XCodecHash_hash sampleCollab.H (List.replicate 64 98)) :=
  ⟨sampleConsts_opsDistinct, rfl, rfl,
    match learn_handling sampleConsts sampleCollab samplePeer (List.replicate 16 2)
      (List.replicate 64 98) sampleConsts_opsDistinct rfl rfl with
    | ⟨b, s2, h1, h2, _⟩ => ⟨b, s2, h1, h2⟩⟩

/-! ## The pipe pair: what a call leaves alone -/

theorem FlagsLe.flags_refl (s : XCodecPipePair) : FlagsLe s s :=
  ⟨fun h => h, fun h => h, fun h => h, fun h => h⟩

theorem FlagsLe.flags_trans {s s2 s3 : XCodecPipePair} (h1 : FlagsLe s s2) (h2 : FlagsLe s2 s3) :
    FlagsLe s s3 :=
  ⟨fun h => h2.1 (h1.1 h), fun h => h2.2.1 (h1.2.1 h), fun h => h2.2.2.1 (h1.2.2.1 h),
    fun h => h2.2.2.2 (h1.2.2.2 h)⟩

theorem PayloadKeeps.keeps_refl (s : XCodecPipePair) : PayloadKeeps s s := ⟨rfl, FlagsLe.flags_refl s⟩

theorem PayloadKeeps.keeps_trans {s s2 s3 : XCodecPipePair} (h1 : PayloadKeeps s s2)
    (h2 : PayloadKeeps s2 s3) : PayloadKeeps s s3 :=
  ⟨h2.1.trans h1.1, h1.2.flags_trans h2.2⟩

/-- A state that differs from `s` in fields other than the inbound buffer and the flags. -/
theorem PayloadKeeps.keeps_of_eq {s s2 : XCodecPipePair} (hb : s2.decoder_buffer_ = s.decoder_buffer_)
    (h1 : s2.encoder_sent_eos_ = s.encoder_sent_eos_)
    (h2 : s2.decoder_received_eos_ = s.decoder_received_eos_)
    (h3 : s2.decoder_received_eos_ack_ = s.decoder_received_eos_ack_) : PayloadKeeps s s2 :=
  ⟨hb, by rw [FlagsLe, h1, h2, h3]; exact ⟨fun h => h, fun h => h, fun h => h, fun h => h⟩⟩

theorem decode_oob_hello_keeps (col : Collab) (s s2 : XCodecPipePair) (buf buf2 : List Nat)
    (b : Bool) (h : decode_oob_hello col s buf = .ok (b, s2, buf2)) : PayloadKeeps s s2 := by
  unfold decode_oob_hello at h
  repeat' split at h
  all_goals first
    | (cases h; done)
    | (cases h; exact PayloadKeeps.keeps_of_eq rfl rfl rfl rfl)

theorem decode_oob_ask_keeps (c : Consts) (s s2 : XCodecPipePair) (buf buf2 : List Nat)
    (b : Bool) (h : decode_oob_ask c s buf = .ok (b, s2, buf2)) : PayloadKeeps s s2 := by
  unfold decode_oob_ask at h
  repeat' split at h
  all_goals first
    | (cases h; done)
    | (cases h; exact PayloadKeeps.keeps_of_eq rfl rfl rfl rfl)

theorem decode_oob_learn_keeps (col : Collab) (s s2 : XCodecPipePair) (buf buf2 : List Nat)
    (b : Bool) (h : decode_oob_learn col s buf = .ok (b, s2, buf2)) : PayloadKeeps s s2 := by
  unfold decode_oob_learn at h
  split at h
  · cases h; exact PayloadKeeps.keeps_refl _
  split at h
  · cases h
  split at h
  · cases h
  dsimp only at h
  repeat' split at h
  all_goals first
    | (cases h; done)
    | (cases h; exact PayloadKeeps.keeps_of_eq rfl rfl rfl rfl)

theorem decode_oob_eos_keeps (s s2 : XCodecPipePair) (buf buf2 : List Nat)
    (b : Bool) (h : decode_oob_eos s buf = .ok (b, s2, buf2)) : PayloadKeeps s s2 := by
  unfold decode_oob_eos at h
  split at h
  · cases h; exact PayloadKeeps.keeps_refl _
  · cases h
    exact ⟨rfl, fun h => h, fun _ => rfl, fun h => h, fun h => h⟩

theorem decode_oob_eos_ack_keeps (s s2 : XCodecPipePair) (buf buf2 : List Nat)
    (b : Bool) (h : decode_oob_eos_ack s buf = .ok (b, s2, buf2)) : PayloadKeeps s s2 := by
  unfold decode_oob_eos_ack at h
  split at h
  · cases h; exact PayloadKeeps.keeps_refl _
  split at h
  · cases h; exact PayloadKeeps.keeps_refl _
  · rename_i hs _
    cases h
    exact ⟨rfl, fun h => h, fun h => h, fun _ => rfl, fun _ _ => by simpa using hs⟩

theorem decode_oob_step_keeps (c : Consts) (col : Collab) (s s2 : XCodecPipePair)
    (buf buf2 : List Nat) (b : Bool) (h : decode_oob_step c col s buf = .ok (b, s2, buf2)) :
    PayloadKeeps s s2 := by
  unfold decode_oob_step at h
  split at h
  · cases h
  split at h
  · cases h; exact PayloadKeeps.keeps_refl _
  split at h
  · cases h; exact PayloadKeeps.keeps_refl _
  split at h
  · cases h
  unfold decode_oob_op at h
  split at h
  · exact decode_oob_hello_keeps col s s2 _ _ b h
  split at h
  · exact decode_oob_ask_keeps c s s2 _ _ b h
  split at h
  · exact decode_oob_learn_keeps col s s2 _ _ b h
  split at h
  · exact decode_oob_eos_keeps s s2 _ _ b h
  split at h
  · exact decode_oob_eos_ack_keeps s s2 _ _ b h
  · cases h; exact PayloadKeeps.keeps_refl _

theorem decode_oob_loop_keeps (c : Consts) (col : Collab) (fuel : Nat)
    (s : XCodecPipePair) (buf : List Nat) (r : Bool × XCodecPipePair)
    (h : decode_oob_loop c col fuel s buf = .ok r) : PayloadKeeps s r.2 := by
  induction fuel generalizing s buf with
  | zero =>
    unfold decode_oob_loop at h
    split at h
    · cases h; exact PayloadKeeps.keeps_refl _
    · cases h
  | succ n ih =>
    unfold decode_oob_loop at h
    split at h
    · cases h; exact PayloadKeeps.keeps_refl _
    split at h
    · cases h
    · rename_i s2 buf2 hstep
      cases h
      exact decode_oob_step_keeps c col s s2 buf _ false hstep
    · rename_i s2 buf2 hstep
      exact (decode_oob_step_keeps c col s s2 buf _ true hstep).keeps_trans (ih s2 buf2 h)

theorem decoder_consume_decode_keeps (c : Consts) (col : Collab) (s : XCodecPipePair)
    (r : LoopExit × XCodecPipePair) (h : decoder_consume_decode c col s = .ok r) :
    PayloadKeeps s r.2 := by
  unfold decoder_consume_decode at h
  split at h
  · cases h; exact PayloadKeeps.keeps_refl _
  split at h
  · cases h; exact PayloadKeeps.keeps_refl _
  split at h
  · dsimp only at h
    repeat' split at h
    all_goals first
      | (cases h; done)
      | (cases h; exact PayloadKeeps.keeps_of_eq rfl rfl rfl rfl)
  · cases h

theorem decoder_consume_payload_keeps (c : Consts) (col : Collab) (s : XCodecPipePair)
    (op : Nat) (data : List Nat) (r : LoopExit × XCodecPipePair)
    (h : decoder_consume_payload c col s op data = .ok r) : PayloadKeeps s r.2 := by
  unfold decoder_consume_payload at h
  split at h
  · split at h
    · cases h
    · rename_i s2 hd
      cases h
      exact (decode_oob_loop_keeps c col _ s data _ hd).keeps_trans
        (PayloadKeeps.keeps_of_eq rfl rfl rfl rfl)
    · rename_i s2 hd
      exact (decode_oob_loop_keeps c col _ s data _ hd).keeps_trans
        (decoder_consume_decode_keeps c col s2 r h)
  · exact (PayloadKeeps.keeps_of_eq rfl rfl rfl rfl :
      PayloadKeeps s { s with decoder_frame_buffer_ := s.decoder_frame_buffer_ ++ data }).keeps_trans
      (decoder_consume_decode_keeps c col _ r h)

theorem decoder_consume_step_flags (c : Consts) (col : Collab) (s : XCodecPipePair)
    (r : LoopExit × XCodecPipePair) (h : decoder_consume_step c col s = .ok r) :
    FlagsLe s r.2 := by
  unfold decoder_consume_step at h
  split at h
  · cases h; exact FlagsLe.flags_refl _
  split at h
  · cases h
  repeat' split at h
  all_goals first
    | (cases h; done)
    | (cases h; exact FlagsLe.flags_refl _)
    | exact (decoder_consume_payload_keeps c col _ _ _ r h).2

theorem decoder_consume_loop_flags (c : Consts) (col : Collab) (fuel : Nat)
    (s : XCodecPipePair) (r : LoopExit × XCodecPipePair)
    (h : decoder_consume_loop c col fuel s = .ok r) : FlagsLe s r.2 := by
  induction fuel generalizing s with
  | zero =>
    unfold decoder_consume_loop at h
    split at h
    · cases h; exact FlagsLe.flags_refl _
    · cases h
  | succ n ih =>
    unfold decoder_consume_loop at h
    split at h
    · cases h; exact FlagsLe.flags_refl _
    split at h
    · cases h
    · rename_i s2 hstep
      cases h
      exact decoder_consume_step_flags c col s _ hstep
    · rename_i s2 hstep
      exact (decoder_consume_step_flags c col s _ hstep).flags_trans (ih s2 h)

theorem decoder_consume_eos_flags (c : Consts) (s s2 : XCodecPipePair)
    (h : decoder_consume_eos c s = .ok s2) : FlagsLe s s2 := by
  unfold decoder_consume_eos at h
  repeat' split at h
  all_goals first
    | (cases h; done)
    | (cases h; exact FlagsLe.flags_refl _)

theorem decoder_consume_flags (c : Consts) (col : Collab) (s s2 : XCodecPipePair)
    (buf : List Nat) (h : decoder_consume c col s buf = .ok s2) : FlagsLe s s2 := by
  unfold decoder_consume at h
  split at h
  · cases h; exact FlagsLe.flags_refl _
  show FlagsLe { s with decoder_buffer_ := s.decoder_buffer_ ++ buf } s2
  split at h
  · cases h
  · rename_i s3 hl
    cases h
    exact decoder_consume_loop_flags c col _ _ _ hl
  · rename_i s3 hl
    exact (decoder_consume_loop_flags c col _ _ _ hl).flags_trans (decoder_consume_eos_flags c s3 s2 h)

theorem encoder_send_flags (c : Consts) (col : Collab) (s s2 : XCodecPipePair)
    (output buf : List Nat) (h : encoder_send c col s output buf = .ok s2) :
    s2.decoder_received_eos_ = s.decoder_received_eos_ ∧
    s2.decoder_received_eos_ack_ = s.decoder_received_eos_ack_ ∧
    (s.encoder_sent_eos_ = true → s2.encoder_sent_eos_ = true) := by
  unfold encoder_send at h
  split at h
  · dsimp only at h
    repeat' split at h
    all_goals first
      | (cases h; done)
      | (cases h; exact ⟨rfl, rfl, fun h => h⟩)
  · split at h
    · cases h
    · cases h
      exact ⟨rfl, rfl, fun _ => rfl⟩

theorem encoder_consume_flags (c : Consts) (col : Collab) (s s2 : XCodecPipePair)
    (buf : List Nat) (h : encoder_consume c col s buf = .ok s2) : FlagsLe s s2 := by
  unfold encoder_consume at h
  split at h
  · cases h
  rename_i hs
  have hs2 : s.encoder_sent_eos_ = false := by simpa using hs
  have key : ∀ (s1 : XCodecPipePair) (output : List Nat),
      encoder_send c col s1 output buf = .ok s2 →
      s1.decoder_received_eos_ = s.decoder_received_eos_ →
      s1.decoder_received_eos_ack_ = s.decoder_received_eos_ack_ → FlagsLe s s2 := by
    intro s1 output hh e2 e3
    obtain ⟨h1, h2, -⟩ := encoder_send_flags c col s1 s2 output buf hh
    rw [e2] at h1
    rw [e3] at h2
    refine ⟨fun h => ?_, fun h => ?_, fun h => ?_, fun h4 h5 => ?_⟩
    · rw [hs2] at h; cases h
    · rw [h1]; exact h
    · rw [h2]; exact h
    · rw [h2] at h5
      have := h4 h5
      rw [hs2] at this; cases this
  split at h
  · split at h
    · cases h; exact FlagsLe.flags_refl _
    split at h
    · cases h; exact FlagsLe.flags_refl _
    split at h
    · cases h
    · rename_i extra _ s1 output hh
      unfold encoder_hello at hh
      dsimp only at hh
      repeat' split at hh
      all_goals first
        | (cases hh; done)
        | (cases hh; exact key _ _ h rfl rfl)
  · exact key s [] h rfl rfl

theorem call_flags (c : Consts) (col : Collab) (s s2 : XCodecPipePair) (k : Call)
    (h : s.call c col k = .ok s2) : FlagsLe s s2 := by
  cases k with
  | encoder_consume buf => exact encoder_consume_flags c col s s2 buf h
  | decoder_consume buf => exact decoder_consume_flags c col s s2 buf h

theorem run_flags (c : Consts) (col : Collab) (ks : List Call) (s s2 : XCodecPipePair)
    (h : s.run c col ks = .ok s2) : FlagsLe s s2 := by
  induction ks generalizing s with
  | nil =>
    simp only [XCodecPipePair.run, Except.ok.injEq] at h
    subst h; exact FlagsLe.flags_refl _
  | cons k ks ih =>
    unfold XCodecPipePair.run at h
    split at h
    · cases h
    · rename_i s3 hk
      exact (call_flags c col s s3 k hk).flags_trans (ih s3 h)

/-! ## Shutdown handshake -/

/-- C15. Shutdown handshake acceptance: `decode_oob` accepts an `EOS` message iff
`decoder_received_eos_` is false, and an `EOS_ACK` message iff `encoder_sent_eos_` is true
and `decoder_received_eos_ack_` is false; on acceptance exactly the corresponding flag
becomes true, otherwise `decode_oob` returns false and the state is unchanged. Hence in
every state reached from construction by calls of `encoder_consume` and `decoder_consume`,
`decoder_received_eos_ack_` implies `encoder_sent_eos_`, and over any such calls no flag
goes back to false. -/
theorem shutdown_handshake (c : Consts) (col : Collab) (hd : c.opsDistinct) :
    (∀ s : XCodecPipePair, decode_oob c col s [c.XCODEC_MAGIC, c.XCODEC_OP_EOS] =
      if s.decoder_received_eos_ = false then
        .ok (true, { s with decoder_received_eos_ := true })
      else .ok (false, s)) ∧
    (∀ s : XCodecPipePair, decode_oob c col s [c.XCODEC_MAGIC, c.XCODEC_OP_EOS_ACK] =
      if s.encoder_sent_eos_ = true ∧ s.decoder_received_eos_ack_ = false then
        .ok (true, { s with decoder_received_eos_ack_ := true })
      else .ok (false, s)) ∧
    (∀ registry uuid ks s, (XCodecPipePair.init registry uuid).run c col ks = .ok s →
      s.decoder_received_eos_ack_ = true → s.encoder_sent_eos_ = true) ∧
    (∀ (s : XCodecPipePair) ks s2, s.run c col ks = .ok s2 →
      (s.encoder_sent_eos_ = true → s2.encoder_sent_eos_ = true) ∧
      (s.decoder_received_eos_ = true → s2.decoder_received_eos_ = true) ∧
      (s.decoder_received_eos_ack_ = true → s2.decoder_received_eos_ack_ = true)) := by
  obtain ⟨-, -, h3, h4, -, h6, h7, h8, h9, h10, -⟩ := opsDistinct_ne hd
  refine ⟨fun s => ?_, fun s => ?_, ?_, ?_⟩
  · have hstep : decode_oob_step c col s [c.XCODEC_MAGIC, c.XCODEC_OP_EOS] =
        decode_oob_eos s [] := by
      rw [decode_oob_step_op]
      simp [decode_oob_op, h3.symm, h6.symm, h8.symm]
    cases he : s.decoder_received_eos_
    · exact decode_oob_single c col s _ _ true (by simp)
        (by rw [hstep]; simp [decode_oob_eos, he])
    · exact decode_oob_single c col s _ _ false (by simp)
        (by rw [hstep]; simp [decode_oob_eos, he])
  · have hstep : decode_oob_step c col s [c.XCODEC_MAGIC, c.XCODEC_OP_EOS_ACK] =
        decode_oob_eos_ack s [] := by
      rw [decode_oob_step_op]
      simp [decode_oob_op, h4.symm, h7.symm, h9.symm, h10.symm]
    cases he : s.encoder_sent_eos_ <;> cases ha : s.decoder_received_eos_ack_
    · exact decode_oob_single c col s _ _ false (by simp)
        (by rw [hstep]; simp [decode_oob_eos_ack, he])
    · exact decode_oob_single c col s _ _ false (by simp)
        (by rw [hstep]; simp [decode_oob_eos_ack, he])
    · exact decode_oob_single c col s _ _ true (by simp)
        (by rw [hstep]; simp [decode_oob_eos_ack, he, ha])
    · exact decode_oob_single c col s _ _ false (by simp)
        (by rw [hstep]; simp [decode_oob_eos_ack, he, ha])
  · intro registry uuid ks s h
    exact (run_flags c col ks _ s h).2.2.2 (fun h => Bool.noConfusion h)
  · intro s ks s2 h
    have := run_flags c col ks s s2 h
    exact ⟨this.1, this.2.1, this.2.2.1⟩

theorem shutdown_handshake_witness :
    sampleConsts.opsDistinct ∧
    decode_oob sampleConsts sampleCollab samplePeer
        [sampleConsts.XCODEC_MAGIC, sampleConsts.XCODEC_OP_EOS] =
      (if samplePeer.decoder_received_eos_ = false then
        .ok (true, { samplePeer with decoder_received_eos_ := true })
      else .ok (false, samplePeer)) :=
  ⟨sampleConsts_opsDistinct,
    (shutdown_handshake sampleConsts sampleCollab sampleConsts_opsDistinct).1 samplePeer⟩

/-! ## Out-of-band messages cut short -/

/-- The first message of a non-empty payload. -/
theorem decode_oob_first (c : Consts) (col : Collab) (s : XCodecPipePair) (buf : List Nat)
    (hne : buf ≠ []) :
    decode_oob c col s buf =
      match decode_oob_step c col s buf with
      | .error f => .error f
      | .ok (false, s2, _) => .ok (false, s2)
      | .ok (true, s2, rest) => decode_oob_loop c col (buf.length - 1) s2 rest := by
  unfold decode_oob
  obtain ⟨n, hn⟩ : ∃ n, buf.length = n + 1 := by
    cases buf with
    | nil => exact absurd rfl hne
    | cons x xs => exact ⟨xs.length, rfl⟩
  rw [hn, decode_oob_loop, if_neg hne]
  rfl

/-- C18 (failing inputs). A payload that ends right after `MAGIC` makes `decode_oob` move
the operation byte out of a one-byte buffer; an `ASK` with fewer than eight hash bytes and
a `LEARN` with fewer than 64 segment bytes make it extract and copy out past the end. Only
a `HELLO` cut short makes it return false. -/
theorem decode_oob_truncated (c : Consts) (col : Collab) (s : XCodecPipePair) :
    decode_oob c col s [c.XCODEC_MAGIC] = .error Fault.bounds ∧
    (c.opsDistinct → s.encoder_ ≠ none → ∀ hb : List Nat, hb.length < 8 →
      decode_oob c col s (c.XCODEC_MAGIC :: c.XCODEC_OP_ASK :: hb) = .error Fault.bounds) ∧
    (c.opsDistinct → s.decoder_cache_ ≠ none → ∀ S : List Nat, S.length < 64 →
      decode_oob c col s (c.XCODEC_MAGIC :: c.XCODEC_OP_LEARN :: S) = .error Fault.bounds) ∧
    (s.decoder_cache_ = none →
      decode_oob c col s [c.XCODEC_MAGIC, c.XCODEC_OP_HELLO] = .ok (false, s)) ∧
    (s.decoder_cache_ = none → ∀ (len : Nat) (u : List Nat), u.length < len →
      decode_oob c col s (c.XCODEC_MAGIC :: c.XCODEC_OP_HELLO :: len :: u) =
        .ok (false, s)) := by
  refine ⟨?_, ?_, ?_, ?_, ?_⟩
  · rw [decode_oob_first c col s _ (by simp)]
    simp [decode_oob_step, Buffer.peek?, Buffer.moveout?]
  · intro hd he hb hl
    obtain ⟨h1, -⟩ := opsDistinct_ne hd
    rw [decode_oob_first c col s _ (by simp), decode_oob_step_op]
    have hx : Buffer.extract? hb 0 8 = .error Fault.bounds := by
      simp only [Buffer.extract?, Nat.zero_add]
      rw [if_neg (by omega)]
    simp [decode_oob_op, h1.symm, decode_oob_ask, he, hx]
  · intro hd hc S hl
    obtain ⟨-, h2, -, -, h5, -⟩ := opsDistinct_ne hd
    rw [decode_oob_first c col s _ (by simp), decode_oob_step_op]
    have hx : Buffer.copyout? S 0 XCODEC_SEGMENT_LENGTH = .error Fault.bounds := by
      simp only [Buffer.copyout?, Nat.zero_add, XCODEC_SEGMENT_LENGTH]
      rw [if_neg (by omega)]
    obtain ⟨uuid, hu⟩ : ∃ uuid, s.decoder_cache_ = some uuid := by
      cases h : s.decoder_cache_ with
      | none => exact absurd h hc
      | some u => exact ⟨u, rfl⟩
    simp [decode_oob_op, h2.symm, h5.symm, decode_oob_learn, hu, hx]
  · intro hc
    rw [decode_oob_first c col s _ (by simp), decode_oob_step_op]
    simp [decode_oob_op, decode_oob_hello, hc]
  · intro hc len u hl
    rw [decode_oob_first c col s _ (by simp), decode_oob_step_op]
    simp [decode_oob_op, decode_oob_hello, hc, Buffer.peek?, Buffer.skip?, Buffer.skip, hl]

/-! ## Frame header checks of `decoder_consume` -/

theorem frame_header_ok (buf : List Nat) (h : 4 ≤ buf.length) :
    frame_header buf = .ok (((buf.drop 0).take 1).headD 0, ((buf.drop 1).take 1).headD 0,
      be16_decode ((buf.drop (1 + 1)).take 2)) := by
  unfold frame_header Buffer.extract?
  rw [if_pos (by omega)]
  dsimp only
  rw [if_pos (by omega)]
  dsimp only
  rw [if_pos (by omega)]

theorem moveout_ok (buf : List Nat) (offset n : Nat) (h : offset + n ≤ buf.length) :
    Buffer.moveout? buf offset n = .ok ((buf.drop offset).take n, buf.drop (offset + n)) := by
  unfold Buffer.moveout? Buffer.moveout
  rw [if_pos h]

/-- One iteration of the frame loop on at least four buffered bytes, by cases on the header
checks. -/
theorem decoder_consume_step_cases (c : Consts) (col : Collab) (s : XCodecPipePair)
    (magic op len : Nat) (h4 : 4 ≤ s.decoder_buffer_.length)
    (hh : frame_header s.decoder_buffer_ = .ok (magic, op, len)) :
    (HeaderViolation c s magic op len →
      decoder_consume_step c col s = .ok (.returned, s.emit .decoder_error)) ∧
    (¬ HeaderViolation c s magic op len → s.decoder_buffer_.length < 4 + len →
      decoder_consume_step c col s = .ok (.returned, s)) ∧
    (¬ HeaderViolation c s magic op len → 4 + len ≤ s.decoder_buffer_.length →
      decoder_consume_step c col s =
        decoder_consume_payload c col
          { s with decoder_buffer_ := s.decoder_buffer_.drop (4 + len) } op
          ((s.decoder_buffer_.drop 4).take len)) := by
  have h0 : ¬ s.decoder_buffer_.length < 1 + 1 + 2 := by omega
  unfold HeaderViolation
  refine ⟨fun hv => ?_, fun hv hl => ?_, fun hv hl => ?_⟩
  · unfold decoder_consume_step
    rw [if_neg h0, hh]
    dsimp only
    by_cases hm : magic ≠ c.XCODEC_MAGIC
    · rw [if_pos hm]
    rw [if_neg hm]
    by_cases h1 : op = c.XCODEC_OP_FRAME ∧ s.decoder_ = none
    · rw [if_pos h1]
    rw [if_neg h1]
    by_cases h2 : op ≠ c.XCODEC_OP_FRAME ∧ op ≠ c.XCODEC_OP_OOB
    · rw [if_pos h2]
    rw [if_neg h2]
    have h3 : len = 0 ∨ len > XCODEC_FRAME_LENGTH := by tauto
    rw [if_pos h3]
  · unfold decoder_consume_step
    rw [if_neg h0, hh]
    dsimp only
    rw [if_neg (by tauto), if_neg (by tauto), if_neg (by tauto), if_neg (by tauto),
      if_pos (by omega)]
  · unfold decoder_consume_step
    rw [if_neg h0, hh]
    dsimp only
    rw [if_neg (by tauto), if_neg (by tauto), if_neg (by tauto), if_neg (by tauto),
      if_neg (by omega), moveout_ok _ _ _ (by omega)]

theorem decoder_consume_returned (c : Consts) (col : Collab) (s s2 : XCodecPipePair)
    (buf : List Nat) (hb : buf ≠ [])
    (h : decoder_consume_step c col { s with decoder_buffer_ := s.decoder_buffer_ ++ buf } =
      .ok (.returned, s2)) :
    decoder_consume c col s buf = .ok s2 := by
  unfold decoder_consume
  rw [if_neg hb]
  obtain ⟨n, hn⟩ : ∃ n, (s.decoder_buffer_ ++ buf).length = n + 1 := by
    cases hbb : s.decoder_buffer_ ++ buf with
    | nil => simp at hbb; exact absurd hbb.2 hb
    | cons x xs => exact ⟨xs.length, rfl⟩
  have hne : s.decoder_buffer_ ++ buf ≠ [] := by
    intro h0; rw [h0] at hn; cases hn
  rw [hn, decoder_consume_loop]
  dsimp only
  rw [if_neg hne, h]

set_option maxRecDepth 100000 in
/-- C11 (counterexample). A complete `OOB` frame whose header passes every check (magic,
operation `OP_OOB`, length 1) and whose payload is the byte 0 sends `decoder_consume` to
fatal error handling all the same: `decode_oob` returns false on the payload. -/
theorem frame_rejection_counterexample :
    frame_header [0xf1, 1, 0, 1, 0] = .ok (0xf1, 1, 1) ∧
    ¬ HeaderViolation sampleConsts samplePeer 0xf1 1 1 ∧
    decoder_consume sampleConsts sampleCollab samplePeer [0xf1, 1, 0, 1, 0] =
      .ok { samplePeer with events := [Event.decoder_error] } := by
  refine ⟨rfl, ?_, rfl⟩
  unfold HeaderViolation
  decide

/-- C11 (amended). With at least four bytes buffered, `decoder_consume` sends the frame at
the head of the buffer to fatal error handling without consuming it if and only if its
first byte is not `MAGIC`, or its opcode is neither `OP_FRAME` nor `OP_OOB`, or its opcode
is `OP_FRAME` while no decoder has been bound, or its big-endian length is 0 or greater
than `FRAME_LENGTH`; the call then ends there, with nothing appended to the frame buffer
and nothing produced but the error. A frame that passes these checks is waited for while
incomplete and is otherwise handed to the payload dispatch, which alone can still fail. -/
theorem frame_header_rejection (c : Consts) (col : Collab) (s : XCodecPipePair)
    (buf : List Nat) (hb : buf ≠ []) (h4 : 4 ≤ (s.decoder_buffer_ ++ buf).length) :
    ∃ magic op len, frame_header (s.decoder_buffer_ ++ buf) = .ok (magic, op, len) ∧
      (HeaderViolation c s magic op len ↔
        decoder_consume_step c col { s with decoder_buffer_ := s.decoder_buffer_ ++ buf } =
          .ok (.returned, XCodecPipePair.emit
            { s with decoder_buffer_ := s.decoder_buffer_ ++ buf } .decoder_error)) ∧
      (HeaderViolation c s magic op len →
        decoder_consume c col s buf = .ok (XCodecPipePair.emit
          { s with decoder_buffer_ := s.decoder_buffer_ ++ buf } .decoder_error)) ∧
      (¬ HeaderViolation c s magic op len →
        decoder_consume_step c col { s with decoder_buffer_ := s.decoder_buffer_ ++ buf } =
          if (s.decoder_buffer_ ++ buf).length < 4 + len then
            .ok (.returned, { s with decoder_buffer_ := s.decoder_buffer_ ++ buf })
          else
            decoder_consume_payload c col
              { s with decoder_buffer_ := (s.decoder_buffer_ ++ buf).drop (4 + len) } op
              (((s.decoder_buffer_ ++ buf).drop 4).take len)) := by
  refine ⟨_, _, _, frame_header_ok _ h4, ?_⟩
  obtain ⟨k1, k2, k3⟩ := decoder_consume_step_cases c col
    { s with decoder_buffer_ := s.decoder_buffer_ ++ buf } _ _ _ h4 (frame_header_ok _ h4)
  dsimp only at k1 k2 k3
  refine ⟨⟨fun hv => k1 hv, fun hs => ?_⟩, fun hv => ?_, fun hv => ?_⟩
  · by_contra hv
    by_cases hl : (s.decoder_buffer_ ++ buf).length <
        4 + be16_decode (((s.decoder_buffer_ ++ buf).drop (1 + 1)).take 2)
    · rw [k2 hv hl] at hs
      simp only [Except.ok.injEq, Prod.mk.injEq, true_and] at hs
      have := congrArg (fun x => x.events.length) hs
      simp [XCodecPipePair.emit] at this
    · rw [k3 hv (by omega)] at hs
      have hk := (decoder_consume_payload_keeps c col _ _ _ _ hs).1
      dsimp only [XCodecPipePair.emit] at hk
      have := congrArg List.length hk
      rw [List.length_drop] at this
      omega
  · exact decoder_consume_returned c col s _ buf hb (k1 hv)
  · split
    · rename_i hl
      exact k2 hv hl
    · rename_i hl
      exact k3 hv (by omega)

theorem frame_header_rejection_witness :
    [0xf1, 7, 0, 1, 0] ≠ [] ∧ 4 ≤ (samplePeer.decoder_buffer_ ++ [0xf1, 7, 0, 1, 0]).length ∧
    ∃ magic op len,
      frame_header (samplePeer.decoder_buffer_ ++ [0xf1, 7, 0, 1, 0]) = .ok (magic, op, len) ∧
      (HeaderViolation sampleConsts samplePeer magic op len ↔
        decoder_consume_step sampleConsts sampleCollab
          { samplePeer with decoder_buffer_ := samplePeer.decoder_buffer_ ++ [0xf1, 7, 0, 1, 0] } =
          .ok (.returned, XCodecPipePair.emit
            { samplePeer with
              decoder_buffer_ := samplePeer.decoder_buffer_ ++ [0xf1, 7, 0, 1, 0] }
            .decoder_error)) :=
  ⟨by decide, by decide,
    match frame_header_rejection sampleConsts sampleCollab samplePeer [0xf1, 7, 0, 1, 0]
      (by decide) (by decide) with
    | ⟨magic, op, len, h1, h2, _⟩ => ⟨magic, op, len, h1, h2⟩⟩

/-! ## Encoder side of the pipe pair: lemmas -/

theorem escape_eq_nil (esc : Nat) (p : Nat → Bool) (bs : List Nat)
    (h : Buffer.escape esc p bs = []) : bs = [] := by
  cases bs with
  | nil => rfl
  | cons b bs =>
    unfold Buffer.escape at h
    split at h <;> cases h

theorem serialize_eq_nil (c : Consts) (ts : List Token) (h : serialize c ts = []) :
    sourceOf ts = [] := by
  induction ts with
  | nil => rfl
  | cons t ts ih =>
    simp only [serialize, List.append_eq_nil] at h
    obtain ⟨h1, h2⟩ := h
    simp only [sourceOf, ih h2, List.append_nil]
    cases t with
    | verbatim bs => exact h1
    | declare st hash seg => simp [Token.bytes] at h1
    | literal off bs => exact escape_eq_nil _ _ _ h1
    | backref st so hash seg b => simp [Token.bytes] at h1
    | hashref st so hash seg => simp [Token.bytes] at h1

/-- The assertion `ASSERT(!encoded.empty())` of `encoder_consume`: a non-empty input never
encodes to nothing. -/
theorem encodeRun_output_ne (c : Consts) (H : List Nat → Nat) (enc : XCodecEncoder)
    (buf : List Nat) (hb : buf ≠ []) : (encodeRun c H enc [] buf).output ≠ [] := by
  have hf := encodeRun_facts c H enc [] buf
  intro h
  have h2 := hf.output_eq
  rw [h, List.nil_append] at h2
  have h3 := serialize_eq_nil c _ h2.symm
  rw [hf.cover] at h3
  exact hb h3

theorem framesOf_ne_nil (c : Consts) (ps : List (List Nat)) (h : ps ≠ []) :
    framesOf c ps ≠ [] := by
  cases ps with
  | nil => exact absurd rfl h
  | cons p ps => simp [framesOf, frameOf]

/-- The non-empty branch of the second half of `encoder_consume`. -/
theorem encoder_send_data (c : Consts) (col : Collab) (s : XCodecPipePair)
    (output buf : List Nat) (hb : buf ≠ []) :
    ∃ ps : List (List Nat), ps ≠ [] ∧
      (∀ p ∈ ps, 1 ≤ p.length ∧ p.length ≤ XCODEC_FRAME_LENGTH) ∧
      payloadOf ps = (encodeRun c col.H
        { database_ := s.cacheOf s.codec_uuid, backref_ := s.encoder_.getD XCBackref.empty }
        [] buf).output ∧
      encoder_send c col s output buf =
        .ok (XCodecPipePair.emit
          { s.setCache s.codec_uuid (encodeRun c col.H
              { database_ := s.cacheOf s.codec_uuid,
                backref_ := s.encoder_.getD XCBackref.empty } [] buf).encoder.database_ with
            encoder_ := some (encodeRun c col.H
              { database_ := s.cacheOf s.codec_uuid,
                backref_ := s.encoder_.getD XCBackref.empty } [] buf).encoder.backref_ }
          (Event.encoder_produce (output ++ framesOf c ps))) := by
  have hne := encodeRun_output_ne c col.H
    { database_ := s.cacheOf s.codec_uuid, backref_ := s.encoder_.getD XCBackref.empty } buf hb
  obtain ⟨ps, h1, h2, -, h4, -⟩ := encode_frame_loop_spec c _ output _ (le_refl (encodeRun c col.H
    { database_ := s.cacheOf s.codec_uuid, backref_ := s.encoder_.getD XCBackref.empty }
    [] buf).output.length)
  have hps : ps ≠ [] := by
    intro h0; rw [h0] at h1; exact hne h1.symm
  refine ⟨ps, hps, h4, h1, ?_⟩
  have hfr : encode_frame c output (encodeRun c col.H
      { database_ := s.cacheOf s.codec_uuid, backref_ := s.encoder_.getD XCBackref.empty }
      [] buf).output = output ++ framesOf c ps := h2
  unfold encoder_send
  rw [if_pos hb]
  dsimp only
  rw [if_neg hne, hfr, if_neg (by simp [framesOf_ne_nil c ps hps])]

/-- An empty buffer given to `encoder_consume` before `EOS` has been sent. -/
theorem encoder_consume_nil (c : Consts) (col : Collab) (s : XCodecPipePair)
    (h : s.encoder_sent_eos_ = false) :
    encoder_consume c col s [] =
      .ok (if s.encoder_ = none then s.emit (Event.encoder_produce [])
           else { s.emit (Event.encoder_produce
                    [c.XCODEC_MAGIC, c.XCODEC_OP_OOB, 0, 2, c.XCODEC_MAGIC, c.XCODEC_OP_EOS])
                  with encoder_sent_eos_ := true }) := by
  unfold encoder_consume
  by_cases he : s.encoder_ = none
  · simp [h, he]
  · simp [h, he, encoder_send, encode_oob, be16, XCODEC_FRAME_LENGTH]

/-- A non-empty buffer given to `encoder_consume` once the encoder exists. -/
theorem encoder_consume_later (c : Consts) (col : Collab) (s : XCodecPipePair)
    (buf : List Nat) (he : s.encoder_ ≠ none) (hs : s.encoder_sent_eos_ = false)
    (hb : buf ≠ []) :
    ∃ s2, encoder_consume c col s buf = .ok s2 ∧ s2.encoder_ ≠ none ∧
      s2.encoder_sent_eos_ = false ∧
      ∃ ps : List (List Nat), ps ≠ [] ∧
        (∀ p ∈ ps, 1 ≤ p.length ∧ p.length ≤ XCODEC_FRAME_LENGTH) ∧
        payloadOf ps = (encodeRun c col.H
          { database_ := s.cacheOf s.codec_uuid, backref_ := s.encoder_.getD XCBackref.empty }
          [] buf).output ∧
        s2.events = s.events ++ [Event.encoder_produce (framesOf c ps)] := by
  obtain ⟨ps, h1, h2, h3, h4⟩ := encoder_send_data c col s [] buf hb
  unfold encoder_consume
  rw [hs, if_neg (by simp), if_neg he, h4]
  exact ⟨_, rfl, by simp [XCodecPipePair.emit], hs, ps, h1, h2, h3, rfl⟩

/-- The first non-empty buffer given to `encoder_consume`, when `uuid_encode` yields the
sixteen bytes `u`. -/
theorem encoder_consume_first (c : Consts) (col : Collab) (s : XCodecPipePair)
    (buf u : List Nat) (he : s.encoder_ = none) (hs : s.encoder_sent_eos_ = false)
    (hb : buf ≠ []) (hu : col.uuid_encode s.codec_uuid = some u) (hl : u.length = 16) :
    ∃ s2, encoder_consume c col s buf = .ok s2 ∧ s2.encoder_ ≠ none ∧
      s2.encoder_sent_eos_ = false ∧
      ∃ ps : List (List Nat), ps ≠ [] ∧
        (∀ p ∈ ps, 1 ≤ p.length ∧ p.length ≤ XCODEC_FRAME_LENGTH) ∧
        payloadOf ps = (encodeRun c col.H
          { database_ := s.cacheOf s.codec_uuid, backref_ := XCBackref.empty } [] buf).output ∧
        s2.events = s.events ++ [Event.encoder_produce
          ([c.XCODEC_MAGIC, c.XCODEC_OP_OOB, 0, 19, c.XCODEC_MAGIC, c.XCODEC_OP_HELLO, 16] ++ u ++
            framesOf c ps)] := by
  have hh : encoder_hello c s u = .ok ({ s with encoder_ := some XCBackref.empty },
      [c.XCODEC_MAGIC, c.XCODEC_OP_OOB, 0, 19, c.XCODEC_MAGIC, c.XCODEC_OP_HELLO, 16] ++ u) := by
    simp [encoder_hello, hl, UUID_SIZE, encode_oob, XCODEC_FRAME_LENGTH, be16]
  obtain ⟨ps, h1, h2, h3, h4⟩ := encoder_send_data c col
    { s with encoder_ := some XCBackref.empty }
    ([c.XCODEC_MAGIC, c.XCODEC_OP_OOB, 0, 19, c.XCODEC_MAGIC, c.XCODEC_OP_HELLO, 16] ++ u) buf hb
  unfold encoder_consume
  rw [hs, if_neg (by simp), if_pos he, if_neg hb]
  simp only [hu, hh]
  rw [h4]
  exact ⟨_, rfl, by simp [XCodecPipePair.emit], hs, ps, h1, h2, h3, rfl⟩

/-- Calls of `encoder_consume` once the encoder exists: `FRAME`s only, and at most a
closing `EOS`. -/
theorem run_encoder_later (c : Consts) (col : Collab) (bufs : List (List Nat))
    (s s2 : XCodecPipePair) (he : s.encoder_ ≠ none)
    (h : s.run c col (bufs.map Call.encoder_consume) = .ok s2) :
    ∃ rest, s2.events = s.events ++ rest ∧
      ∀ e ∈ rest, Event.FramesOnly c e ∨ Event.EosOnly c e := by
  induction bufs generalizing s with
  | nil =>
    simp only [List.map_nil, XCodecPipePair.run, Except.ok.injEq] at h
    subst h
    exact ⟨[], by simp, by simp⟩
  | cons buf bufs ih =>
    simp only [List.map_cons, XCodecPipePair.run, XCodecPipePair.call] at h
    cases hs : s.encoder_sent_eos_ with
    | true =>
      have : encoder_consume c col s buf = .error Fault.assertion := by
        unfold encoder_consume; rw [hs]; rfl
      rw [this] at h; cases h
    | false =>
      by_cases hb : buf = []
      · subst hb
        rw [encoder_consume_nil c col s hs, if_neg he] at h
        obtain ⟨rest, h1, h2⟩ := ih _ (by simpa [XCodecPipePair.emit] using he) h
        refine ⟨Event.encoder_produce
          [c.XCODEC_MAGIC, c.XCODEC_OP_OOB, 0, 2, c.XCODEC_MAGIC, c.XCODEC_OP_EOS] :: rest,
          ?_, ?_⟩
        · rw [h1]; simp [XCodecPipePair.emit]
        · intro e hm
          rcases List.mem_cons.1 hm with rfl | hm
          · exact Or.inr rfl
          · exact h2 e hm
      · obtain ⟨s3, h1, h2, -, ps, k1, k2, -, k4⟩ := encoder_consume_later c col s buf he hs hb
        rw [h1] at h
        obtain ⟨rest, r1, r2⟩ := ih s3 h2 h
        refine ⟨Event.encoder_produce (framesOf c ps) :: rest, ?_, ?_⟩
        · rw [r1, k4]; simp
        · intro e hm
          rcases List.mem_cons.1 hm with rfl | hm
          · exact Or.inl ⟨ps, k1, k2, rfl⟩
          · exact r2 e hm

/-- Calls of `encoder_consume` from a state without encoder: nothing reaches the wire until
one buffer is produced that starts with the `HELLO`; `FRAME`s come in that buffer and
after. -/
theorem run_encoder_first (c : Consts) (col : Collab) (bufs : List (List Nat))
    (s s2 : XCodecPipePair) (he : s.encoder_ = none) (hs : s.encoder_sent_eos_ = false)
    (h : s.run c col (bufs.map Call.encoder_consume) = .ok s2) :
    ∃ quiet rest, s2.events = s.events ++ quiet ++ rest ∧
      (∀ e ∈ quiet, Event.Quiet e) ∧
      (rest = [] ∨ ∃ u e rest2, rest = e :: rest2 ∧ Event.HelloThenFrames c u e ∧
        ∀ e2 ∈ rest2, Event.FramesOnly c e2 ∨ Event.EosOnly c e2) := by
  induction bufs generalizing s with
  | nil =>
    simp only [List.map_nil, XCodecPipePair.run, Except.ok.injEq] at h
    subst h
    exact ⟨[], [], by simp, by simp, Or.inl rfl⟩
  | cons buf bufs ih =>
    simp only [List.map_cons, XCodecPipePair.run, XCodecPipePair.call] at h
    by_cases hb : buf = []
    · subst hb
      rw [encoder_consume_nil c col s hs, if_pos he] at h
      obtain ⟨quiet, rest, h1, h2, h3⟩ := ih (s.emit (Event.encoder_produce [])) he hs h
      refine ⟨Event.encoder_produce [] :: quiet, rest, ?_, ?_, h3⟩
      · rw [h1]; simp [XCodecPipePair.emit]
      · intro e hm
        rcases List.mem_cons.1 hm with rfl | hm
        · exact Or.inl rfl
        · exact h2 e hm
    · cases hu : col.uuid_encode s.codec_uuid with
      | none =>
        have : encoder_consume c col s buf = .ok (s.emit Event.encoder_error) := by
          unfold encoder_consume
          rw [hs, if_neg (by simp), if_pos he, if_neg hb]
          simp only [hu]
        rw [this] at h
        obtain ⟨quiet, rest, h1, h2, h3⟩ := ih (s.emit Event.encoder_error) he hs h
        refine ⟨Event.encoder_error :: quiet, rest, ?_, ?_, h3⟩
        · rw [h1]; simp [XCodecPipePair.emit]
        · intro e hm
          rcases List.mem_cons.1 hm with rfl | hm
          · exact Or.inr rfl
          · exact h2 e hm
      | some u =>
        by_cases hl : u.length = 16
        · obtain ⟨s3, h1, h2, -, ps, k1, k2, -, k4⟩ :=
            encoder_consume_first c col s buf u he hs hb hu hl
          rw [h1] at h
          obtain ⟨rest, r1, r2⟩ := run_encoder_later c col bufs s3 s2 h2 h
          refine ⟨[], Event.encoder_produce
            ([c.XCODEC_MAGIC, c.XCODEC_OP_OOB, 0, 19, c.XCODEC_MAGIC, c.XCODEC_OP_HELLO, 16] ++
              u ++ framesOf c ps) :: rest, ?_, by simp,
            Or.inr ⟨u, _, rest, rfl, ⟨ps, k1, k2, rfl⟩, r2⟩⟩
          rw [r1, k4]; simp
        · exfalso
          have : encoder_consume c col s buf = .error Fault.assertion := by
            unfold encoder_consume
            rw [hs, if_neg (by simp), if_pos he, if_neg hb]
            simp only [hu]
            unfold encoder_hello
            dsimp only
            by_cases h256 : u.length % 256 = UUID_SIZE
            · rw [if_neg (by simpa using h256), if_pos]
              simp only [List.length_append, List.length_cons, List.length_nil, UUID_SIZE]
              omega
            · rw [if_pos h256]
          rw [this] at h
          cases h

/-! ## Encoder side of the pipe pair: `HELLO` and data -/

/-- C14. `HELLO` precedes data exactly once. The first non-empty buffer given to
`encoder_consume` (no encoder exists yet; `uuid_encode` yields the sixteen bytes `u`)
produces one buffer: an `OOB` frame of length 19 carrying `MAGIC, OP_HELLO, 16` and `u`,
immediately followed by the `FRAME`s whose payloads concatenate to the output of `encode`.
Every later non-empty buffer produces `FRAME`s only. So over any sequence of
`encoder_consume` calls from a state without encoder, nothing reaches the wire before one
buffer that starts with the `HELLO`, and all that follows it is `FRAME`s and at most a
closing `EOS`: at most one `HELLO`, before every `FRAME`. -/
theorem hello_precedes_data (c : Consts) (col : Collab) (s : XCodecPipePair)
    (buf u : List Nat) (he : s.encoder_ = none) (hs : s.encoder_sent_eos_ = false)
    (hb : buf ≠ []) (hu : col.uuid_encode s.codec_uuid = some u) (hl : u.length = 16) :
    (∃ s2, encoder_consume c col s buf = .ok s2 ∧ s2.encoder_ ≠ none ∧
      s2.encoder_sent_eos_ = false ∧
      ∃ ps : List (List Nat), ps ≠ [] ∧
        (∀ p ∈ ps, 1 ≤ p.length ∧ p.length ≤ XCODEC_FRAME_LENGTH) ∧
        payloadOf ps = (encode c col.H
          { database_ := s.cacheOf s.codec_uuid, backref_ := XCBackref.empty } [] buf).2.1 ∧
        s2.events = s.events ++ [Event.encoder_produce
          ([c.XCODEC_MAGIC, c.XCODEC_OP_OOB, 0, 19, c.XCODEC_MAGIC, c.XCODEC_OP_HELLO, 16] ++ u ++
            framesOf c ps)]) ∧
    (∀ (t : XCodecPipePair) (buf2 : List Nat), t.encoder_ ≠ none →
      t.encoder_sent_eos_ = false → buf2 ≠ [] →
      ∃ t2, encoder_consume c col t buf2 = .ok t2 ∧ t2.encoder_ ≠ none ∧
        t2.encoder_sent_eos_ = false ∧
        ∃ ps : List (List Nat), ps ≠ [] ∧
          (∀ p ∈ ps, 1 ≤ p.length ∧ p.length ≤ XCODEC_FRAME_LENGTH) ∧
          payloadOf ps = (encode c col.H
            { database_ := t.cacheOf t.codec_uuid,
              backref_ := t.encoder_.getD XCBackref.empty } [] buf2).2.1 ∧
          t2.events = t.events ++ [Event.encoder_produce (framesOf c ps)]) ∧
    (∀ (bufs : List (List Nat)) (t t2 : XCodecPipePair), t.encoder_ = none →
      t.encoder_sent_eos_ = false →
      t.run c col (bufs.map Call.encoder_consume) = .ok t2 →
      ∃ quiet rest, t2.events = t.events ++ quiet ++ rest ∧
        (∀ e ∈ quiet, Event.Quiet e) ∧
        (rest = [] ∨ ∃ u2 e rest2, rest = e :: rest2 ∧ Event.HelloThenFrames c u2 e ∧
          ∀ e2 ∈ rest2, Event.FramesOnly c e2 ∨ Event.EosOnly c e2)) :=
  ⟨encoder_consume_first c col s buf u he hs hb hu hl,
    fun t buf2 h1 h2 h3 => encoder_consume_later c col t buf2 h1 h2 h3,
    fun bufs t t2 h1 h2 h3 => run_encoder_first c col bufs t t2 h1 h2 h3⟩

set_option maxRecDepth 100000 in
theorem hello_precedes_data_witness :
    sampleFresh.encoder_ = none ∧ sampleFresh.encoder_sent_eos_ = false ∧
    [1, 2, 3] ≠ ([] : List Nat) ∧
    sampleCollab.uuid_encode sampleFresh.codec_uuid = some (List.replicate 16 1) ∧
    (List.replicate 16 1).length = 16 ∧
    ∃ s2, encoder_consume sampleConsts sampleCollab sampleFresh [1, 2, 3] = .ok s2 ∧
      s2.encoder_ ≠ none :=
  ⟨rfl, rfl, by decide, rfl, rfl,
    match (hello_precedes_data sampleConsts sampleCollab sampleFresh [1, 2, 3]
      (List.replicate 16 1) rfl rfl (by decide) rfl rfl).1 with
    | ⟨s2, h1, h2, _⟩ => ⟨s2, h1, h2⟩⟩

/-! ## Second pass: what becomes of the first-pass matches -/

theorem copyGap_osm (c : Consts) (s : Pass2) (start : Nat) :
    (copyGap c s start).offset_seg_map = s.offset_seg_map ∧
    ∃ ts, (copyGap c s start).trace = s.trace ++ ts := by
  unfold copyGap
  split
  · exact ⟨rfl, _, rfl⟩
  · exact ⟨rfl, [], by simp⟩

theorem outputReference_osm (c : Consts) (s : Pass2) (start hash : Nat) (seg : Segment)
    (soff0 : Nat) :
    (outputReference c s start hash seg soff0).offset_seg_map = s.offset_seg_map ∧
    ∃ t, (outputReference c s start hash seg soff0).trace = s.trace ++ [t] ∧
      t.adopted? = some (start, seg) := by
  unfold outputReference
  dsimp only
  split
  · exact ⟨rfl, _, rfl, rfl⟩
  · exact ⟨rfl, _, rfl, rfl⟩

theorem emitSlice_osm (c : Consts) (s : Pass2) (start hash : Nat) (seg : Segment) :
    (emitSlice c s start hash seg).offset_seg_map = s.offset_seg_map ∧
    ∃ ts t, (emitSlice c s start hash seg).trace = s.trace ++ ts ++ [t] ∧
      t.adopted? = some (start, seg) := by
  unfold emitSlice
  obtain ⟨h1, ts, h2⟩ := copyGap_osm c s start
  obtain ⟨h3, t, h4, h5⟩ := outputReference_osm c (copyGap c s start) start hash seg s.soff
  exact ⟨h3.trans h1, ts, t, by rw [h4, h2], h5⟩

theorem lookupOrDeclare_osm (c : Consts) (s : Pass2) (start hash : Nat) :
    (lookupOrDeclare c s start hash).offset_seg_map = s.offset_seg_map ∧
    ∃ ts, (lookupOrDeclare c s start hash).trace = s.trace ++ ts := by
  unfold lookupOrDeclare
  dsimp only
  split
  · split
    · exact ⟨rfl, [], by simp⟩
    · obtain ⟨h1, ts, t, h2, -⟩ := emitSlice_osm c
        (skipOverlapping s (start + XCODEC_SEGMENT_LENGTH)) start hash _
      exact ⟨h1, ts ++ [t], by rw [h2]; simp [skipOverlapping]⟩
  · obtain ⟨h1, ts, t, h2, -⟩ := emitSlice_osm c
      (skipOverlapping (declareSegment c s start hash
        (Buffer.copyout s.outq (start - s.soff) XCODEC_SEGMENT_LENGTH))
        (start + XCODEC_SEGMENT_LENGTH)) start hash
        (Buffer.copyout s.outq (start - s.soff) XCODEC_SEGMENT_LENGTH)
    exact ⟨h1, Token.declare start hash
      (Buffer.copyout s.outq (start - s.soff) XCODEC_SEGMENT_LENGTH) :: (ts ++ [t]),
      by rw [h2]; simp [skipOverlapping, declareSegment]⟩

/-- One iteration of the second pass either leaves `offset_seg_map` alone or erases its
head and ends with a reference to that segment at that offset; the items emitted so far
stay. -/
theorem secondPassStep_osm (c : Consts) (s : Pass2) :
    ((secondPassStep c s).offset_seg_map = s.offset_seg_map ∧
      ∃ ts, (secondPassStep c s).trace = s.trace ++ ts) ∨
    (∃ e ts t, s.offset_seg_map = e :: (secondPassStep c s).offset_seg_map ∧
      (secondPassStep c s).trace = s.trace ++ ts ++ [t] ∧ t.adopted? = some e) := by
  unfold secondPassStep
  split
  · exact Or.inl ⟨rfl, [], by simp⟩
  dsimp only
  split
  · rename_i ofirst oseg osrest hosm
    split
    · rename_i heq
      right
      obtain ⟨h1, ts, t, h2, h3⟩ := emitSlice_osm c
        { s with offset_hash_map := _, offset_seg_map := osrest } _ _ oseg
      refine ⟨(ofirst, oseg), ts, t, ?_, h2, ?_⟩
      · rw [h1]; exact hosm
      · rw [h3, heq]
    · split
      · exact Or.inl ⟨rfl, [], by simp⟩
      · left
        obtain ⟨h1, ts, h2⟩ := lookupOrDeclare_osm c { s with offset_hash_map := _ } _ _
        exact ⟨h1, ts, h2⟩
  · left
    obtain ⟨h1, ts, h2⟩ := lookupOrDeclare_osm c { s with offset_hash_map := _ } _ _
    exact ⟨h1, ts, h2⟩

/-- Over the second pass, an entry of `offset_seg_map` stays in the map or has been emitted
as a reference. -/
theorem secondPassLoop_osm (c : Consts) (fuel : Nat) (s : Pass2) :
    (∀ t ∈ s.trace, t ∈ (secondPassLoop c fuel s).trace) ∧
    ∀ e ∈ s.offset_seg_map, e ∈ (secondPassLoop c fuel s).offset_seg_map ∨
      ∃ t ∈ (secondPassLoop c fuel s).trace, t.adopted? = some e := by
  induction fuel generalizing s with
  | zero => exact ⟨fun t h => h, fun e h => Or.inl h⟩
  | succ n ih =>
    unfold secondPassLoop
    split
    · exact ⟨fun t h => h, fun e h => Or.inl h⟩
    · obtain ⟨i1, i2⟩ := ih (secondPassStep c s)
      rcases secondPassStep_osm c s with ⟨h1, ts, h2⟩ | ⟨e0, ts, t0, h1, h2, h3⟩
      · refine ⟨fun t ht => i1 t (by rw [h2]; exact List.mem_append_left _ ht), ?_⟩
        intro e he
        exact i2 e (by rw [h1]; exact he)
      · refine ⟨fun t ht => i1 t (by
          rw [h2]; exact List.mem_append_left _ (List.mem_append_left _ ht)), ?_⟩
        intro e he
        rw [h1] at he
        rcases List.mem_cons.1 he with rfl | he
        · exact Or.inr ⟨t0, i1 t0 (by rw [h2]; simp), h3⟩
        · exact i2 e he

/-! ## The closing assertion of the second pass -/

/-- C19. For every input of at least 64 bytes and every encoder state, `offset_seg_map`
(like `offset_hash_map`) is empty when the second pass ends, so
`ASSERT(offset_seg_map.empty())` holds: every match `(start, segment)` of the first pass
has a candidate at `start` in `offset_hash_map` and is emitted as a reference to that
segment at that offset. -/
theorem offset_seg_map_empty (c : Consts) (H : List Nat → Nat) (enc : XCodecEncoder)
    (out inp : List Nat) (h : 64 ≤ inp.length) :
    (encodeRun c H enc out inp).offset_seg_map = [] ∧
    (encodeRun c H enc out inp).offset_hash_map = [] ∧
    ∀ e ∈ (firstPass H enc.database_ Pass1.init inp).offset_seg_map,
      (∃ hash, (e.1, hash) ∈ (firstPass H enc.database_ Pass1.init inp).offset_hash_map) ∧
      ∃ t ∈ (encodeRun c H enc out inp).trace, t.adopted? = some e := by
  have hlen : ¬ inp.length < XCODEC_SEGMENT_LENGTH := by
    unfold XCODEC_SEGMENT_LENGTH; omega
  have hinv := secondPassLoop_inv
    (firstPass H enc.database_ Pass1.init inp).offset_hash_map.length
    (secondPassInit_inv c H enc out inp)
  have hohm := secondPassLoop_ohm c
    (firstPass H enc.database_ Pass1.init inp).offset_hash_map.length
    (secondPassInit enc out (firstPass H enc.database_ Pass1.init inp)) (le_refl _)
  have hosm : (secondPassLoop c (firstPass H enc.database_ Pass1.init inp).offset_hash_map.length
      (secondPassInit enc out (firstPass H enc.database_ Pass1.init inp))).offset_seg_map
      = [] := by
    rw [List.eq_nil_iff_forall_not_mem]
    intro e he
    obtain ⟨⟨h2, hm⟩, -⟩ := hinv.osm_ok e he
    rw [hohm] at hm
    cases hm
  have h1 := firstPass_inv H enc.database_ inp Pass1.init (Inv1_init H enc.database_)
  unfold encodeRun
  rw [if_neg hlen]
  refine ⟨hosm, hohm, fun e he => ⟨(h1.osm_ok e he).2.1, ?_⟩⟩
  obtain ⟨-, hk⟩ := secondPassLoop_osm c
    (firstPass H enc.database_ Pass1.init inp).offset_hash_map.length
    (secondPassInit enc out (firstPass H enc.database_ Pass1.init inp))
  rcases hk e he with hin | ⟨t, ht, hta⟩
  · rw [hosm] at hin; cases hin
  · refine ⟨t, ?_, hta⟩
    dsimp only
    split
    · exact List.mem_append_left _ ht
    · exact ht

set_option maxRecDepth 100000 in
/-- C19 at a concrete input: 128 bytes `a` on an encoder whose cache already holds the
segment `a × 64`. The first pass records two matches, at offsets 0 and 64; both are
adopted, and `offset_seg_map` is empty at the end. -/
theorem offset_seg_map_empty_witness :
    64 ≤ scenarioX.length ∧
    (firstPass sampleHash
      (XCDatabase.empty.enter (XCodecHash_hash sampleHash (List.replicate 64 97))
        (List.replicate 64 97)) Pass1.init scenarioX).offset_seg_map =
      [(0, List.replicate 64 97), (64, List.replicate 64 97)] ∧
    (encodeRun sampleConsts sampleHash
      { database_ := XCDatabase.empty.enter (XCodecHash_hash sampleHash (List.replicate 64 97))
          (List.replicate 64 97),
        backref_ := XCBackref.empty } [] scenarioX).offset_seg_map = [] ∧
    (encodeRun sampleConsts sampleHash
      { database_ := XCDatabase.empty.enter (XCodecHash_hash sampleHash (List.replicate 64 97))
          (List.replicate 64 97),
        backref_ := XCBackref.empty } [] scenarioX).offset_hash_map = [] ∧
    ∀ e ∈ (firstPass sampleHash
        (XCDatabase.empty.enter (XCodecHash_hash sampleHash (List.replicate 64 97))
          (List.replicate 64 97)) Pass1.init scenarioX).offset_seg_map,
      (∃ hash, (e.1, hash) ∈ (firstPass sampleHash
        (XCDatabase.empty.enter (XCodecHash_hash sampleHash (List.replicate 64 97))
          (List.replicate 64 97)) Pass1.init scenarioX).offset_hash_map) ∧
      ∃ t ∈ (encodeRun sampleConsts sampleHash
        { database_ := XCDatabase.empty.enter
            (XCodecHash_hash sampleHash (List.replicate 64 97)) (List.replicate 64 97),
          backref_ := XCBackref.empty } [] scenarioX).trace, t.adopted? = some e :=
  ⟨by decide, by rw [firstPass_scenario_second sampleHash],
    offset_seg_map_empty sampleConsts sampleHash
      { database_ := XCDatabase.empty.enter (XCodecHash_hash sampleHash (List.replicate 64 97))
          (List.replicate 64 97),
        backref_ := XCBackref.empty } [] scenarioX (by decide)⟩

/-! ## The `EOS_ACK` of the shutdown handshake -/

set_option maxRecDepth 1000000 in
/-- C20 (failing input). From construction: the pipe pair sends 64 bytes `b` (a `HELLO`
and a `FRAME` declaring the segment), receives the peer's `HELLO`, then the peer's `EOS`
in one chunk and, in the next chunk, an `ASK` for the declared segment.
`decoder_consume` answers the `EOS` with an `EOS_ACK` at the end of the one call, and at
the end of the next call, after the `LEARN` that answers the `ASK`, it produces the
`EOS_ACK` frame a second time. -/
theorem eos_ack_sent_twice :
    (sampleFresh.run sampleConsts sampleCollab
      [Call.encoder_consume (List.replicate 64 98),
       Call.decoder_consume ([0xf1, 1, 0, 19, 0xf1, 0xff, 16] ++ List.replicate 16 2),
       Call.decoder_consume [0xf1, 1, 0, 2, 0xf1, 0xfc],
       Call.decoder_consume
        [0xf1, 1, 0, 10, 0xf1, 0xfe, 85, 191, 134, 3, 166, 190, 208, 7]]).map
      (fun s => s.events.drop 1) =
      .ok [Event.encoder_produce [0xf1, 1, 0, 2, 0xf1, 0xfb],
        Event.encoder_produce ([0xf1, 1, 0, 66, 0xf1, 0xfd] ++ List.replicate 64 98),
        Event.encoder_produce [0xf1, 1, 0, 2, 0xf1, 0xfb]] ∧
    ([Event.encoder_produce [0xf1, 1, 0, 2, 0xf1, 0xfb],
      Event.encoder_produce ([0xf1, 1, 0, 66, 0xf1, 0xfd] ++ List.replicate 64 98),
      Event.encoder_produce [0xf1, 1, 0, 2, 0xf1, 0xfb]].count
        (Event.encoder_produce (oobOf sampleConsts
          [sampleConsts.XCODEC_MAGIC, sampleConsts.XCODEC_OP_EOS_ACK]))) = 2 := by
  refine ⟨rfl, ?_⟩
  decide

/-! ## The pipe pair: more bytes to come, a longer past -/

theorem more_cacheOf (s : XCodecPipePair) (b : List Nat) (Q : List Event) (u : List Nat) :
    (s.more b Q).cacheOf u = s.cacheOf u := rfl

theorem more_setCache (s : XCodecPipePair) (b : List Nat) (Q : List Event) (u : List Nat)
    (db : XCDatabase) : (s.more b Q).setCache u db = (s.setCache u db).more b Q := rfl

theorem CVInv_init : CVInv ConditionVariable.init :=
  { one := Or.inl rfl
    handle_iff := by simp [ConditionVariable.init]
    waits_eq := rfl
    schedules_eq := rfl }

/-- A use the callers may make does not fail an assertion and keeps the invariant. -/
theorem CVInv_call (v : ConditionVariable) (k : CVCall) (h : CVInv v)
    (ha : v.allows k = true) : ∃ v2, v.call k = .ok v2 ∧ CVInv v2 := by
  obtain ⟨h1, h2, h3, h4⟩ := h
  cases k with
  | signal =>
    cases hc : v.wait_callback_ with
    | none => exact ⟨v, by simp [ConditionVariable.call, ConditionVariable.signal, hc],
        ⟨h1, h2, h3, h4⟩⟩
    | some cb =>
      have hact : v.wait_action_ = none := by
        rcases h1 with h1 | h1
        · rw [hc] at h1; cases h1
        · exact h1
      refine ⟨{ v with wait_action_ := some v.effects.length, wait_callback_ := none,
                       effects := v.effects ++ [CVEffect.scheduled cb v.effects.length] },
        by simp [ConditionVariable.call, ConditionVariable.signal, hc, hact], ?_⟩
      simp only [hc, hact] at h2 h3 h4
      exact {
        one := Or.inl rfl
        handle_iff := by simpa using h2
        waits_eq := by
          simp [ConditionVariable.waits, ConditionVariable.schedules, ConditionVariable.deletes,
            List.countP_append] at h3 ⊢
          omega
        schedules_eq := by
          simp [ConditionVariable.schedules, ConditionVariable.cancels,
            List.countP_append] at h4 ⊢
          omega }
  | wait cb =>
    simp only [ConditionVariable.allows, Bool.and_eq_true, decide_eq_true_eq] at ha
    obtain ⟨hact, hc⟩ := ha
    refine ⟨{ v with wait_callback_ := some cb, handle := true,
                     effects := v.effects ++ [CVEffect.registered cb] },
      by simp [ConditionVariable.call, ConditionVariable.wait, hc, hact], ?_⟩
    simp only [hc, hact] at h2 h3 h4
    exact {
      one := Or.inr hact
      handle_iff := by simp
      waits_eq := by
        simp [ConditionVariable.waits, ConditionVariable.schedules, ConditionVariable.deletes,
          List.countP_append] at h3 ⊢
        omega
      schedules_eq := by
        simp [ConditionVariable.schedules, ConditionVariable.cancels, List.countP_append,
          hact] at h4 ⊢
        omega }
  | cancel =>
    simp only [ConditionVariable.allows] at ha
    have h5 := h2.1 ha
    cases hc : v.wait_callback_ with
    | some cb =>
      have hact : v.wait_action_ = none := by
        rcases h1 with h1 | h1
        · rw [hc] at h1; cases h1
        · exact h1
      refine ⟨{ v with wait_callback_ := none, handle := false,
                       effects := v.effects ++ [CVEffect.deleted cb] },
        by simp [ConditionVariable.call, ConditionVariable.wait_cancel, hc, hact], ?_⟩
      simp only [hc, hact] at h3 h4
      exact {
        one := Or.inl rfl
        handle_iff := by simp [hact]
        waits_eq := by
          simp [ConditionVariable.waits, ConditionVariable.schedules, ConditionVariable.deletes,
            List.countP_append] at h3 ⊢
          omega
        schedules_eq := by
          simp [ConditionVariable.schedules, ConditionVariable.cancels, List.countP_append,
            hact] at h4 ⊢
          omega }
    | none =>
      cases hact : v.wait_action_ with
      | none =>
        rw [hc, hact] at h5
        simp at h5
      | some a =>
        refine ⟨{ v with wait_action_ := none, handle := false,
                         effects := v.effects ++ [CVEffect.cancelled a] },
          by simp [ConditionVariable.call, ConditionVariable.wait_cancel, hc, hact], ?_⟩
        simp only [hc, hact] at h3 h4
        exact {
          one := Or.inl hc
          handle_iff := by simp [hc]
          waits_eq := by
            simp [ConditionVariable.waits, ConditionVariable.schedules,
              ConditionVariable.deletes, List.countP_append, hc] at h3 ⊢
            omega
          schedules_eq := by
            simp [ConditionVariable.schedules, ConditionVariable.cancels,
              List.countP_append] at h4 ⊢
            omega }

/-- A sequence of uses the callers may make runs to its end and keeps the invariant. -/
theorem CVInv_run (ks : List CVCall) (v : ConditionVariable) (h : CVInv v)
    (ha : v.admissible ks = true) : ∃ v2, v.run ks = .ok v2 ∧ CVInv v2 := by
  induction ks generalizing v with
  | nil => exact ⟨v, rfl, h⟩
  | cons k ks ih =>
    simp only [ConditionVariable.admissible, Bool.and_eq_true] at ha
    obtain ⟨ha1, ha2⟩ := ha
    obtain ⟨v2, hv, hi⟩ := CVInv_call v k h ha1
    rw [hv] at ha2
    obtain ⟨v3, hr, hi3⟩ := ih v2 hi ha2
    exact ⟨v3, by simp only [ConditionVariable.run, hv]; exact hr, hi3⟩

/-- C21. `ConditionVariable` invariant. Every sequence of uses from construction in which
`wait` is called only when its assertions hold and the cancellation returned by a `wait` is
used at most once runs without a failed assertion, and in the state `v` it reaches at most
one of `wait_callback_` and `wait_action_` is set. Every callback taken by `wait` is still
waiting, has been scheduled once or has been deleted, so it is scheduled at most once per
`wait`, and every action obtained is held or has been cancelled. In `v`, `signal()` with
no callback registered changes nothing and schedules nothing, and with a callback
registered it schedules it and holds the action; the cancellation before the signal
deletes the callback, after the signal it cancels the action, and both leave the two
fields null. -/
theorem condition_variable_invariant (ks : List CVCall)
    (h : ConditionVariable.init.admissible ks = true) :
    ∃ v, ConditionVariable.init.run ks = .ok v ∧
      (v.wait_callback_ = none ∨ v.wait_action_ = none) ∧
      v.waits = v.schedules + v.deletes + (if v.wait_callback_ = none then 0 else 1) ∧
      v.schedules + v.deletes ≤ v.waits ∧
      v.schedules = v.cancels + (if v.wait_action_ = none then 0 else 1) ∧
      (v.wait_callback_ = none → v.signal = .ok v) ∧
      (∀ cb, v.wait_callback_ = some cb →
        v.signal = .ok { v with wait_action_ := some v.effects.length, wait_callback_ := none,
                                effects := v.effects ++
                                  [CVEffect.scheduled cb v.effects.length] }) ∧
      (∀ cb, v.wait_callback_ = some cb →
        v.handle = true ∧ v.wait_action_ = none ∧
        v.wait_cancel = .ok { v with wait_callback_ := none, handle := false,
                                     effects := v.effects ++ [CVEffect.deleted cb] }) ∧
      (∀ a, v.wait_action_ = some a →
        v.handle = true ∧ v.wait_callback_ = none ∧
        v.wait_cancel = .ok { v with wait_action_ := none, handle := false,
                                     effects := v.effects ++ [CVEffect.cancelled a] }) := by
  obtain ⟨v, hr, hi⟩ := CVInv_run ks ConditionVariable.init CVInv_init h
  have hone : ∀ cb, v.wait_callback_ = some cb → v.wait_action_ = none := by
    intro cb hc
    rcases hi.one with h1 | h1
    · rw [hc] at h1; cases h1
    · exact h1
  have htwo : ∀ a, v.wait_action_ = some a → v.wait_callback_ = none := by
    intro a hc
    rcases hi.one with h1 | h1
    · exact h1
    · rw [hc] at h1; cases h1
  refine ⟨v, hr, hi.one, hi.waits_eq, ?_, hi.schedules_eq, ?_, ?_, ?_, ?_⟩
  · have := hi.waits_eq
    omega
  · intro hc
    simp [ConditionVariable.signal, hc]
  · intro cb hc
    simp [ConditionVariable.signal, hc, hone cb hc]
  · intro cb hc
    refine ⟨hi.handle_iff.2 (Or.inl (by rw [hc]; simp)), hone cb hc, ?_⟩
    simp [ConditionVariable.wait_cancel, hc, hone cb hc]
  · intro a ha
    refine ⟨hi.handle_iff.2 (Or.inr (by rw [ha]; simp)), htwo a ha, ?_⟩
    simp [ConditionVariable.wait_cancel, ha, htwo a ha]

theorem condition_variable_invariant_witness :
    ConditionVariable.init.admissible
      [CVCall.wait 7, CVCall.signal, CVCall.signal, CVCall.cancel, CVCall.wait 8,
        CVCall.cancel, CVCall.signal] = true ∧
    ∃ v, ConditionVariable.init.run
        [CVCall.wait 7, CVCall.signal, CVCall.signal, CVCall.cancel, CVCall.wait 8,
          CVCall.cancel, CVCall.signal] = .ok v ∧
      (v.wait_callback_ = none ∨ v.wait_action_ = none) :=
  ⟨by decide,
    match condition_variable_invariant
      [CVCall.wait 7, CVCall.signal, CVCall.signal, CVCall.cancel, CVCall.wait 8,
        CVCall.cancel, CVCall.signal] (by decide) with
    | ⟨v, h1, h2, _⟩ => ⟨v, h1, h2⟩⟩

/-! ## Frames of `encode_frame` in the frame loop -/

/-- One iteration of the frame loop on a well-formed `FRAME`: the payload joins the frame
buffer, then the token decoder step runs. -/
theorem decoder_consume_step_feed (c : Consts) (col : Collab) (s : XCodecPipePair)
    (p rest : List Nat) (hbuf : s.decoder_buffer_ = frameOf c p ++ rest)
    (hp1 : 1 ≤ p.length) (hp : p.length ≤ 32768)
    (hdec : s.decoder_ ≠ none) (hops : c.XCODEC_OP_FRAME ≠ c.XCODEC_OP_OOB) :
    decoder_consume_step c col s =
      decoder_consume_decode c col
        { s with decoder_buffer_ := rest,
                 decoder_frame_buffer_ := s.decoder_frame_buffer_ ++ p } := by
  have hlen : (frameOf c p ++ rest).length = 4 + p.length + rest.length := by
    simp [frameOf, be16]; omega
  have hmv : Buffer.moveout? (frameOf c p ++ rest) (1 + 1 + 2) p.length = .ok (p, rest) := by
    simp only [Buffer.moveout?, hlen]
    rw [if_pos (by omega)]
    have h4 : 1 + 1 + 2 + p.length = p.length + 4 := by omega
    have hd : ∀ (a b c2 d : Nat) (l : List Nat),
        List.drop (p.length + 4) (a :: b :: c2 :: d :: l) = List.drop p.length l :=
      fun _ _ _ _ _ => rfl
    simp only [Buffer.moveout, frameOf, be16, h4, List.cons_append, List.nil_append, hd,
      List.drop_succ_cons, List.drop_zero, List.drop_left, List.take_left]
  unfold decoder_consume_step
  rw [hbuf, frame_header_frameOf c p rest hp]
  dsimp only
  rw [hmv]
  simp only [hlen]
  rw [if_neg (by omega)]
  simp only [ne_eq, not_true_eq_false, if_false, hdec, and_false, false_and]
  rw [if_neg (by unfold XCODEC_FRAME_LENGTH; omega), if_neg (by omega)]
  simp only [decoder_consume_payload, if_neg hops]

/-- The token decoder step of the loop keeps a bound decoder bound. -/
theorem decoder_consume_decode_bound (c : Consts) (col : Collab) (s s2 : XCodecPipePair)
    (x : LoopExit) (h : decoder_consume_decode c col s = .ok (x, s2))
    (hdec : s.decoder_ ≠ none) : s2.decoder_ ≠ none := by
  unfold decoder_consume_decode at h
  split at h
  · cases h; exact hdec
  split at h
  · cases h; exact hdec
  split at h
  · dsimp only at h
    repeat' split at h
    all_goals first
      | (cases h; done)
      | (cases h; simp [XCodecPipePair.emit])
  · cases h

/-- The frame loop on the frames of a payload sequence is `feed_frames`. -/
theorem decoder_consume_loop_feed (c : Consts) (col : Collab) (ps : List (List Nat))
    (fuel : Nat) (s : XCodecPipePair) (hbuf : s.decoder_buffer_ = framesOf c ps)
    (hfuel : (framesOf c ps).length ≤ fuel)
    (hps : ∀ p ∈ ps, 1 ≤ p.length ∧ p.length ≤ 32768)
    (hdec : s.decoder_ ≠ none) (hops : c.XCODEC_OP_FRAME ≠ c.XCODEC_OP_OOB) :
    decoder_consume_loop c col fuel s = feed_frames c col s ps := by
  induction ps generalizing fuel s with
  | nil =>
    simp only [framesOf] at hbuf
    cases s
    simp only at hbuf
    subst hbuf
    cases fuel <;> simp only [decoder_consume_loop, if_true, feed_frames]
  | cons p ps ih =>
    have hpos := framesOf_length_pos c p ps
    cases fuel with
    | zero => omega
    | succ n =>
      have hne : s.decoder_buffer_ ≠ [] := by
        intro h; rw [hbuf] at h; rw [h] at hpos; simp at hpos
      have hp := hps p (List.mem_cons_self _ _)
      have hstep := decoder_consume_step_feed c col s p (framesOf c ps) (by rw [hbuf]; rfl)
        hp.1 hp.2 hdec hops
      rw [decoder_consume_loop, if_neg hne, hstep, feed_frames]
      cases hd : decoder_consume_decode c col
          { s with decoder_buffer_ := framesOf c ps,
                   decoder_frame_buffer_ := s.decoder_frame_buffer_ ++ p } with
      | error f => rfl
      | ok r =>
        obtain ⟨x, s2⟩ := r
        cases x with
        | returned => rfl
        | «continue» =>
          have hk := (decoder_consume_decode_keeps c col _ _ hd).1
          have hb := decoder_consume_decode_bound c col _ s2 _ hd hdec
          exact ih n s2 hk (by
            simp only [framesOf, List.length_append] at hfuel
            have : 0 < (frameOf c p).length := by simp [frameOf]
            omega) (fun q hq => hps q (List.mem_cons_of_mem _ hq)) hb

/-- The frames of `encode_frame` follow what `out` already holds. -/
theorem encode_frame_loop_out (c : Consts) (fuel : Nat) (out inp : List Nat) :
    encode_frame_loop c fuel out inp = out ++ encode_frame_loop c fuel [] inp := by
  induction fuel generalizing out inp with
  | zero => simp [encode_frame_loop]
  | succ n ih =>
    cases inp with
    | nil => simp [encode_frame_loop]
    | cons b bs =>
      unfold encode_frame_loop
      dsimp only
      rw [ih (out ++ _ ++ _ ++ _), ih ([] ++ _ ++ _ ++ _)]
      simp only [List.nil_append, List.append_assoc]

/-- What `feed_frames` does not read of its state: the inbound buffer. -/
theorem feed_frames_buffer (c : Consts) (col : Collab) (s : XCodecPipePair)
    (b : List Nat) (ps : List (List Nat)) :
    feed_frames c col { s with decoder_buffer_ := b } ps = feed_frames c col s ps := by
  cases ps <;> rfl

set_option maxRecDepth 100000 in
/-- C10 (counterexample). On `sampleIdle`, whose decoder is bound, whose inbound buffer is
empty and which waits for no unknown hash, the single frame of the bytes `1, 2, 3` is
accepted, but the frame buffer is empty afterwards: the token decoder has consumed the
payload and delivered it. The frame of the bytes `0xf3, 0` ends in `decoder_error`. -/
theorem frame_buffer_counterexample :
    ([1, 2, 3] : List Nat) ≠ [] ∧
    sampleIdle.decoder_buffer_ = [] ∧ sampleIdle.decoder_ ≠ none ∧
    (decoder_consume sampleConsts sampleCollab sampleIdle
        (encode_frame sampleConsts [] [1, 2, 3])).map
          (fun s => (s.events, s.decoder_frame_buffer_)) =
      .ok ([Event.decoder_produce [1, 2, 3]], []) ∧
    ([] : List Nat) ≠ sampleIdle.decoder_frame_buffer_ ++ [1, 2, 3] ∧
    (decoder_consume sampleConsts sampleCollab sampleIdle
        (encode_frame sampleConsts [] [0xf3, 0])).map
          (fun s => (s.events, s.decoder_frame_buffer_)) =
      .ok ([Event.decoder_error], [0xf3, 0]) :=
  ⟨by decide, rfl, by decide, rfl, by decide, rfl⟩

/-- C10 (amended). Frame splitting round trip: for every non-empty `E`, `encode_frame`
appends `ceil(|E| / 32768)` frames to `out`, each made of `MAGIC`, `OP_FRAME`, the payload
length as two big-endian bytes and the payload, with `1 ≤ LEN ≤ FRAME_LENGTH` and
`LEN = FRAME_LENGTH` for every frame but the last, and the payloads concatenated in order
are `E`. In a pipe pair whose decoder is bound and whose inbound buffer is empty, the frame
parser of `decoder_consume` accepts every frame it reaches and appends its payload to the
frame buffer; after each frame the token decoder step runs on the frame buffer, so the call
is `feed_frames` on the payloads, followed by the closing part unless the token decoder
failed. While unknown hashes are pending that step leaves the frame buffer alone, and the
call ends without error with `E` at the end of the frame buffer. -/
theorem encode_frame_roundtrip (c : Consts) (col : Collab) (s : XCodecPipePair)
    (out E : List Nat) (hE : E ≠ [])
    (hops : c.XCODEC_OP_FRAME ≠ c.XCODEC_OP_OOB)
    (hbuf : s.decoder_buffer_ = [])
    (hdec : s.decoder_ ≠ none) :
    ∃ ps : List (List Nat),
      payloadOf ps = E ∧ encode_frame c out E = out ++ framesOf c ps ∧
      ps.length = (E.length + (XCODEC_FRAME_LENGTH - 1)) / XCODEC_FRAME_LENGTH ∧
      (∀ p ∈ ps, 1 ≤ p.length ∧ p.length ≤ XCODEC_FRAME_LENGTH) ∧
      (∀ p ∈ ps.dropLast, p.length = XCODEC_FRAME_LENGTH) ∧
      decoder_consume c col s (encode_frame c [] E) =
        (match feed_frames c col s ps with
         | .error f => .error f
         | .ok (.returned, s2) => .ok s2
         | .ok (.continue, s2) => decoder_consume_eos c s2) ∧
      (s.decoder_unknown_hashes_ ≠ [] →
        decoder_consume c col s (encode_frame c [] E) =
          .ok { s with decoder_frame_buffer_ := s.decoder_frame_buffer_ ++ E }) := by
  obtain ⟨ps, h1, h2, h3, h4, h5⟩ := encode_frame_loop_spec c E.length [] E (le_refl _)
  have h2b : encode_frame c [] E = framesOf c ps := by
    rw [encode_frame, h2, List.nil_append]
  have h2c : encode_frame c out E = out ++ framesOf c ps := by
    rw [← h2b, encode_frame, encode_frame, encode_frame_loop_out]
  have hne : framesOf c ps ≠ [] := by
    cases ps with
    | nil => exact absurd h1.symm hE
    | cons p ps =>
      intro h
      have := framesOf_length_pos c p ps
      rw [h] at this
      simp at this
  refine ⟨ps, h1, h2c, h3, h4, h5, ?_, ?_⟩
  · have hloop := decoder_consume_loop_feed c col ps (framesOf c ps).length
      { s with decoder_buffer_ := framesOf c ps } rfl (le_refl _) h4 hdec hops
    rw [feed_frames_buffer] at hloop
    rw [h2b]
    unfold decoder_consume
    rw [if_neg hne, hbuf, List.nil_append, hloop]
  · intro hunk
    have hloop := decoder_consume_loop_frames c col ps (framesOf c ps).length
      { s with decoder_buffer_ := framesOf c ps } rfl (le_refl _) h4 hdec hunk hops
    rw [h2b]
    unfold decoder_consume
    rw [if_neg hne, hbuf, List.nil_append, hloop]
    simp only [decoder_consume_eos, h1]
    rw [if_neg (by simp [hE])]

/-- C10 at a concrete input: 32769 bytes `7` framed for `samplePeer`, which waits for an
unknown hash, make two frames, the first with a payload of 32768 bytes, and the call of
`decoder_consume` on them leaves the 32769 bytes at the end of the frame buffer. -/
theorem encode_frame_roundtrip_witness :
    List.replicate 32769 7 ≠ [] ∧ samplePeer.decoder_buffer_ = [] ∧
    samplePeer.decoder_ ≠ none ∧ samplePeer.decoder_unknown_hashes_ ≠ [] ∧
    ((List.replicate 32769 7).length + (XCODEC_FRAME_LENGTH - 1)) / XCODEC_FRAME_LENGTH = 2 ∧
    ∃ ps : List (List Nat),
      payloadOf ps = List.replicate 32769 7 ∧
      encode_frame sampleConsts [] (List.replicate 32769 7) = [] ++ framesOf sampleConsts ps ∧
      ps.length =
        ((List.replicate 32769 7).length + (XCODEC_FRAME_LENGTH - 1)) / XCODEC_FRAME_LENGTH ∧
      (∀ p ∈ ps, 1 ≤ p.length ∧ p.length ≤ XCODEC_FRAME_LENGTH) ∧
      (∀ p ∈ ps.dropLast, p.length = XCODEC_FRAME_LENGTH) ∧
      decoder_consume sampleConsts sampleCollab samplePeer
          (encode_frame sampleConsts [] (List.replicate 32769 7)) =
        (match feed_frames sampleConsts sampleCollab samplePeer ps with
         | .error f => .error f
         | .ok (.returned, s2) => .ok s2
         | .ok (.continue, s2) => decoder_consume_eos sampleConsts s2) ∧
      decoder_consume sampleConsts sampleCollab samplePeer
          (encode_frame sampleConsts [] (List.replicate 32769 7)) =
        .ok { samplePeer with
              decoder_frame_buffer_ :=
                samplePeer.decoder_frame_buffer_ ++ List.replicate 32769 7 } :=
  have hE : List.replicate 32769 7 ≠ [] := fun h => by
    have hl := congrArg List.length h
    rw [List.length_replicate] at hl
    exact absurd hl (by decide)
  have hunk : samplePeer.decoder_unknown_hashes_ ≠ [] := by decide
  ⟨hE, rfl, by decide, hunk, by rw [List.length_replicate]; rfl,
    (encode_frame_roundtrip sampleConsts sampleCollab samplePeer []
      (List.replicate 32769 7) hE (by decide) rfl (by decide)).imp
      (fun _ h => ⟨h.1, h.2.1, h.2.2.1, h.2.2.2.1, h.2.2.2.2.1, h.2.2.2.2.2.1,
        h.2.2.2.2.2.2 hunk⟩)⟩

end XCodec
